import Mathlib

/-!
# log-socket: the broadcast core of `log/log.go`

A shallow embedding of the client registry, the namespace filter, the
per-client bounded buffer and the dispatch loop of package `log`, of the stderr
client with `Flush`, and of the logging functions of `log.go` and `logger.go`.

Modelling conventions.

* A `*Client` is an address: the position of the `Client` object in `State.heap`.
  `CreateClient` allocates at the end of the heap, and a `var c Client` declared
  by calling code is allocated by `newClient`.
* A `LogWriter` (`chan Entry`) is a FIFO list together with its capacity and its
  closed flag.  Every channel is made in `CreateClient` and is only ever reached
  through the `writer` field of the client it was made for, so it is stored in
  that field; the nil channel is `none`.
* A Go call either returns, panics, or blocks for ever; `Outcome` records which,
  together with the state at that moment.
* Calls are executed one after another (the mutexes `sliceTex` and
  `namespacesMux` serialise the critical sections and are not represented).
  `Flush` holds no mutex between its statements, so it is also given statement
  by statement (`Step`, `runSteps`), with calls of `createLog` in between; there
  `Run.sliceTex` records that a call which did not return left `sliceTex` locked.
* Go's `int` has 64 bits: a sum that the code computes in `int` is wrapped
  around by `wrapInt`.
-/

namespace LogSocket

/-! ## `types.go` -/

/-- The type `Level` is Go's `int`. -/
abbrev Level := Int

def LTrace : Level := 0
def LDebug : Level := 1
def LInfo : Level := 2
def LNotice : Level := 3
def LWarn : Level := 4
def LError : Level := 5
def LPanic : Level := 6
def LFatal : Level := 7

def DefaultNamespace : String := "default"

/-- The struct `Entry`; `Timestamp` is an abstract instant. -/
structure Entry where
  Timestamp : Nat
  Output : String
  File : String
  Level : String
  Namespace : String
  level : LogSocket.Level
deriving DecidableEq, Repr

/-- The zero value of `Entry`, which a receive on a closed, empty channel yields. -/
def Entry.zero : Entry :=
  { Timestamp := 0, Output := "", File := "", Level := "", Namespace := "", level := 0 }

/-- The type `LogWriter` is `chan Entry`: the queued entries (oldest first), the capacity
given to `make`, and whether `close` has been called. -/
structure LogWriter where
  buf : List Entry
  cap : Nat
  closed : Bool
deriving DecidableEq, Repr

/-- The call `make(LogWriter, n)`. -/
def LogWriter.make (n : Nat) : LogWriter :=
  { buf := [], cap := n, closed := false }

structure Client where
  LogLevel : Level
  Namespaces : List String
  writer : Option LogWriter
  initialized : Bool
deriving DecidableEq, Repr

/-- The zero value of `Client` (`var client Client`). -/
def Client.zero : Client :=
  { LogLevel := 0, Namespaces := [], writer := none, initialized := false }

/-- The value carried by a panic: an `errors.New(msg)` raised by the package, or
a run-time error of the Go runtime. -/
inductive PanicValue where
  | error (msg : String)
  | runtimeError (msg : String)
deriving DecidableEq, Repr

/-! ## Package state (`log.go`, the `var` block) -/

/-- A `sync.Once`: not yet used, held by a call of `Do` whose function has not
come back, or done. -/
inductive OnceState where
  | fresh
  | running
  | done
deriving DecidableEq, Repr

structure State where
  /-- every `Client` object allocated so far; a `*Client` is a position in it -/
  heap : List Client
  /-- the variable `clients []*Client` -/
  clients : List Nat
  /-- the variable `stderrClient *Client` -/
  stderrClient : Nat
  /-- the variable `cleanup sync.Once` -/
  cleanup : OnceState
  /-- the buffer of `stderrFinished` (`chan bool` of capacity 1) -/
  stderrFinished : List Bool
  /-- whether the goroutine started by `go stderrClient.logStdErr()` is still in its loop -/
  logStdErrRunning : Bool
  /-- the keys of `namespaces map[string]bool` -/
  namespaces : List String
  /-- the variable `colorEnabled` of `color.go` -/
  colorEnabled : Bool
  /-- the lines written to `os.Stderr` so far -/
  stderr : List String
deriving DecidableEq, Repr

/-- How a call ends: it returns a value, it panics, or it blocks for ever.
Each case carries the state reached. -/
inductive Outcome (α : Type) where
  | ret (v : α) (s : State)
  | panic (v : PanicValue) (s : State)
  | block (s : State)
deriving Repr

/-- The state in which a call ends. -/
def Outcome.state {α : Type} : Outcome α → State
  | .ret _ s => s
  | .panic _ s => s
  | .block s => s

/-- Dereferencing an address that holds no object. -/
def nilDeref : PanicValue :=
  .runtimeError "invalid memory address or nil pointer dereference"

/-! ## `log.go` -/

/-- Go `func (c *Client) matchesNamespace(namespace string) bool` -/
def Client.matchesNamespace (c : Client) (nspace : String) : Bool :=
  if c.Namespaces.length == 0 then true
  else c.Namespaces.any (fun ns => ns == nspace)

/-- Go `func CreateClient(namespaces ...string) *Client`: returns the address of
the new client and the new state. -/
def CreateClient (namespaces : List String) (s : State) : Nat × State :=
  let client : Client :=
    { Client.zero with
      initialized := true
      Namespaces := namespaces
      writer := some (LogWriter.make 1000) }
  (s.heap.length,
    { s with heap := s.heap ++ [client], clients := s.clients ++ [s.heap.length] })

/-- A declaration `var c Client` in calling code: a zero-value client that
`CreateClient` never saw; returns its address. -/
def newClient (s : State) : Nat × State :=
  (s.heap.length, { s with heap := s.heap ++ [Client.zero] })

/-- The loop of `Destroy`: `for _, x := range clients { if x.initialized { ... } }`.
`none` when some `x` cannot be dereferenced. -/
def Client.Destroy.loop (heap : List Client) : List Nat → List Nat → Option (List Nat)
  | [], otherClients => some otherClients
  | x :: xs, otherClients =>
    match heap[x]? with
    | none => none
    | some cx =>
      if cx.initialized then Client.Destroy.loop heap xs (otherClients ++ [x])
      else Client.Destroy.loop heap xs otherClients

/-- Go `func (c *Client) Destroy() error`; the returned error is `none` for `nil`. -/
def Client.Destroy (p : Nat) (s : State) : Outcome (Option String) :=
  match s.heap[p]? with
  | none => .panic nilDeref s
  | some c =>
    if !c.initialized then
      .panic (.error "cannot delete uninitialized client, did you use CreateClient?") s
    else
      let heap1 := s.heap.set p { c with writer := none, initialized := false }
      match Client.Destroy.loop heap1 s.clients [] with
      | none => .panic nilDeref { s with heap := heap1 }
      | some otherClients => .ret none { s with heap := heap1, clients := otherClients }

/-- Go `func (c *Client) GetLogLevel() Level` -/
def Client.GetLogLevel (p : Nat) (s : State) : Outcome Level :=
  match s.heap[p]? with
  | none => .panic nilDeref s
  | some c =>
    if !c.initialized then
      .panic (.error "cannot get level for uninitialized client, use CreateClient instead") s
    else .ret c.LogLevel s

/-- Go `func (c *Client) SetLogLevel(level Level)` -/
def Client.SetLogLevel (p : Nat) (level : Level) (s : State) : Outcome Unit :=
  match s.heap[p]? with
  | none => .panic nilDeref s
  | some c =>
    if !c.initialized then
      .panic (.error "cannot set level for uninitialized client, use CreateClient instead") s
    else .ret () { s with heap := s.heap.set p { c with LogLevel := level } }

/-- Go `func (c *Client) Get() Entry`: `return <-c.writer`.  A receive blocks on the
nil channel and on an open empty channel, and yields the zero value on a closed
empty one. -/
def Client.Get (p : Nat) (s : State) : Outcome Entry :=
  match s.heap[p]? with
  | none => .panic nilDeref s
  | some c =>
    if !c.initialized then
      .panic (.error "cannot get logs for uninitialized client, did you use CreateClient?") s
    else
      match c.writer with
      | none => .block s
      | some ch =>
        match ch.buf with
        | e :: rest =>
          .ret e { s with heap := s.heap.set p { c with writer := some { ch with buf := rest } } }
        | [] => if ch.closed then .ret Entry.zero s else .block s

/-- How the function literal called for one client in `createLog` ends. -/
inductive Delivery where
  | done (c : Client)
  | panic (v : PanicValue) (c : Client)
  | block (c : Client)
deriving DecidableEq, Repr

/-- The function literal `func(c *Client, e Entry) { ... }(c, e)` of `createLog`.

The outer `select` sends when the channel has room, panics when it is closed,
and takes `default` when the channel is nil or full.  The inner `select`
receives the oldest entry when there is one (or the zero value from a closed
channel) and then performs the plain send `c.writer <- e`; it takes `default`
when nothing can be received. -/
def createLog.deliver (c : Client) (e : Entry) : Delivery :=
  if !c.matchesNamespace e.Namespace then .done c
  else
    match c.writer with
    | none => .done c
    | some ch =>
      if ch.closed then .panic (.runtimeError "send on closed channel") c
      else if ch.buf.length < ch.cap then
        .done { c with writer := some { ch with buf := ch.buf ++ [e] } }
      else
        match ch.buf with
        | [] => .done c
        | _ :: rest =>
          if rest.length < ch.cap then
            .done { c with writer := some { ch with buf := rest ++ [e] } }
          else .block { c with writer := some { ch with buf := rest } }

/-- The loop `for _, c := range clients { ... }` of `createLog`. -/
def createLog.range (e : Entry) : List Nat → State → Outcome Unit
  | [], s => .ret () s
  | p :: ps, s =>
    match s.heap[p]? with
    | none => .panic nilDeref s
    | some c =>
      match createLog.deliver c e with
      | .done c1 => createLog.range e ps { s with heap := s.heap.set p c1 }
      | .panic v c1 => .panic v { s with heap := s.heap.set p c1 }
      | .block c1 => .block { s with heap := s.heap.set p c1 }

/-- The assignment `namespaces[ns] = true` on the key list of the map. -/
def trackNamespace (ns : String) (keys : List String) : List String :=
  if ns ∈ keys then keys else keys ++ [ns]

/-- Go `func createLog(e Entry)` -/
def createLog (e : Entry) (s : State) : Outcome Unit :=
  createLog.range e s.clients { s with namespaces := trackNamespace e.Namespace s.namespaces }

/-- Go `func GetNamespaces() []string` (in the order of the key list). -/
def GetNamespaces (s : State) : List String :=
  s.namespaces

/-- Go `func SetLogLevel(level Level)`: `stderrClient.LogLevel = level`. -/
def SetLogLevel (level : Level) (s : State) : Outcome Unit :=
  match s.heap[s.stderrClient]? with
  | none => .panic nilDeref s
  | some c => .ret () { s with heap := s.heap.set s.stderrClient { c with LogLevel := level } }

/-! ### `color.go`, as far as `logStdErr` uses it -/

def colorReset : String := "\x1b[0m"
def colorRed : String := "\x1b[31m"
def colorGreen : String := "\x1b[32m"
def colorYellow : String := "\x1b[33m"
def colorBlue : String := "\x1b[34m"
def colorPurple : String := "\x1b[35m"
def colorCyan : String := "\x1b[36m"
def colorGray : String := "\x1b[90m"
def colorBoldRed : String := "\x1b[1;31m"

/-- Go `func levelColor(level Level) string` -/
def levelColor (level : Level) : String :=
  if level = LTrace then colorGray
  else if level = LDebug then colorCyan
  else if level = LInfo then colorGreen
  else if level = LNotice then colorBlue
  else if level = LWarn then colorYellow
  else if level = LError then colorRed
  else if level = LPanic then colorBoldRed
  else if level = LFatal then colorBoldRed
  else colorReset

/-- Go `func colorize(text string, color string) string` -/
def colorize (s : State) (text color : String) : String :=
  if !s.colorEnabled then text else color ++ text ++ colorReset

/-- Go `func colorizeLevelText(level string, lvl Level) string` -/
def colorizeLevelText (s : State) (level : String) (lvl : Level) : String :=
  colorize s level (levelColor lvl)

/-- Go `func SetColorEnabled(enabled bool)` -/
def SetColorEnabled (enabled : Bool) (s : State) : State :=
  { s with colorEnabled := enabled }

/-! ### The stderr client -/

/-- The body of the loop of `logStdErr` for one received entry `e`; the decimal
numeral of the instant stands for `e.Timestamp.String()`. -/
def logStdErr.body (c : Client) (e : Entry) (s : State) : State :=
  if e.level >= c.LogLevel && c.matchesNamespace e.Namespace then
    let levelStr := colorizeLevelText s e.Level e.level
    let nsStr := colorize s ("[" ++ e.Namespace ++ "]") colorPurple
    let fileStr := colorize s e.File colorGray
    { s with stderr := s.stderr ++
        [toString e.Timestamp ++ "\t" ++ levelStr ++ "\t" ++ nsStr ++ "\t" ++ e.Output
          ++ "\t" ++ fileStr ++ "\n"] }
  else s

/-- One turn of the goroutine `go stderrClient.logStdErr()`: it takes the oldest
entry of the stderr client's channel and handles it; on a closed, empty channel
it leaves `for e := range c.writer` and sends on `stderrFinished`; otherwise it
waits. -/
def logStdErr.iter (s : State) : State :=
  if !s.logStdErrRunning then s
  else
    match s.heap[s.stderrClient]? with
    | none => s
    | some c =>
      match c.writer with
      | none => s
      | some ch =>
        match ch.buf with
        | e :: rest =>
          let c1 : Client := { c with writer := some { ch with buf := rest } }
          logStdErr.body c1 e { s with heap := s.heap.set s.stderrClient c1 }
        | [] =>
          if ch.closed && s.stderrFinished.length < 1 then
            { s with logStdErrRunning := false, stderrFinished := s.stderrFinished ++ [true] }
          else s

/-- The next `n` turns of the goroutine. -/
def logStdErr.run : Nat → State → State
  | 0, s => s
  | n + 1, s => logStdErr.run n (logStdErr.iter s)

/-- The end of the function passed to `cleanup.Do` in `Flush`:
`<-stderrFinished; stderrClient.Destroy()`. -/
def Flush.finish (s : State) : Outcome Unit :=
  match s.stderrFinished with
  | [] => .block s
  | _ :: rest =>
    match Client.Destroy s.stderrClient { s with stderrFinished := rest } with
    | .ret _ s1 => .ret () s1
    | .panic v s1 => .panic v s1
    | .block s1 => .block s1

/-- The function passed to `cleanup.Do` in `Flush`:
`close(stderrClient.writer); <-stderrFinished; stderrClient.Destroy()`.
While `Flush` waits on `stderrFinished` the goroutine takes its turns: one for
each queued entry and one to leave the loop. -/
def Flush.once (s : State) : Outcome Unit :=
  match s.heap[s.stderrClient]? with
  | none => .panic nilDeref s
  | some c =>
    match c.writer with
    | none => .panic (.runtimeError "close of nil channel") s
    | some ch =>
      if ch.closed then .panic (.runtimeError "close of closed channel") s
      else
        let s1 := { s with
          heap := s.heap.set s.stderrClient { c with writer := some { ch with closed := true } } }
        Flush.finish (logStdErr.run (ch.buf.length + 1) s1)

/-- Go `func Flush()`: `cleanup.Do(...)`.  The `sync.Once` is done once its
function has returned or panicked, and a `Do` that finds it held waits. -/
def Flush (s : State) : Outcome Unit :=
  match s.cleanup with
  | .done => .ret () s
  | .running => .block s
  | .fresh =>
    match Flush.once { s with cleanup := .running } with
    | .ret _ s1 => .ret () { s1 with cleanup := .done }
    | .panic v s1 => .panic v { s1 with cleanup := .done }
    | .block s1 => .block s1

/-- The package variables before `init` runs. -/
def State.zero : State :=
  { heap := [], clients := [], stderrClient := 0, cleanup := .fresh, stderrFinished := [],
    logStdErrRunning := false, namespaces := [], colorEnabled := true, stderr := [] }

/-- Go `func init()`; `isTerminal` is what `isTerminal(os.Stderr)` answers. -/
def init (isTerminal : Bool) : State :=
  let s0 := { State.zero with namespaces := [], colorEnabled := isTerminal }
  let r := CreateClient [DefaultNamespace] s0
  let s1 := { r.2 with stderrClient := r.1 }
  let s2 := (Client.SetLogLevel s1.stderrClient LTrace s1).state
  { s2 with stderrFinished := [], logStdErrRunning := true }

/-! ## Programs over the package -/

/-- The calls a program can make, and a turn of the stderr goroutine. -/
inductive Op where
  | CreateClient (namespaces : List String)
  | newClient
  | Destroy (p : Nat)
  | GetLogLevel (p : Nat)
  | SetLogLevel (p : Nat) (level : Level)
  | Get (p : Nat)
  | createLog (e : Entry)
  | SetStderrLogLevel (level : Level)
  | SetColorEnabled (enabled : Bool)
  | Flush
  | logStdErr
deriving DecidableEq, Repr

/-- The state in which `op` ends (whether it returns, panics and is recovered,
or leaves its goroutine blocked). -/
def Op.run (op : Op) (s : State) : State :=
  match op with
  | .CreateClient namespaces => (LogSocket.CreateClient namespaces s).2
  | .newClient => (LogSocket.newClient s).2
  | .Destroy p => (Client.Destroy p s).state
  | .GetLogLevel p => (Client.GetLogLevel p s).state
  | .SetLogLevel p level => (Client.SetLogLevel p level s).state
  | .Get p => (Client.Get p s).state
  | .createLog e => (LogSocket.createLog e s).state
  | .SetStderrLogLevel level => (LogSocket.SetLogLevel level s).state
  | .SetColorEnabled enabled => LogSocket.SetColorEnabled enabled s
  | .Flush => (LogSocket.Flush s).state
  | .logStdErr => logStdErr.iter s

/-- The client a method call is made on, if the call is a method call. -/
def Op.receiver : Op → Option Nat
  | .Destroy p => some p
  | .GetLogLevel p => some p
  | .SetLogLevel p _ => some p
  | .Get p => some p
  | _ => none

/-- The states a program reaches from `init`.  `stderrClient` is unexported and
no function returns it, so a program calls the methods of `Client` on other
clients only. -/
inductive Reachable : State → Prop where
  | init (isTerminal : Bool) : Reachable (LogSocket.init isTerminal)
  | step (op : Op) (s : State) (h : Reachable s) (hop : op.receiver ≠ some s.stderrClient) :
      Reachable (op.run s)

/-- The buffer of the client at `p`: the entries queued in its channel. -/
def State.buffer (s : State) (p : Nat) : List Entry :=
  match s.heap[p]? with
  | some c =>
    match c.writer with
    | some ch => ch.buf
    | none => []
  | none => []

/-- A live client whose channel has capacity 1000 and holds at most 1000 entries. -/
def Client.Good (c : Client) : Prop :=
  c.initialized = true ∧ ∃ ch, c.writer = some ch ∧ ch.cap = 1000 ∧ ch.buf.length ≤ 1000

/-- The channel of the client, if it has one, has not been closed. -/
def Client.Open (c : Client) : Prop :=
  ∀ ch, c.writer = some ch → ch.closed = false

/-- The registry invariant, in which the channel of the client at `x` (if `x` is
an address) is allowed to be closed. -/
structure WFx (x : Option Nat) (s : State) : Prop where
  nodup : s.clients.Nodup
  good : ∀ p ∈ s.clients, ∃ c, s.heap[p]? = some c ∧ c.Good ∧ (x ≠ some p → c.Open)
  live : ∀ (p : Nat) (c : Client), s.heap[p]? = some c → c.initialized = true → p ∈ s.clients
  dead : ∀ (p : Nat) (c : Client), s.heap[p]? = some c → c.initialized = false →
    c.writer = none

/-- The registry invariant: no client is registered twice, every registered
client is live with an open channel of capacity 1000 holding at most 1000
entries, every live client is registered, and a client that is not live has
no channel. -/
abbrev WF (s : State) : Prop := WFx none s

/-- What a buffer of capacity 1000 holds after `e` is offered to it: `e` is
appended, and the oldest entry makes room when the buffer is full. -/
def offer (buf : List Entry) (e : Entry) : List Entry :=
  if buf.length < 1000 then buf ++ [e] else buf.tail ++ [e]

/-- The client after `e` is offered to it under its namespace filter. -/
def Client.offer (c : Client) (e : Entry) : Client :=
  if c.matchesNamespace e.Namespace then
    { c with writer := c.writer.map (fun ch => { ch with buf := LogSocket.offer ch.buf e }) }
  else c

/-- The client after its oldest queued entry has been received. -/
def Client.pop (c : Client) (ch : LogWriter) (rest : List Entry) : Client :=
  { c with writer := some { ch with buf := rest } }

/-- The part of the state that `Flush` and the stderr goroutine coordinate on. -/
def State.ctl (s : State) : OnceState × Bool × List Bool :=
  (s.cleanup, s.logStdErrRunning, s.stderrFinished)

/-- The invariant of the reachable states: the registry invariant, and as long
as `Flush` has not run the stderr goroutine is in its loop and `stderrFinished`
is empty. -/
structure Inv (s : State) : Prop where
  wf : WF s
  once : s.cleanup ≠ .running
  routine : s.cleanup = .fresh → s.logStdErrRunning = true ∧ s.stderrFinished = []

/-! ## Runs of calls on one client -/

/-- A call of a program that dispatches entries and drains one client. -/
inductive Call where
  | createLog (e : Entry)
  | Get
deriving DecidableEq, Repr

/-- Runs the calls one after another, `Get` being called on the client at `p`.
Returns the entries the calls of `Get` returned, in order, and how the run
ended: `ret` when every call returned, and otherwise the outcome of the first
call that panicked or blocked (no call after it is made). -/
def runCalls (p : Nat) : List Call → State → List Entry × Outcome Unit
  | [], s => ([], .ret () s)
  | .createLog e :: cs, s =>
    match createLog e s with
    | .ret _ s1 => runCalls p cs s1
    | o => ([], o)
  | .Get :: cs, s =>
    match Client.Get p s with
    | .ret e s1 => (e :: (runCalls p cs s1).1, (runCalls p cs s1).2)
    | .panic v s1 => ([], .panic v s1)
    | .block s1 => ([], .block s1)

/-- The entries the calls dispatch whose namespace the filter of `c` matches,
in dispatch order. -/
def dispatched (c : Client) : List Call → List Entry
  | [] => []
  | .createLog e :: cs =>
    if c.matchesNamespace e.Namespace then e :: dispatched c cs else dispatched c cs
  | .Get :: cs => dispatched c cs

/-- Each entry is dispatched and then received at once. -/
def alternate : List Entry → List Call
  | [] => []
  | e :: es => .createLog e :: .Get :: alternate es

/-- One call of `CreateClient` for each filter of the list, in order. -/
def createMany : List (List String) → State → State
  | [], s => s
  | ns :: nss, s => createMany nss (CreateClient ns s).2

/-- Runs the operations one after another. -/
def runOps : List Op → State → State
  | [], s => s
  | op :: ops, s => runOps ops (op.run s)

/-! ## Sample states and entries -/

/-- An INFO entry logged in namespace "database". -/
def databaseEntry : Entry :=
  { Timestamp := 1, Output := "Query executed successfully", File := "main.go:44",
    Level := "INFO", Namespace := "database", level := LInfo }

/-- A TRACE entry logged by the package-level `Trace`. -/
def defaultEntry : Entry :=
  { Timestamp := 2, Output := "Testing trace!", File := "logger_test.go:41",
    Level := "TRACE", Namespace := DefaultNamespace, level := LTrace }

/-- The state after `init` and `CreateClient("auth")`: the new client is at address 1. -/
def authState : State :=
  (CreateClient ["auth"] (init false)).2

/-- The client that `CreateClient("auth")` makes. -/
def authClient : Client :=
  { LogLevel := 0, Namespaces := ["auth"], writer := some (LogWriter.make 1000),
    initialized := true }

/-- The state after `init` and 1000 calls of `Trace` that nobody drains. -/
def fullState : State :=
  (runCalls 0 ((List.replicate 1000 defaultEntry).map Call.createLog) (init false)).2.state

/-- An ERROR entry logged in namespace "auth". -/
def authEntry : Entry :=
  { Timestamp := 3, Output := "Brute force attempt detected", File := "main.go:46",
    Level := "ERROR", Namespace := "auth", level := LError }

/-- A short program on the client of `authState`: three dispatches, two of
which match its filter, and three calls of `Get`, the last on an empty buffer. -/
def sampleCalls : List Call :=
  [.createLog authEntry, .createLog databaseEntry, .Get, .createLog authEntry, .Get, .Get]

/-- The state after `init`, `c := CreateClient()`, `c.SetLogLevel(LWarn)` and the
dispatch of an INFO entry: `c` is at address 1. -/
def thresholdState : State :=
  runOps [.CreateClient [], .SetLogLevel 1 LWarn, .createLog databaseEntry] (init false)

/-- The states a program reaches from `s0` (see `Reachable`). -/
inductive ReachableFrom (s0 : State) : State → Prop where
  | refl : ReachableFrom s0 s0
  | step (op : Op) (s : State) (h : ReachableFrom s0 s)
      (hop : op.receiver ≠ some s.stderrClient) : ReachableFrom s0 (op.run s)

/-- Every client that is not live in the heap `h1` is still there, and not
live, in the heap `h2`. -/
def DeadStay (h1 h2 : List Client) : Prop :=
  ∀ (p : Nat) (c : Client), h1[p]? = some c → c.initialized = false →
    ∃ c1, h2[p]? = some c1 ∧ c1.initialized = false

/-- The state after `init` and `var c Client`: the zero-value client is at address 1. -/
def zeroState : State :=
  (newClient (init false)).2

/-! ## The logging functions (`log.go`) and the Logger facade (`logger.go`)

What the library takes from outside is gathered in `Env`: package `fmt`, the
clock, and where the compiler found the two source files.  A call stack is a
list of frames, innermost first. -/

/-- A Go value passed as `any`: one whose dynamic type implements `error`, with
its message, or any other value, with its default text. -/
inductive Any where
  | error (msg : String)
  | other (text : String)
deriving DecidableEq, Repr

/-- The three functions of package `fmt` that the library renders with. -/
structure Fmt where
  Sprint : List Any → String
  Sprintf : String → List Any → String
  Sprintln : List Any → String

/-- A frame of a call stack, as `runtime.Caller` reports it: the package of the
function, the source file and the line the frame is executing. -/
structure Frame where
  pkg : String
  file : String
  line : Nat
deriving DecidableEq, Repr

/-- The import path of package `log`. -/
def libPkg : String := "github.com/taigrr/log-socket/v2/log"

/-- What a logging call takes from outside the library. -/
structure Env where
  /-- package `fmt` -/
  fmt : Fmt
  /-- what `time.Now()` answers -/
  now : Nat
  /-- the path of `log/log.go` in the build -/
  logGo : String
  /-- the path of `log/logger.go` in the build -/
  loggerGo : String
  /-- the frame of `runtime.Caller` itself -/
  runtimeCaller : Frame

/-- The least value of Go's `int`, which has 64 bits on the platforms the
library is built for. -/
def MinInt64 : Int := -9223372036854775808

/-- The greatest value of Go's `int`. -/
def MaxInt64 : Int := 9223372036854775807

/-- The value in Go's `int` of an arithmetic result `x`: it wraps around modulo
2^64 into the range from `MinInt64` to `MaxInt64`. -/
def wrapInt (x : Int) : Int :=
  (x + 9223372036854775808) % 18446744073709551616 - 9223372036854775808

/-- Go `runtime.Caller(skip)`, called by the function of the innermost frame of
`stack`.  It asks for the frames from number `skip+1` on, counted from its own
frame, and the sum is computed in `int`: below 1 (a negative `skip`, or the sum
wrapped around at `MaxInt64`) nothing is skipped and the frame is the one of
`runtime.Caller` itself; otherwise it is frame number `skip`, counted from the
calling function, when there is one (`ok`). -/
def runtime.Caller (env : Env) (skip : Int) (stack : List Frame) : Option Frame :=
  let n := wrapInt (skip + 1)
  if n < 1 then some env.runtimeCaller else stack[(n - 1).toNat]?

/-- The scan behind `strings.LastIndex(s, "/")`: `i` is the index of the next
character and `best` the index of the last separator seen. -/
def LastIndex.scan (sep : Char) : List Char → Nat → Int → Int
  | [], _, best => best
  | x :: xs, i, best => LastIndex.scan sep xs (i + 1) (if x = sep then (i : Int) else best)

/-- Go `strings.LastIndex(s, sep)` for a separator of one character: the index of
its last occurrence, or -1. -/
def LastIndex (s : String) (sep : Char) : Int :=
  LastIndex.scan sep s.data 0 (-1)

/-- Go `func fileInfo(skip int) string`, called by the function of the innermost
frame of `callerStack`; line 544 of `log.go` is the call of `runtime.Caller`. -/
def fileInfo (env : Env) (skip : Int) (callerStack : List Frame) : String :=
  match runtime.Caller env skip ({ pkg := libPkg, file := env.logGo, line := 544 } :: callerStack) with
  | none => "<???>" ++ ":" ++ toString (1 : Nat)
  | some fr =>
    let slash := LastIndex fr.file '/'
    let file := if slash ≥ 0 then String.mk (fr.file.data.drop (slash + 1).toNat) else fr.file
    file ++ ":" ++ toString fr.line

/-- The three ways of rendering the arguments. -/
inductive Mode where
  | Sprint
  | Sprintf
  | Sprintln
deriving DecidableEq, Repr

/-- The arguments of a logging call: `args ...any`, and for the functions in `f`
the `format string` before them (the other functions do not take one). -/
structure Args where
  format : String
  args : List Any
deriving DecidableEq, Repr

/-- The rendering `fmt.Sprint(args...)`, `fmt.Sprintf(format, args...)` or
`fmt.Sprintln(args...)`. -/
def render (env : Env) : Mode → Args → String
  | .Sprint, a => env.fmt.Sprint a.args
  | .Sprintf, a => env.fmt.Sprintf a.format a.args
  | .Sprintln, a => env.fmt.Sprintln a.args

/-- What a logging function does after `createLog(e)`: nothing, the tail of the
`Panic` functions, or the tail of the `Fatal` functions. -/
inductive Tail where
  | log
  | panic
  | fatal
deriving DecidableEq, Repr

/-- The names of the functions that build an entry: `log.go` has a package-level
function of each of these names. -/
inductive LogFn where
  | Trace | Tracef | Traceln
  | Debug | Debugf | Debugln
  | Info | Infof | Infoln
  | Notice | Noticef | Noticeln
  | Warn | Warnf | Warnln
  | Error | Errorf | Errorln
  | Panic | Panicf | Panicln
  | Fatal | Fatalf | Fatalln
deriving DecidableEq, Repr

/-- Which `fmt` function the function of that name renders `output` with (the
same in `log.go` and, where the method exists, in `logger.go`). -/
def LogFn.mode : LogFn → Mode
  | .Trace => .Sprint | .Tracef => .Sprintf | .Traceln => .Sprintln
  | .Debug => .Sprint | .Debugf => .Sprintf | .Debugln => .Sprintln
  | .Info => .Sprint | .Infof => .Sprintf | .Infoln => .Sprintln
  | .Notice => .Sprint | .Noticef => .Sprintf | .Noticeln => .Sprintln
  | .Warn => .Sprint | .Warnf => .Sprintf | .Warnln => .Sprintln
  | .Error => .Sprint | .Errorf => .Sprintf | .Errorln => .Sprintln
  | .Panic => .Sprint | .Panicf => .Sprintf | .Panicln => .Sprintln
  | .Fatal => .Sprint | .Fatalf => .Sprintf | .Fatalln => .Sprintln

/-- The string the function of that name writes to the field `Level` of its entry. -/
def LogFn.Level : LogFn → String
  | .Trace => "TRACE" | .Tracef => "TRACE" | .Traceln => "TRACE"
  | .Debug => "DEBUG" | .Debugf => "DEBUG" | .Debugln => "DEBUG"
  | .Info => "INFO" | .Infof => "INFO" | .Infoln => "INFO"
  | .Notice => "NOTICE" | .Noticef => "NOTICE" | .Noticeln => "NOTICE"
  | .Warn => "WARN" | .Warnf => "WARN" | .Warnln => "WARN"
  | .Error => "ERROR" | .Errorf => "ERROR" | .Errorln => "ERROR"
  | .Panic => "PANIC" | .Panicf => "PANIC" | .Panicln => "PANIC"
  | .Fatal => "FATAL" | .Fatalf => "FATAL" | .Fatalln => "FATAL"

/-- The constant the function of that name writes to the field `level` of its entry. -/
def LogFn.level : LogFn → LogSocket.Level
  | .Trace => LTrace | .Tracef => LTrace | .Traceln => LTrace
  | .Debug => LDebug | .Debugf => LDebug | .Debugln => LDebug
  | .Info => LInfo | .Infof => LInfo | .Infoln => LInfo
  | .Notice => LNotice | .Noticef => LNotice | .Noticeln => LNotice
  | .Warn => LWarn | .Warnf => LWarn | .Warnln => LWarn
  | .Error => LError | .Errorf => LError | .Errorln => LError
  | .Panic => LPanic | .Panicf => LPanic | .Panicln => LPanic
  | .Fatal => LFatal | .Fatalf => LFatal | .Fatalln => LFatal

/-- What the function of that name does after `createLog(e)`. -/
def LogFn.tail : LogFn → Tail
  | .Panic => .panic | .Panicf => .panic | .Panicln => .panic
  | .Fatal => .fatal | .Fatalf => .fatal | .Fatalln => .fatal
  | _ => .log

/-- The line of `log.go` on which the package-level function of that name calls
`fileInfo(2)`. -/
def LogFn.line : LogFn → Nat
  | .Trace => 166 | .Tracef => 180 | .Traceln => 194
  | .Debug => 208 | .Debugf => 222 | .Debugln => 236
  | .Info => 250 | .Infof => 264 | .Infoln => 278
  | .Notice => 292 | .Noticef => 306 | .Noticeln => 320
  | .Warn => 334 | .Warnf => 348 | .Warnln => 362
  | .Error => 376 | .Errorf => 390 | .Errorln => 404
  | .Panic => 418 | .Panicf => 442 | .Panicln => 465
  | .Fatal => 489 | .Fatalf => 505 | .Fatalln => 520

/-- How a logging call ends: it returns, it panics, it blocks for ever, or it
ends the process with `os.Exit(code)`. -/
inductive Ending where
  | ret (s : State)
  | panic (v : PanicValue) (s : State)
  | block (s : State)
  | exit (code : Int) (s : State)
deriving DecidableEq, Repr

/-- The state in which a logging call ends. -/
def Ending.state : Ending → State
  | .ret s => s
  | .panic _ s => s
  | .block s => s
  | .exit _ s => s

/-- The statements `Flush()` and `panic(errors.New(output))`. -/
def flushThenPanic (output : String) (s : State) : Ending :=
  match Flush s with
  | .ret _ s1 => .panic (.error output) s1
  | .panic v s1 => .panic v s1
  | .block s1 => .block s1

/-- The statements after `createLog(e)` in a logging function, `s` being the
state in which `createLog` returned.  `guard` is the value of the condition of
the `if` in the `Panic` functions (`len(args) >= 0` in `log.go`, `len(args) > 0`
in `logger.go`); under it `args[0]` is read, which is a run-time error on an
empty `args`, and an `args[0]` that is an `error` is the value of the panic. -/
def escalate (tail : Tail) (guard : Bool) (output : String) (a : Args) (s : State) : Ending :=
  match tail with
  | .log => .ret s
  | .fatal =>
    match Flush s with
    | .ret _ s1 => .exit 1 s1
    | .panic v s1 => .panic v s1
    | .block s1 => .block s1
  | .panic =>
    if guard then
      match a.args with
      | [] => .panic (.runtimeError "index out of range [0] with length 0") s
      | .error msg :: _ => .panic (.error msg) s
      | .other _ :: _ => flushThenPanic output s
    else flushThenPanic output s

/-- The entry a logging function builds: `ns` is what it writes to `Namespace`,
`skip` the argument of its call of `fileInfo`, and `stack` its own call stack
(its own frame first). -/
def LogFn.entry (env : Env) (n : LogFn) (ns : String) (skip : Int) (stack : List Frame)
    (a : Args) : Entry :=
  { Timestamp := env.now
    Output := render env n.mode a
    File := fileInfo env skip stack
    Level := n.Level
    Namespace := ns
    level := n.level }

/-- The body shared by the logging functions: build the entry, `createLog(e)`,
then the tail. -/
def LogFn.run (env : Env) (n : LogFn) (ns : String) (skip : Int) (guard : Bool)
    (stack : List Frame) (a : Args) (s : State) : Ending :=
  match createLog (n.entry env ns skip stack a) s with
  | .ret _ s1 => escalate n.tail guard (render env n.mode a) a s1
  | .panic v s1 => .panic v s1
  | .block s1 => .block s1

/-- The package-level logging functions of `log.go`. -/
inductive Fn where
  | Trace | Tracef | Traceln
  | Debug | Debugf | Debugln
  | Info | Infof | Infoln
  | Notice | Noticef | Noticeln
  | Warn | Warnf | Warnln
  | Error | Errorf | Errorln
  | Panic | Panicf | Panicln
  | Fatal | Fatalf | Fatalln
  | Print | Printf | Println
deriving DecidableEq, Repr

/-- The function whose body builds the entry: the function itself, and for
`Print`, `Printf` and `Println` the function they call (`Info`, `Infof`, `Infoln`). -/
def Fn.target : Fn → LogFn
  | .Trace => .Trace | .Tracef => .Tracef | .Traceln => .Traceln
  | .Debug => .Debug | .Debugf => .Debugf | .Debugln => .Debugln
  | .Info => .Info | .Infof => .Infof | .Infoln => .Infoln
  | .Notice => .Notice | .Noticef => .Noticef | .Noticeln => .Noticeln
  | .Warn => .Warn | .Warnf => .Warnf | .Warnln => .Warnln
  | .Error => .Error | .Errorf => .Errorf | .Errorln => .Errorln
  | .Panic => .Panic | .Panicf => .Panicf | .Panicln => .Panicln
  | .Fatal => .Fatal | .Fatalf => .Fatalf | .Fatalln => .Fatalln
  | .Print => .Info | .Printf => .Infof | .Println => .Infoln

/-- The line of `log.go` on which `Print`, `Printf` or `Println` calls its
target; the other functions build the entry themselves. -/
def Fn.wrapperLine : Fn → Option Nat
  | .Print => some 531
  | .Printf => some 535
  | .Println => some 539
  | _ => none

/-- The call stack inside the function that builds the entry, for a call of `fn`
from the code whose stack is `callers`. -/
def Fn.stack (env : Env) (fn : Fn) (callers : List Frame) : List Frame :=
  match fn.wrapperLine with
  | some l =>
    { pkg := libPkg, file := env.logGo, line := fn.target.line } ::
      { pkg := libPkg, file := env.logGo, line := l } :: callers
  | none => { pkg := libPkg, file := env.logGo, line := fn.target.line } :: callers

/-- The frame that `fileInfo(2)` resolves in a call of `fn`. -/
def Fn.frame (env : Env) (fn : Fn) (callers : List Frame) : Option Frame :=
  runtime.Caller env 2
    ({ pkg := libPkg, file := env.logGo, line := 544 } :: fn.stack env callers)

/-- The entry that a call of the package-level function `fn` dispatches. -/
def Fn.entry (env : Env) (fn : Fn) (a : Args) (callers : List Frame) : Entry :=
  fn.target.entry env DefaultNamespace 2 (fn.stack env callers) a

/-- A call of the package-level function `fn` from the code whose stack is `callers`. -/
def Fn.call (env : Env) (fn : Fn) (a : Args) (callers : List Frame) (s : State) : Ending :=
  fn.target.run env DefaultNamespace 2 (decide ((a.args.length : Int) ≥ 0))
    (fn.stack env callers) a s

/-- The struct `Logger`. -/
structure Logger where
  FileInfoDepth : Int
  Namespace : String
deriving DecidableEq, Repr

/-- Go `func Default() *Logger` -/
def Default : Logger :=
  { FileInfoDepth := 0, Namespace := DefaultNamespace }

/-- Go `func NewLogger(namespace string) *Logger` -/
def NewLogger (nspace : String) : Logger :=
  let nspace := if nspace == "" then DefaultNamespace else nspace
  { FileInfoDepth := 0, Namespace := nspace }

/-- Go `func (l *Logger) SetInfoDepth(depth int)` -/
def Logger.SetInfoDepth (l : Logger) (depth : Int) : Logger :=
  { l with FileInfoDepth := depth }

/-- The methods of `Logger` in `logger.go`. -/
inductive Method where
  | Trace | Tracef | Traceln
  | Debug | Debugf
  | Info | Infof | Infoln
  | Notice | Noticef | Noticeln
  | Warn | Warnf | Warnln
  | Error | Errorf | Errorln
  | Panic | Panicf | Panicln
  | Fatal | Fatalf | Fatalln
  | Print | Printf | Println
deriving DecidableEq, Repr

/-- The method whose body builds the entry, by the name it shares with the
package-level function of the same shape: the method itself, and for `Print`,
`Printf` and `Println` the method they call. -/
def Method.target : Method → LogFn
  | .Trace => .Trace | .Tracef => .Tracef | .Traceln => .Traceln
  | .Debug => .Debug | .Debugf => .Debugf
  | .Info => .Info | .Infof => .Infof | .Infoln => .Infoln
  | .Notice => .Notice | .Noticef => .Noticef | .Noticeln => .Noticeln
  | .Warn => .Warn | .Warnf => .Warnf | .Warnln => .Warnln
  | .Error => .Error | .Errorf => .Errorf | .Errorln => .Errorln
  | .Panic => .Panic | .Panicf => .Panicf | .Panicln => .Panicln
  | .Fatal => .Fatal | .Fatalf => .Fatalf | .Fatalln => .Fatalln
  | .Print => .Info | .Printf => .Infof | .Println => .Infoln

/-- The line of `logger.go` on which the method that builds the entry calls
`fileInfo(2 + l.FileInfoDepth)`. -/
def Method.line : Method → Nat
  | .Trace => 31 | .Tracef => 45 | .Traceln => 59
  | .Debug => 73 | .Debugf => 87
  | .Info => 101 | .Infof => 115 | .Infoln => 129
  | .Notice => 143 | .Noticef => 157 | .Noticeln => 171
  | .Warn => 185 | .Warnf => 199 | .Warnln => 213
  | .Error => 227 | .Errorf => 241 | .Errorln => 255
  | .Panic => 269 | .Panicf => 293 | .Panicln => 317
  | .Fatal => 341 | .Fatalf => 357 | .Fatalln => 373
  | .Print => 101 | .Printf => 115 | .Println => 129

/-- The line of `logger.go` on which `Print`, `Printf` or `Println` calls its target. -/
def Method.wrapperLine : Method → Option Nat
  | .Print => some 385
  | .Printf => some 390
  | .Println => some 395
  | _ => none

/-- The call stack inside the method that builds the entry, for a call of `m`
from the code whose stack is `callers`. -/
def Method.stack (env : Env) (m : Method) (callers : List Frame) : List Frame :=
  match m.wrapperLine with
  | some l =>
    { pkg := libPkg, file := env.loggerGo, line := m.line } ::
      { pkg := libPkg, file := env.loggerGo, line := l } :: callers
  | none => { pkg := libPkg, file := env.loggerGo, line := m.line } :: callers

/-- The frame that `fileInfo(2 + l.FileInfoDepth)` resolves in a call of `l.m`;
the sum is computed in `int`. -/
def Method.frame (env : Env) (m : Method) (l : Logger) (callers : List Frame) : Option Frame :=
  runtime.Caller env (wrapInt (2 + l.FileInfoDepth))
    ({ pkg := libPkg, file := env.logGo, line := 544 } :: m.stack env callers)

/-- The entry that a call of the method `m` on the logger `l` dispatches. -/
def Method.entry (env : Env) (m : Method) (l : Logger) (a : Args) (callers : List Frame) :
    Entry :=
  m.target.entry env l.Namespace (wrapInt (2 + l.FileInfoDepth)) (m.stack env callers) a

/-- A call of the method `m` on the logger `l` from the code whose stack is `callers`. -/
def Method.call (env : Env) (m : Method) (l : Logger) (a : Args) (callers : List Frame)
    (s : State) : Ending :=
  m.target.run env l.Namespace (wrapInt (2 + l.FileInfoDepth)) (decide (a.args.length > 0))
    (m.stack env callers) a s

/-- The package variables that only `init` and `createLog` write: `stderrClient`
and the keys of `namespaces`. -/
def State.core (s : State) : Nat × List String :=
  (s.stderrClient, s.namespaces)

/-- The line that `logStdErr` writes for an entry that passes its test. -/
def logStdErr.line (s : State) (e : Entry) : String :=
  toString e.Timestamp ++ "\t" ++ colorizeLevelText s e.Level e.level ++ "\t" ++
    colorize s ("[" ++ e.Namespace ++ "]") colorPurple ++ "\t" ++ e.Output ++ "\t" ++
    colorize s e.File colorGray ++ "\n"

/-- The lines that `logStdErr` writes for the entries `es`, taken in order, while
the stderr client is `c`. -/
def logStdErr.lines (s : State) (c : Client) : List Entry → List String
  | [] => []
  | e :: es =>
    if e.level >= c.LogLevel && c.matchesNamespace e.Namespace then
      logStdErr.line s e :: logStdErr.lines s c es
    else logStdErr.lines s c es

/-- The namespaces of the entries that the operations dispatch, in order. -/
def Op.namespacesOf : List Op → List String
  | [] => []
  | .createLog e :: ops => e.Namespace :: Op.namespacesOf ops
  | _ :: ops => Op.namespacesOf ops

/-- The text of a value, for the sample renderer. -/
def Any.text : Any → String
  | .error msg => msg
  | .other text => text

/-- A sample renderer in the place of package `fmt`: it concatenates the texts of
the arguments (after the format, with blanks and a newline, respectively). -/
def sampleFmt : Fmt :=
  { Sprint := fun as => String.join (as.map Any.text)
    Sprintf := fun format as => format ++ String.join (as.map Any.text)
    Sprintln := fun as => String.intercalate " " (as.map Any.text) ++ "\n" }

/-- A sample environment. -/
def sampleEnv : Env :=
  { fmt := sampleFmt
    now := 7
    logGo := "/go/pkg/mod/github.com/taigrr/log-socket/v2/log/log.go"
    loggerGo := "/go/pkg/mod/github.com/taigrr/log-socket/v2/log/logger.go"
    runtimeCaller := { pkg := "runtime", file := "/usr/local/go/src/runtime/extern.go", line := 313 } }

/-- The stack of a program whose `main`, on line 23 of its `main.go`, makes a call. -/
def userStack : List Frame :=
  [{ pkg := "main", file := "/home/dev/app/main.go", line := 23 },
   { pkg := "runtime", file := "/usr/local/go/src/runtime/proc.go", line := 283 }]

/-- A WARN entry logged by the package-level `Warn`. -/
def warnEntry : Entry :=
  { Timestamp := 4, Output := "Disk usage at 85%", File := "main.go:25",
    Level := "WARN", Namespace := DefaultNamespace, level := LWarn }

/-- The state after `init` and one call of `Warn` that is not drained yet. -/
def pendingState : State :=
  (createLog warnEntry (init false)).state

/-! ## Levels by name, the slice of `fileInfo`, and `Flush` statement by statement -/

/-- The constants of `types.go` (`LTrace Level = iota` and the seven after it),
each with its name. -/
def levelConstants : List (String × Level) :=
  [("LTrace", LTrace), ("LDebug", LDebug), ("LInfo", LInfo), ("LNotice", LNotice),
   ("LWarn", LWarn), ("LError", LError), ("LPanic", LPanic), ("LFatal", LFatal)]

/-- The names of the levels in the order the specification gives them, lowest first. -/
def specLevelOrder : List String :=
  ["TRACE", "DEBUG", "INFO", "NOTICE", "WARN", "ERROR", "PANIC", "FATAL"]

/-- The tag the specification gives a numeric level: the name at that position
of its order, for the levels 0 to 7. -/
def specTag (level : Level) : Option String :=
  if level < 0 then none else specLevelOrder[level.toNat]?

/-- The slice expression `s[i:]` of Go on a string: a run-time error when `i` is
not between 0 and the length of `s`.  Positions count characters; the separator
"/" is one byte of UTF-8 and no byte of another character equals it, so cutting
after it by bytes, as Go does, gives the same string. -/
def sliceFrom (s : String) (i : Int) : Except PanicValue String :=
  if 0 ≤ i ∧ i ≤ (s.data.length : Int) then .ok (String.mk (s.data.drop i.toNat))
  else .error (.runtimeError "slice bounds out of range")

/-- Go `func fileInfo(skip int) string` with the bounds check of `file[slash+1:]`
kept: the string it returns, or the run-time error it panics with. -/
def fileInfo.checked (env : Env) (skip : Int) (callerStack : List Frame) :
    Except PanicValue String :=
  match runtime.Caller env skip ({ pkg := libPkg, file := env.logGo, line := 544 } :: callerStack) with
  | none => .ok ("<???>" ++ ":" ++ toString (1 : Nat))
  | some fr =>
    let slash := LastIndex fr.file '/'
    if slash ≥ 0 then
      match sliceFrom fr.file (slash + 1) with
      | .ok file => .ok (file ++ ":" ++ toString fr.line)
      | .error v => .error v
    else .ok (fr.file ++ ":" ++ toString fr.line)

/-- The statement `close(stderrClient.writer)` of `Flush`. -/
def Flush.close (s : State) : Outcome Unit :=
  match s.heap[s.stderrClient]? with
  | none => .panic nilDeref s
  | some c =>
    match c.writer with
    | none => .panic (.runtimeError "close of nil channel") s
    | some ch =>
      if ch.closed then .panic (.runtimeError "close of closed channel") s
      else
        .ret () { s with
          heap := s.heap.set s.stderrClient { c with writer := some { ch with closed := true } } }

/-- The statement `<-stderrFinished` of `Flush`. -/
def Flush.wait (s : State) : Outcome Unit :=
  match s.stderrFinished with
  | [] => .block s
  | _ :: rest => .ret () { s with stderrFinished := rest }

/-- A step of a run in which one goroutine executes `Flush` statement by
statement while other goroutines call `createLog` and the stderr goroutine takes
its turns. -/
inductive Step where
  | close
  | wait
  | destroy
  | createLog (e : Entry)
  | logStdErr
deriving DecidableEq, Repr

/-- The state of such a run: the package state, how many of the three statements
of `Flush` have been executed, how each call of `createLog` ended, in order, and
whether the mutex `sliceTex` has been left locked. -/
structure Run where
  state : State
  flushed : Nat
  outcomes : List (Outcome Unit)
  sliceTex : Bool

/-- The start of a run in the package state `s`. -/
def Run.start (s : State) : Run :=
  { state := s, flushed := 0, outcomes := [], sliceTex := false }

/-- Whether `Destroy`, called on the client at `p`, comes to `sliceTex.Lock()`:
it panics before that when the client is not initialized. -/
def Client.Destroy.locks (p : Nat) (s : State) : Bool :=
  match s.heap[p]? with
  | none => false
  | some c => c.initialized

/-- One step.  The statements of `Flush` are taken in their order: `close` when
`cleanup.Do` finds the `sync.Once` unused (it is held from then on), `wait` once
`stderrFinished` can be received from, and `destroy`, after which `Do` returns.
A statement of `Flush` whose turn has not come leaves the run as it is.  A call
of `createLog` by another goroutine ends as `createLog` says.

`createLog` locks `sliceTex` around its loop and unlocks it without `defer`, so
a call that panics or blocks inside the loop leaves the mutex locked.  From then
on a call of `createLog` records its namespace and blocks on `sliceTex.Lock()`,
and `destroy` blocks in `Destroy` on the same lock. -/
def Step.run (st : Step) (r : Run) : Run :=
  match st with
  | .close =>
    if r.flushed = 0 ∧ r.state.cleanup = .fresh then
      match Flush.close { r.state with cleanup := .running } with
      | .ret _ s1 => { r with state := s1, flushed := 1 }
      | .panic _ s1 => { r with state := { s1 with cleanup := .done } }
      | .block s1 => { r with state := s1 }
    else r
  | .wait =>
    if r.flushed = 1 then
      match Flush.wait r.state with
      | .ret _ s1 => { r with state := s1, flushed := 2 }
      | .panic _ _ => r
      | .block _ => r
    else r
  | .destroy =>
    if r.flushed = 2 then
      if r.sliceTex && Client.Destroy.locks r.state.stderrClient r.state then r
      else
        { r with
          state := { (Client.Destroy r.state.stderrClient r.state).state with cleanup := .done }
          flushed := 3 }
    else r
  | .createLog e =>
    if r.sliceTex then
      { r with
        state := { r.state with namespaces := trackNamespace e.Namespace r.state.namespaces }
        outcomes := r.outcomes ++
          [.block { r.state with namespaces := trackNamespace e.Namespace r.state.namespaces }] }
    else
      { r with
        state := (LogSocket.createLog e r.state).state
        outcomes := r.outcomes ++ [LogSocket.createLog e r.state]
        sliceTex :=
          match LogSocket.createLog e r.state with
          | .ret _ _ => false
          | .panic _ _ => true
          | .block _ => true }
  | .logStdErr => { r with state := logStdErr.iter r.state }

/-- Runs the steps one after another. -/
def runSteps : List Step → Run → Run
  | [], r => r
  | st :: sts, r => runSteps sts (st.run r)

/-- The steps of an undisturbed `Flush` that finds `n` entries queued in the
stderr client: `close`, a turn of the stderr goroutine for each entry and one to
leave its loop, then `wait` and `destroy`. -/
def flushSteps (n : Nat) : List Step :=
  .close :: (List.replicate (n + 1) .logStdErr ++ [.wait, .destroy])

/-- The package state of `init false` after the first statement of `Flush`. -/
def closedState : State :=
  (runSteps [.close] (Run.start (init false))).state

/-- A registry that breaks the invariant: after `init`, `var c Client` and
`CreateClient()`, the zero-value client at address 1 is put into `clients`
(no function of the package does that). -/
def staleState : State :=
  { (CreateClient [] (newClient (init false)).2).2 with clients := [0, 1, 2] }

/-! ## Lemmas on the registry invariant -/

theorem lt_length_of_heap {s : State} {p : Nat} {c : Client} (h : s.heap[p]? = some c) :
    p < s.heap.length := by
  obtain ⟨hlt, _⟩ := List.getElem?_eq_some.mp h
  exact hlt

theorem WFx.congr {x : Option Nat} {s t : State} (h : WFx x s) (hh : t.heap = s.heap)
    (hc : t.clients = s.clients) : WFx x t := by
  refine ⟨?_, ?_, ?_, ?_⟩
  · rw [hc]; exact h.nodup
  · intro p hp
    rw [hc] at hp
    rw [hh]
    exact h.good p hp
  · intro p c hpc hi
    rw [hh] at hpc
    rw [hc]
    exact h.live p c hpc hi
  · intro p c hpc hi
    rw [hh] at hpc
    exact h.dead p c hpc hi

theorem WFx.weaken {s : State} (h : WF s) (x : Option Nat) : WFx x s := by
  refine ⟨h.nodup, ?_, h.live, h.dead⟩
  intro p hp
  obtain ⟨c, hc, hg, ho⟩ := h.good p hp
  exact ⟨c, hc, hg, fun _ => ho (by simp)⟩

/-- Overwriting a client by one with the same liveness keeps the invariant when
the new client is good (and open, unless it is the exempt one). -/
theorem WFx.set_heap {x : Option Nat} {s : State} {p : Nat} {c c1 : Client} (h : WFx x s)
    (hp : s.heap[p]? = some c) (hinit : c1.initialized = c.initialized)
    (hgood : p ∈ s.clients → c1.Good ∧ (x ≠ some p → c1.Open))
    (hdead : c1.initialized = false → c1.writer = none) :
    WFx x { s with heap := s.heap.set p c1 } := by
  have hlt := lt_length_of_heap hp
  refine ⟨h.nodup, ?_, ?_, ?_⟩
  · intro q hq
    by_cases hqp : q = p
    · subst hqp
      exact ⟨c1, List.getElem?_set_self hlt, hgood hq⟩
    · obtain ⟨cq, hcq, hg⟩ := h.good q hq
      refine ⟨cq, ?_, hg⟩
      show (s.heap.set p c1)[q]? = some cq
      rw [List.getElem?_set_ne (Ne.symm hqp)]
      exact hcq
  · intro q cq hq hi
    by_cases hqp : q = p
    · subst hqp
      have hq1 : (s.heap.set q c1)[q]? = some cq := hq
      rw [List.getElem?_set_self hlt] at hq1
      have : c1 = cq := Option.some.inj hq1
      subst this
      exact h.live q c hp (hinit ▸ hi)
    · have hq1 : (s.heap.set p c1)[q]? = some cq := hq
      rw [List.getElem?_set_ne (Ne.symm hqp)] at hq1
      exact h.live q cq hq1 hi
  · intro q cq hq hi
    have hq1 : (s.heap.set p c1)[q]? = some cq := hq
    by_cases hqp : q = p
    · subst hqp
      rw [List.getElem?_set_self hlt] at hq1
      have : c1 = cq := Option.some.inj hq1
      subst this
      exact hdead hi
    · rw [List.getElem?_set_ne (Ne.symm hqp)] at hq1
      exact h.dead q cq hq1 hi

theorem offer_length_le {buf : List Entry} (e : Entry) (h : buf.length ≤ 1000) :
    (offer buf e).length ≤ 1000 := by
  unfold offer
  split
  · simp; omega
  · simp; omega

theorem Client.offer_initialized (c : Client) (e : Entry) :
    (c.offer e).initialized = c.initialized := by
  unfold Client.offer
  split <;> rfl

theorem Client.offer_LogLevel (c : Client) (e : Entry) :
    (c.offer e).LogLevel = c.LogLevel := by
  unfold Client.offer
  split <;> rfl

theorem Client.offer_Namespaces (c : Client) (e : Entry) :
    (c.offer e).Namespaces = c.Namespaces := by
  unfold Client.offer
  split <;> rfl

theorem Client.offer_good {c : Client} (e : Entry) (hg : c.Good) : (c.offer e).Good := by
  obtain ⟨hi, ch, hw, hcap, hlen⟩ := hg
  refine ⟨by rw [Client.offer_initialized]; exact hi, ?_⟩
  unfold Client.offer
  split
  · exact ⟨{ ch with buf := LogSocket.offer ch.buf e }, by simp [hw], hcap,
      offer_length_le e hlen⟩
  · exact ⟨ch, hw, hcap, hlen⟩

theorem Client.offer_open {c : Client} (e : Entry) (ho : c.Open) : (c.offer e).Open := by
  intro ch1 h1
  unfold Client.offer at h1
  split at h1
  · cases hw : c.writer with
    | none => simp [hw] at h1
    | some ch =>
      simp [hw] at h1
      subst h1
      exact ho ch hw
  · exact ho ch1 h1

/-- On a live client with an open channel of capacity 1000 the function literal
of `createLog` returns, and leaves the client as `Client.offer` describes. -/
theorem createLog.deliver_good {c : Client} (e : Entry) (hg : c.Good) (ho : c.Open) :
    createLog.deliver c e = .done (c.offer e) := by
  obtain ⟨hi, ch, hw, hcap, hlen⟩ := hg
  have hcl := ho ch hw
  unfold createLog.deliver Client.offer
  by_cases hm : c.matchesNamespace e.Namespace = true
  · by_cases hl : ch.buf.length < 1000
    · simp [hm, hw, hcl, hcap, LogSocket.offer, hl]
    · cases hb : ch.buf with
      | nil => simp [hb] at hl
      | cons a rest =>
        have hr : rest.length < 1000 := by simp [hb] at hlen; omega
        simp [hb] at hl
        have hl2 : ¬ (rest.length + 1 < 1000) := by omega
        simp [hm, hw, hcl, hcap, LogSocket.offer, hb, hl2, hr]
  · simp [hm]

/-- The loop of `createLog` over addresses of good, open clients, none of them
twice: it returns, it offers the entry to each of these clients once, and it
touches nothing else. -/
theorem createLog.range_spec (e : Entry) : ∀ (ps : List Nat) (s : State), ps.Nodup →
    (∀ p ∈ ps, ∃ c, s.heap[p]? = some c ∧ c.Good ∧ c.Open) →
    ∃ s1, createLog.range e ps s = .ret () s1 ∧ s1 = { s with heap := s1.heap } ∧
      (∀ q, q ∉ ps → s1.heap[q]? = s.heap[q]?) ∧
      (∀ q ∈ ps, ∀ c, s.heap[q]? = some c → s1.heap[q]? = some (c.offer e)) := by
  intro ps
  induction ps with
  | nil =>
    intro s _ _
    exact ⟨s, rfl, rfl, fun _ _ => rfl, fun q hq => absurd hq (List.not_mem_nil q)⟩
  | cons p ps ih =>
    intro s hnd hall
    obtain ⟨hpn, hnd1⟩ := List.nodup_cons.mp hnd
    obtain ⟨c, hc, hg, ho⟩ := hall p (List.mem_cons_self p ps)
    have hlt := lt_length_of_heap hc
    have hall1 : ∀ q ∈ ps, ∃ cq,
        ({ s with heap := s.heap.set p (c.offer e) } : State).heap[q]? = some cq ∧
          cq.Good ∧ cq.Open := by
      intro q hq
      obtain ⟨cq, hcq, hgq⟩ := hall q (List.mem_cons_of_mem p hq)
      have hne : p ≠ q := fun h => hpn (h ▸ hq)
      refine ⟨cq, ?_, hgq⟩
      show (s.heap.set p (c.offer e))[q]? = some cq
      rw [List.getElem?_set_ne hne]
      exact hcq
    obtain ⟨s1, hr, hs1, hout, hin⟩ := ih { s with heap := s.heap.set p (c.offer e) } hnd1 hall1
    refine ⟨s1, ?_, ?_, ?_, ?_⟩
    · simp only [createLog.range, hc, createLog.deliver_good e hg ho]
      exact hr
    · rw [hs1]
    · intro q hq
      have hqp : p ≠ q := fun h => hq (h ▸ List.mem_cons_self p ps)
      have hqps : q ∉ ps := fun h => hq (List.mem_cons_of_mem p h)
      rw [hout q hqps]
      show (s.heap.set p (c.offer e))[q]? = s.heap[q]?
      exact List.getElem?_set_ne hqp
    · intro q hq cq hcq
      rcases List.mem_cons.mp hq with hqp | hqps
      · subst hqp
        rw [hout q hpn]
        have : c = cq := Option.some.inj (hc.symm.trans hcq)
        subst this
        show (s.heap.set q (c.offer e))[q]? = some (c.offer e)
        exact List.getElem?_set_self hlt
      · have hne : p ≠ q := fun h => hpn (h ▸ hqps)
        apply hin q hqps cq
        show (s.heap.set p (c.offer e))[q]? = some cq
        rw [List.getElem?_set_ne hne]
        exact hcq

/-- In a state that satisfies the registry invariant `createLog` returns; it
records the namespace, offers the entry once to every registered client and
changes nothing else, and the invariant holds afterwards. -/
theorem createLog_spec {s : State} (h : WF s) (e : Entry) :
    ∃ s1, createLog e s = .ret () s1 ∧
      s1 = { s with heap := s1.heap,
                    namespaces := trackNamespace e.Namespace s.namespaces } ∧
      (∀ q, q ∉ s.clients → s1.heap[q]? = s.heap[q]?) ∧
      (∀ q ∈ s.clients, ∀ c, s.heap[q]? = some c → s1.heap[q]? = some (c.offer e)) ∧
      WF s1 := by
  have hall : ∀ p ∈ s.clients, ∃ c,
      ({ s with namespaces := trackNamespace e.Namespace s.namespaces } : State).heap[p]?
        = some c ∧ c.Good ∧ c.Open := by
    intro p hp
    obtain ⟨c, hc, hg, ho⟩ := h.good p hp
    exact ⟨c, hc, hg, ho (by simp)⟩
  obtain ⟨s1, hr, hs1, hout, hin⟩ := createLog.range_spec e s.clients
    { s with namespaces := trackNamespace e.Namespace s.namespaces } h.nodup hall
  have hcl : s1.clients = s.clients := by
    have h2 := congrArg State.clients hs1
    exact h2
  refine ⟨s1, hr, hs1, hout, hin, ?_, ?_, ?_, ?_⟩
  · rw [hcl]; exact h.nodup
  · intro q hq
    rw [hcl] at hq
    obtain ⟨c, hc, hg, ho⟩ := h.good q hq
    exact ⟨c.offer e, hin q hq c hc, Client.offer_good e hg,
      fun _ => Client.offer_open e (ho (by simp))⟩
  · intro q cq hq hi
    rw [hcl]
    by_contra hqn
    have h1 : s1.heap[q]? = s.heap[q]? := hout q hqn
    rw [h1] at hq
    exact hqn (h.live q cq hq hi)
  · intro q cq hq hi
    by_cases hqm : q ∈ s.clients
    · obtain ⟨c, hc, hg, _⟩ := h.good q hqm
      have h1 := hin q hqm c hc
      rw [h1] at hq
      have h2 : c.offer e = cq := Option.some.inj hq
      rw [← h2, Client.offer_initialized, hg.1] at hi
      cases hi
    · have h1 : s1.heap[q]? = s.heap[q]? := hout q hqm
      rw [h1] at hq
      exact h.dead q cq hq hi

/-- The loop of `Destroy`, run on the heap in which the client at `p` has just
been marked dead: it keeps the live clients, that is all but `p`. -/
theorem Client.Destroy.loop_spec (heap : List Client) (p : Nat) (c0 : Client)
    (hp : p < heap.length) (h0 : c0.initialized = false) :
    ∀ (xs acc : List Nat),
      (∀ x ∈ xs, ∃ cx, heap[x]? = some cx ∧ cx.initialized = true) →
      Client.Destroy.loop (heap.set p c0) xs acc = some (acc ++ xs.filter (fun x => x != p)) := by
  intro xs
  induction xs with
  | nil => intro acc _; simp [Client.Destroy.loop]
  | cons x xs ih =>
    intro acc hall
    obtain ⟨cx, hcx, hix⟩ := hall x (List.mem_cons_self x xs)
    have hrest : ∀ y ∈ xs, ∃ cy, heap[y]? = some cy ∧ cy.initialized = true :=
      fun y hy => hall y (List.mem_cons_of_mem x hy)
    by_cases hxp : x = p
    · subst hxp
      simp only [Client.Destroy.loop, List.getElem?_set_self hp, h0]
      rw [ih acc hrest]
      simp
    · have hne : p ≠ x := fun h => hxp h.symm
      simp only [Client.Destroy.loop, List.getElem?_set_ne hne, hcx, hix]
      rw [ih (acc ++ [x]) hrest]
      simp [hxp]

/-- Calling `Destroy` on a live client of a state that satisfies the registry invariant
returns `nil`, marks the client dead, drops its channel and removes exactly its
address from the registry. -/
theorem Client.Destroy_live {x : Option Nat} {s : State} {p : Nat} {c : Client} (h : WFx x s)
    (hc : s.heap[p]? = some c) (hi : c.initialized = true) :
    Client.Destroy p s = .ret none
      { s with heap := s.heap.set p { c with writer := none, initialized := false },
               clients := s.clients.filter (fun q => q != p) } := by
  have hall : ∀ q ∈ s.clients, ∃ cq, s.heap[q]? = some cq ∧ cq.initialized = true := by
    intro q hq
    obtain ⟨cq, hcq, hg, _⟩ := h.good q hq
    exact ⟨cq, hcq, hg.1⟩
  have hl := Client.Destroy.loop_spec s.heap p { c with writer := none, initialized := false }
    (lt_length_of_heap hc) rfl s.clients [] hall
  simp only [Client.Destroy, hc, hi, hl]
  simp

theorem WFx.of_not_mem {s : State} {p : Nat} (h : WFx (some p) s) (hp : p ∉ s.clients) :
    WF s := by
  refine ⟨h.nodup, ?_, h.live, h.dead⟩
  intro q hq
  obtain ⟨c, hc, hg, ho⟩ := h.good q hq
  refine ⟨c, hc, hg, fun _ => ho ?_⟩
  intro hpq
  exact hp (Option.some.inj hpq ▸ hq)

/-- Calling `Destroy` re-establishes the registry invariant, also when the channel of
the destroyed client was closed. -/
theorem Client.Destroy_WF {s : State} {p : Nat} (h : WFx (some p) s) :
    WF (Client.Destroy p s).state := by
  cases hc : s.heap[p]? with
  | none =>
    have hp : p ∉ s.clients := by
      intro hp
      obtain ⟨c, hc1, _⟩ := h.good p hp
      rw [hc] at hc1
      cases hc1
    simp only [Client.Destroy, hc, Outcome.state]
    exact h.of_not_mem hp
  | some c =>
    cases hi : c.initialized with
    | false =>
      have hp : p ∉ s.clients := by
        intro hp
        obtain ⟨c1, hc1, hg, _⟩ := h.good p hp
        rw [hc] at hc1
        cases hc1
        rw [hg.1] at hi
        cases hi
      simp only [Client.Destroy, hc, hi, Outcome.state]
      exact h.of_not_mem hp
    | true =>
      rw [Client.Destroy_live h hc hi]
      simp only [Outcome.state]
      have hlt := lt_length_of_heap hc
      refine ⟨h.nodup.filter _, ?_, ?_, ?_⟩
      · intro q hq
        obtain ⟨hq1, hq2⟩ := List.mem_filter.mp hq
        have hqp : q ≠ p := by simpa using hq2
        obtain ⟨cq, hcq, hg, ho⟩ := h.good q hq1
        refine ⟨cq, ?_, hg, fun _ => ho ?_⟩
        · show (s.heap.set p _)[q]? = some cq
          rw [List.getElem?_set_ne (Ne.symm hqp)]
          exact hcq
        · intro hpq
          exact hqp (Option.some.inj hpq).symm
      · intro q cq hq hiq
        have hq1 : (s.heap.set p { c with writer := none, initialized := false })[q]?
            = some cq := hq
        by_cases hqp : q = p
        · subst hqp
          rw [List.getElem?_set_self hlt] at hq1
          have := Option.some.inj hq1
          subst this
          cases hiq
        · rw [List.getElem?_set_ne (Ne.symm hqp)] at hq1
          exact List.mem_filter.mpr ⟨h.live q cq hq1 hiq, by simpa using hqp⟩
      · intro q cq hq hiq
        have hq1 : (s.heap.set p { c with writer := none, initialized := false })[q]?
            = some cq := hq
        by_cases hqp : q = p
        · subst hqp
          rw [List.getElem?_set_self hlt] at hq1
          have := Option.some.inj hq1
          subst this
          rfl
        · rw [List.getElem?_set_ne (Ne.symm hqp)] at hq1
          exact h.dead q cq hq1 hiq

theorem Client.Get_WF {x : Option Nat} {s : State} (p : Nat) (h : WFx x s) :
    WFx x (Client.Get p s).state := by
  cases hc : s.heap[p]? with
  | none => simpa only [Client.Get, hc, Outcome.state] using h
  | some c =>
    cases hi : c.initialized with
    | false => simpa [Client.Get, hc, hi, Outcome.state] using h
    | true =>
      cases hw : c.writer with
      | none => simpa [Client.Get, hc, hi, hw, Outcome.state] using h
      | some ch =>
        cases hb : ch.buf with
        | nil =>
          cases hcl : ch.closed <;> simpa [Client.Get, hc, hi, hw, hb, hcl, Outcome.state] using h
        | cons e rest =>
          simp only [Client.Get, hc, hi, hw, hb, Outcome.state, Bool.not_true,
            Bool.false_eq_true, if_false]
          refine h.set_heap hc hi.symm ?_ (fun hd => by cases hd)
          intro hp
          obtain ⟨c1, hc1, hg, ho⟩ := h.good p hp
          have hcc : c1 = c := Option.some.inj (hc1.symm.trans hc)
          subst hcc
          obtain ⟨_, ch1, hw1, hcap, hlen⟩ := hg
          have hch : ch1 = ch := Option.some.inj (hw1.symm.trans hw)
          subst hch
          refine ⟨⟨rfl, _, rfl, hcap, ?_⟩, ?_⟩
          · rw [hb] at hlen
            simp at hlen ⊢
            omega
          · intro hx ch2 h2
            have h3 : ch2 = { ch1 with buf := rest } := (Option.some.inj h2).symm
            subst h3
            exact ho hx ch1 hw

theorem Client.SetLogLevel_WF {x : Option Nat} {s : State} (p : Nat) (level : Level)
    (h : WFx x s) : WFx x (Client.SetLogLevel p level s).state := by
  cases hc : s.heap[p]? with
  | none => simpa only [Client.SetLogLevel, hc, Outcome.state] using h
  | some c =>
    cases hi : c.initialized with
    | false => simpa [Client.SetLogLevel, hc, hi, Outcome.state] using h
    | true =>
      simp only [Client.SetLogLevel, hc, hi, Outcome.state, Bool.not_true,
        Bool.false_eq_true, if_false]
      refine h.set_heap hc hi.symm ?_ (fun hd => by cases hd)
      intro hp
      obtain ⟨c1, hc1, hg, ho⟩ := h.good p hp
      have hcc : c1 = c := Option.some.inj (hc1.symm.trans hc)
      subst hcc
      exact ⟨⟨rfl, hg.2⟩, fun hx => ho hx⟩

theorem Client.GetLogLevel_state (p : Nat) (s : State) :
    (Client.GetLogLevel p s).state = s := by
  cases hc : s.heap[p]? with
  | none => simp only [Client.GetLogLevel, hc, Outcome.state]
  | some c => cases hi : c.initialized <;> simp [Client.GetLogLevel, hc, hi, Outcome.state]

theorem stderrSetLogLevel_WF {x : Option Nat} {s : State} (level : Level) (h : WFx x s) :
    WFx x (SetLogLevel level s).state := by
  cases hc : s.heap[s.stderrClient]? with
  | none => simpa only [SetLogLevel, hc, Outcome.state] using h
  | some c =>
    simp only [SetLogLevel, hc, Outcome.state]
    refine h.set_heap hc rfl ?_ (fun hd => h.dead _ c hc hd)
    intro hp
    obtain ⟨c1, hc1, hg, ho⟩ := h.good _ hp
    have hcc : c1 = c := Option.some.inj (hc1.symm.trans hc)
    subst hcc
    exact ⟨hg, ho⟩

theorem not_mem_clients_length {x : Option Nat} {s : State} (h : WFx x s) :
    s.heap.length ∉ s.clients := by
  intro hm
  obtain ⟨c, hc, _⟩ := h.good _ hm
  exact absurd (lt_length_of_heap hc) (lt_irrefl _)

/-- Allocating a client at the end of the heap, and registering it when it is
live and good, keeps the registry invariant. -/
theorem WFx.alloc {s : State} (h : WF s) (c : Client)
    (hc : c.initialized = true → c.Good ∧ c.Open)
    (hd : c.initialized = false → c.writer = none) :
    WF { s with heap := s.heap ++ [c],
                clients := if c.initialized then s.clients ++ [s.heap.length] else s.clients } := by
  have hfresh := not_mem_clients_length h
  have hold : ∀ (q : Nat) (cq : Client), s.heap[q]? = some cq →
      (s.heap ++ [c])[q]? = some cq := by
    intro q cq hq
    rw [List.getElem?_append_left (lt_length_of_heap hq)]
    exact hq
  refine ⟨?_, ?_, ?_, ?_⟩
  · show (if c.initialized then s.clients ++ [s.heap.length] else s.clients).Nodup
    split
    · exact List.Nodup.append h.nodup (List.nodup_singleton _) (by simpa using hfresh)
    · exact h.nodup
  · intro q hq
    have hq1 : q ∈ (if c.initialized then s.clients ++ [s.heap.length] else s.clients) := hq
    have hcase : q ∈ s.clients ∨ (c.initialized = true ∧ q = s.heap.length) := by
      split at hq1
      · rename_i hi
        rcases List.mem_append.mp hq1 with h1 | h1
        · exact Or.inl h1
        · exact Or.inr ⟨hi, by simpa using h1⟩
      · exact Or.inl hq1
    rcases hcase with h1 | ⟨hi, h1⟩
    · obtain ⟨cq, hcq, hg⟩ := h.good q h1
      exact ⟨cq, hold q cq hcq, hg⟩
    · subst h1
      exact ⟨c, List.getElem?_concat_length _ _, (hc hi).1, fun _ => (hc hi).2⟩
  · intro q cq hq hi
    have hq1 : (s.heap ++ [c])[q]? = some cq := hq
    show q ∈ (if c.initialized then s.clients ++ [s.heap.length] else s.clients)
    by_cases hlt : q < s.heap.length
    · rw [List.getElem?_append_left hlt] at hq1
      have := h.live q cq hq1 hi
      split
      · exact List.mem_append_left _ this
      · exact this
    · have hq2 := lt_length_of_heap (s := { s with heap := s.heap ++ [c] }) hq
      have hq3 : q < s.heap.length + 1 := by
        have : q < (s.heap ++ [c]).length := hq2
        simpa using this
      have hqe : q = s.heap.length := by omega
      subst hqe
      rw [List.getElem?_concat_length] at hq1
      have := Option.some.inj hq1
      subst this
      simp [hi]
  · intro q cq hq hi
    have hq1 : (s.heap ++ [c])[q]? = some cq := hq
    by_cases hlt : q < s.heap.length
    · rw [List.getElem?_append_left hlt] at hq1
      exact h.dead q cq hq1 hi
    · have hq3 : q < s.heap.length + 1 := by
        obtain ⟨hq2, _⟩ := List.getElem?_eq_some.mp hq1
        simpa using hq2
      have hqe : q = s.heap.length := by omega
      subst hqe
      rw [List.getElem?_concat_length] at hq1
      have := Option.some.inj hq1
      subst this
      exact hd hi

theorem CreateClient_WF {s : State} (namespaces : List String) (h : WF s) :
    WF (CreateClient namespaces s).2 := by
  have := h.alloc { Client.zero with
      initialized := true
      Namespaces := namespaces
      writer := some (LogWriter.make 1000) }
    (fun _ => ⟨⟨rfl, _, rfl, rfl, by simp [LogWriter.make]⟩, by
      intro ch hch
      have : ch = LogWriter.make 1000 := (Option.some.inj hch).symm
      subst this
      rfl⟩)
    (fun hd => by cases hd)
  simpa [CreateClient] using this

theorem newClient_WF {s : State} (h : WF s) : WF (newClient s).2 := by
  have := h.alloc Client.zero (fun hi => by simp [Client.zero] at hi) (fun _ => rfl)
  simpa [newClient, Client.zero] using this

theorem WFx.open_of_heap {s : State} (h : WF s) {p : Nat} {c : Client}
    (hc : s.heap[p]? = some c) : c.Open := by
  intro ch hw
  cases hi : c.initialized with
  | false =>
    rw [h.dead p c hc hi] at hw
    cases hw
  | true =>
    obtain ⟨c1, hc1, _, ho⟩ := h.good p (h.live p c hc hi)
    have hcc : c1 = c := Option.some.inj (hc1.symm.trans hc)
    subst hcc
    exact ho (by simp) ch hw

theorem logStdErr.body_eq (c : Client) (e : Entry) (s : State) :
    ∃ out, logStdErr.body c e s = { s with stderr := out } := by
  unfold logStdErr.body
  split
  · exact ⟨_, rfl⟩
  · exact ⟨s.stderr, rfl⟩

theorem logStdErr.body_heap (c : Client) (e : Entry) (s : State) :
    (logStdErr.body c e s).heap = s.heap := by
  obtain ⟨out, ho⟩ := logStdErr.body_eq c e s
  rw [ho]

theorem logStdErr.body_clients (c : Client) (e : Entry) (s : State) :
    (logStdErr.body c e s).clients = s.clients := by
  obtain ⟨out, ho⟩ := logStdErr.body_eq c e s
  rw [ho]

theorem logStdErr.body_stderrClient (c : Client) (e : Entry) (s : State) :
    (logStdErr.body c e s).stderrClient = s.stderrClient := by
  obtain ⟨out, ho⟩ := logStdErr.body_eq c e s
  rw [ho]

theorem logStdErr.body_cleanup (c : Client) (e : Entry) (s : State) :
    (logStdErr.body c e s).cleanup = s.cleanup := by
  obtain ⟨out, ho⟩ := logStdErr.body_eq c e s
  rw [ho]

theorem logStdErr.body_running (c : Client) (e : Entry) (s : State) :
    (logStdErr.body c e s).logStdErrRunning = s.logStdErrRunning := by
  obtain ⟨out, ho⟩ := logStdErr.body_eq c e s
  rw [ho]

theorem logStdErr.body_finished (c : Client) (e : Entry) (s : State) :
    (logStdErr.body c e s).stderrFinished = s.stderrFinished := by
  obtain ⟨out, ho⟩ := logStdErr.body_eq c e s
  rw [ho]

/-- A turn of the stderr goroutine changes the heap only by taking the oldest
entry of the stderr client's channel. -/
theorem logStdErr.iter_cases (s : State) :
    (logStdErr.iter s).heap = s.heap ∨
    ∃ c ch e rest, s.heap[s.stderrClient]? = some c ∧ c.writer = some ch ∧
      ch.buf = e :: rest ∧
      (logStdErr.iter s).heap = s.heap.set s.stderrClient (c.pop ch rest) := by
  unfold logStdErr.iter
  split
  · exact Or.inl rfl
  · split
    · exact Or.inl rfl
    · rename_i c hc
      split
      · exact Or.inl rfl
      · rename_i ch hw
        split
        · rename_i e rest hb
          right
          refine ⟨c, ch, e, rest, hc, hw, hb, ?_⟩
          simp only [logStdErr.body_heap]
          rfl
        · split
          · exact Or.inl rfl
          · exact Or.inl rfl

theorem logStdErr.iter_fields (s : State) :
    (logStdErr.iter s).clients = s.clients ∧
    (logStdErr.iter s).stderrClient = s.stderrClient ∧
    (logStdErr.iter s).cleanup = s.cleanup := by
  unfold logStdErr.iter
  split
  · exact ⟨rfl, rfl, rfl⟩
  · split
    · exact ⟨rfl, rfl, rfl⟩
    · split
      · exact ⟨rfl, rfl, rfl⟩
      · split
        · exact ⟨logStdErr.body_clients _ _ _, logStdErr.body_stderrClient _ _ _,
            logStdErr.body_cleanup _ _ _⟩
        · split
          · exact ⟨rfl, rfl, rfl⟩
          · exact ⟨rfl, rfl, rfl⟩

theorem logStdErr.iter_WF {x : Option Nat} {s : State} (h : WFx x s) :
    WFx x (logStdErr.iter s) := by
  have hf := logStdErr.iter_fields s
  rcases logStdErr.iter_cases s with hh | ⟨c, ch, e, rest, hc, hw, hb, hh⟩
  · exact h.congr hh hf.1
  · have h1 : WFx x { s with heap := s.heap.set s.stderrClient (c.pop ch rest) } := by
      refine h.set_heap hc rfl ?_ ?_
      · intro hp
        obtain ⟨c1, hc1, hg, ho⟩ := h.good _ hp
        have hcc : c1 = c := Option.some.inj (hc1.symm.trans hc)
        subst hcc
        obtain ⟨hi, ch1, hw1, hcap, hlen⟩ := hg
        have hch : ch1 = ch := Option.some.inj (hw1.symm.trans hw)
        subst hch
        refine ⟨⟨hi, _, rfl, hcap, ?_⟩, ?_⟩
        · rw [hb] at hlen
          simp at hlen ⊢
          omega
        · intro hx ch2 h2
          have h3 : ch2 = { ch1 with buf := rest } := (Option.some.inj h2).symm
          subst h3
          exact ho hx ch1 hw
      · intro hd
        have hd1 : c.initialized = false := hd
        rw [h.dead _ c hc hd1] at hw
        cases hw
    exact h1.congr hh hf.1

/-- While the channel of the stderr client is open the goroutine stays in its loop. -/
theorem logStdErr.iter_open {s : State} (h : WF s) :
    (logStdErr.iter s).logStdErrRunning = s.logStdErrRunning ∧
    (logStdErr.iter s).stderrFinished = s.stderrFinished := by
  unfold logStdErr.iter
  split
  · exact ⟨rfl, rfl⟩
  · split
    · exact ⟨rfl, rfl⟩
    · rename_i c hc
      split
      · exact ⟨rfl, rfl⟩
      · rename_i ch hw
        split
        · exact ⟨logStdErr.body_running _ _ _, logStdErr.body_finished _ _ _⟩
        · have hcl : ch.closed = false := h.open_of_heap hc ch hw
          simp [hcl]

theorem logStdErr.run_fields : ∀ (n : Nat) (s : State),
    (logStdErr.run n s).clients = s.clients ∧
    (logStdErr.run n s).stderrClient = s.stderrClient ∧
    (logStdErr.run n s).cleanup = s.cleanup := by
  intro n
  induction n with
  | zero => intro s; exact ⟨rfl, rfl, rfl⟩
  | succ n ih =>
    intro s
    obtain ⟨h1, h2, h3⟩ := ih (logStdErr.iter s)
    obtain ⟨g1, g2, g3⟩ := logStdErr.iter_fields s
    exact ⟨h1.trans g1, h2.trans g2, h3.trans g3⟩

theorem logStdErr.run_WF {x : Option Nat} : ∀ (n : Nat) (s : State), WFx x s →
    WFx x (logStdErr.run n s) := by
  intro n
  induction n with
  | zero => intro s h; exact h
  | succ n ih => intro s h; exact ih _ (logStdErr.iter_WF h)

/-- Once the channel of the stderr client is closed, one turn for each queued
entry and one more bring the goroutine to send on `stderrFinished`. -/
theorem logStdErr.run_closed : ∀ (buf : List Entry) (s : State) (c : Client) (ch : LogWriter),
    s.heap[s.stderrClient]? = some c → c.writer = some ch → ch.closed = true →
    ch.buf = buf → s.logStdErrRunning = true → s.stderrFinished = [] →
    (logStdErr.run (buf.length + 1) s).stderrFinished = [true] ∧
    (logStdErr.run (buf.length + 1) s).logStdErrRunning = false := by
  intro buf
  induction buf with
  | nil =>
    intro s c ch hc hw hcl hb hr hf
    simp [logStdErr.run, logStdErr.iter, hr, hc, hw, hb, hcl, hf]
  | cons e rest ih =>
    intro s c ch hc hw hcl hb hr hf
    have hlt := lt_length_of_heap hc
    have hiter : logStdErr.iter s = logStdErr.body (c.pop ch rest) e
        { s with heap := s.heap.set s.stderrClient (c.pop ch rest) } := by
      simp only [logStdErr.iter, hr, hc, hw, hb]
      rfl
    have hrun : logStdErr.run ((e :: rest).length + 1) s
        = logStdErr.run (rest.length + 1) (logStdErr.iter s) := rfl
    rw [hrun]
    refine ih (logStdErr.iter s) (c.pop ch rest) { ch with buf := rest } ?_ rfl hcl rfl ?_ ?_
    · rw [hiter, logStdErr.body_stderrClient, logStdErr.body_heap]
      show (s.heap.set s.stderrClient _)[s.stderrClient]? = _
      exact List.getElem?_set_self hlt
    · rw [hiter, logStdErr.body_running]
      exact hr
    · rw [hiter, logStdErr.body_finished]
      exact hf

theorem Client.Destroy_ne_block (p : Nat) (s s1 : State) :
    Client.Destroy p s ≠ .block s1 := by
  intro h
  simp only [Client.Destroy] at h
  split at h
  · cases h
  · split at h
    · cases h
    · split at h <;> cases h

theorem Inv.of_ctl {s t : State} (h : Inv s) (hwf : WF t) (hctl : t.ctl = s.ctl) : Inv t := by
  have h1 : t.cleanup = s.cleanup := congrArg (fun x => x.1) hctl
  have h2 : t.logStdErrRunning = s.logStdErrRunning := congrArg (fun x => x.2.1) hctl
  have h3 : t.stderrFinished = s.stderrFinished := congrArg (fun x => x.2.2) hctl
  refine ⟨hwf, ?_, ?_⟩
  · rw [h1]; exact h.once
  · rw [h1, h2, h3]; exact h.routine

theorem Client.Destroy_ctl (p : Nat) (s : State) : (Client.Destroy p s).state.ctl = s.ctl := by
  simp only [Client.Destroy]
  split
  · rfl
  · split
    · rfl
    · split <;> rfl

theorem Client.Get_ctl (p : Nat) (s : State) : (Client.Get p s).state.ctl = s.ctl := by
  simp only [Client.Get]
  split
  · rfl
  · split
    · rfl
    · split
      · rfl
      · split
        · rfl
        · split <;> rfl

theorem Client.SetLogLevel_ctl (p : Nat) (level : Level) (s : State) :
    (Client.SetLogLevel p level s).state.ctl = s.ctl := by
  simp only [Client.SetLogLevel]
  split
  · rfl
  · split <;> rfl

theorem stderrSetLogLevel_ctl (level : Level) (s : State) :
    (SetLogLevel level s).state.ctl = s.ctl := by
  simp only [SetLogLevel]
  split <;> rfl

theorem Flush.finish_spec {s : State} (h : WFx (some s.stderrClient) s)
    (hf : s.stderrFinished = [true]) :
    WF (Flush.finish s).state ∧ ∀ s1, Flush.finish s ≠ .block s1 := by
  have h3 := Client.Destroy_WF (p := s.stderrClient) (s := { s with stderrFinished := [] })
    (h.congr rfl rfl)
  have hnb := Client.Destroy_ne_block s.stderrClient { s with stderrFinished := [] }
  simp only [Flush.finish, hf]
  cases hD : Client.Destroy s.stderrClient { s with stderrFinished := [] } with
  | ret v s3 =>
    rw [hD] at h3
    exact ⟨h3, fun _ hb => by cases hb⟩
  | panic v s3 =>
    rw [hD] at h3
    exact ⟨h3, fun _ hb => by cases hb⟩
  | block s3 => exact absurd hD (hnb s3)

/-- The function of `Flush` neither blocks nor breaks the registry invariant
when the stderr goroutine is in its loop and `stderrFinished` is empty. -/
theorem Flush.once_spec {s : State} (h : WF s) (hr : s.logStdErrRunning = true)
    (hf : s.stderrFinished = []) :
    WF (Flush.once s).state ∧ ∀ s1, Flush.once s ≠ .block s1 := by
  cases hc : s.heap[s.stderrClient]? with
  | none =>
    have hE : Flush.once s = .panic nilDeref s := by simp only [Flush.once, hc]
    rw [hE]
    exact ⟨h, fun _ hb => by cases hb⟩
  | some c =>
    cases hw : c.writer with
    | none =>
      have hE : Flush.once s = .panic (.runtimeError "close of nil channel") s := by
        simp only [Flush.once, hc, hw]
      rw [hE]
      exact ⟨h, fun _ hb => by cases hb⟩
    | some ch =>
      have hcl : ch.closed = false := h.open_of_heap hc ch hw
      have hlt := lt_length_of_heap hc
      have hi : c.initialized = true := by
        cases hi : c.initialized with
        | true => rfl
        | false =>
          rw [h.dead _ c hc hi] at hw
          cases hw
      have h1 : WFx (some s.stderrClient)
          { s with heap := s.heap.set s.stderrClient
                     ({ c with writer := some { ch with closed := true } } : Client) } := by
        refine (h.weaken (some s.stderrClient)).set_heap hc rfl ?_ ?_
        · intro hp
          obtain ⟨c1, hc1, hg, _⟩ := h.good _ hp
          have hcc : c1 = c := Option.some.inj (hc1.symm.trans hc)
          subst hcc
          obtain ⟨hi1, ch1, hw1, hcap, hlen⟩ := hg
          have hch : ch1 = ch := Option.some.inj (hw1.symm.trans hw)
          subst hch
          exact ⟨⟨hi1, _, rfl, hcap, hlen⟩, fun hx => absurd rfl hx⟩
        · intro hd
          have hd1 : c.initialized = false := hd
          rw [hi] at hd1
          cases hd1
      have hrun := logStdErr.run_closed ch.buf
        { s with heap := s.heap.set s.stderrClient
                   ({ c with writer := some { ch with closed := true } } : Client) }
        { c with writer := some { ch with closed := true } } { ch with closed := true }
        (List.getElem?_set_self hlt) rfl rfl rfl hr hf
      have h2 := logStdErr.run_WF (ch.buf.length + 1) _ h1
      have hsp := (logStdErr.run_fields (ch.buf.length + 1)
        { s with heap := s.heap.set s.stderrClient
                   ({ c with writer := some { ch with closed := true } } : Client) }).2.1
      have hE : Flush.once s = Flush.finish (logStdErr.run (ch.buf.length + 1)
          { s with heap := s.heap.set s.stderrClient
                     ({ c with writer := some { ch with closed := true } } : Client) }) := by
        simp only [Flush.once, hc, hw, hcl, Bool.false_eq_true, if_false]
      rw [hE]
      refine Flush.finish_spec ?_ hrun.1
      rw [hsp]
      exact h2

theorem Flush_Inv {s : State} (h : Inv s) : Inv (Flush s).state := by
  cases hcu : s.cleanup with
  | done => simpa only [Flush, hcu, Outcome.state] using h
  | running => exact absurd hcu h.once
  | fresh =>
    obtain ⟨hr, hf⟩ := h.routine hcu
    have hwf0 : WF { s with cleanup := OnceState.running } := h.wf.congr rfl rfl
    obtain ⟨hwf, hnb⟩ := Flush.once_spec hwf0 hr hf
    simp only [Flush, hcu]
    cases hO : Flush.once { s with cleanup := OnceState.running } with
    | ret v s1 =>
      rw [hO] at hwf
      exact ⟨hwf.congr rfl rfl, (fun hx => by cases hx), (fun hx => by cases hx)⟩
    | panic v s1 =>
      rw [hO] at hwf
      exact ⟨hwf.congr rfl rfl, (fun hx => by cases hx), (fun hx => by cases hx)⟩
    | block s1 => exact absurd hO (hnb s1)

theorem init_Inv (isTerminal : Bool) : Inv (init isTerminal) := by
  have h0 : WF { State.zero with namespaces := [], colorEnabled := isTerminal } := by
    refine ⟨List.nodup_nil, ?_, ?_, ?_⟩
    · intro p hp
      cases hp
    · intro p c hc
      simp [State.zero] at hc
    · intro p c hc
      simp [State.zero] at hc
  have h1 := CreateClient_WF [DefaultNamespace] h0
  have h2 : WF { (CreateClient [DefaultNamespace]
      { State.zero with namespaces := [], colorEnabled := isTerminal }).2 with
      stderrClient := (CreateClient [DefaultNamespace]
        { State.zero with namespaces := [], colorEnabled := isTerminal }).1 } :=
    h1.congr rfl rfl
  have h3 := Client.SetLogLevel_WF (CreateClient [DefaultNamespace]
        { State.zero with namespaces := [], colorEnabled := isTerminal }).1 LTrace h2
  exact ⟨h3.congr rfl rfl, (fun hx => by cases hx), (fun _ => ⟨rfl, rfl⟩)⟩

/-- Every operation keeps the invariant. -/
theorem Inv.run {s : State} (ih : Inv s) (op : Op) : Inv (op.run s) := by
  cases op with
    | CreateClient namespaces => exact ih.of_ctl (CreateClient_WF namespaces ih.wf) rfl
    | newClient => exact ih.of_ctl (newClient_WF ih.wf) rfl
    | Destroy p =>
      exact ih.of_ctl (Client.Destroy_WF (ih.wf.weaken (some p))) (Client.Destroy_ctl p s)
    | GetLogLevel p =>
      show Inv (Client.GetLogLevel p s).state
      rw [Client.GetLogLevel_state]
      exact ih
    | SetLogLevel p level =>
      exact ih.of_ctl (Client.SetLogLevel_WF p level ih.wf) (Client.SetLogLevel_ctl p level s)
    | Get p => exact ih.of_ctl (Client.Get_WF p ih.wf) (Client.Get_ctl p s)
    | createLog e =>
      obtain ⟨s1, hr, hs1, _, _, hwf⟩ := createLog_spec ih.wf e
      show Inv (createLog e s).state
      rw [hr]
      refine ih.of_ctl hwf ?_
      have h2 := congrArg State.ctl hs1
      exact h2
    | SetStderrLogLevel level =>
      exact ih.of_ctl (stderrSetLogLevel_WF level ih.wf) (stderrSetLogLevel_ctl level s)
    | SetColorEnabled enabled => exact ih.of_ctl (ih.wf.congr rfl rfl) rfl
    | Flush => exact Flush_Inv ih
    | logStdErr =>
      refine ih.of_ctl (logStdErr.iter_WF ih.wf) ?_
      obtain ⟨h1, h2⟩ := logStdErr.iter_open ih.wf
      have h3 := (logStdErr.iter_fields s).2.2
      show ((logStdErr.iter s).cleanup, (logStdErr.iter s).logStdErrRunning,
        (logStdErr.iter s).stderrFinished) = _
      rw [h1, h2, h3]
      rfl

/-- Every reachable state satisfies the invariant. -/
theorem Reachable.inv {s : State} (h : Reachable s) : Inv s := by
  induction h with
  | init isTerminal => exact init_Inv isTerminal
  | step op s _ _ ih => exact ih.run op

theorem Reachable.wf {s : State} (h : Reachable s) : WF s :=
  h.inv.wf

theorem ReachableFrom.inv_of {s t : State} (hs : Inv s) (h : ReachableFrom s t) : Inv t := by
  induction h with
  | refl => exact hs
  | step op u _ _ ih => exact ih.run op

/-! ## Buffers under dispatch -/

theorem State.buffer_eq {s : State} {p : Nat} {c : Client} {ch : LogWriter}
    (hc : s.heap[p]? = some c) (hw : c.writer = some ch) : s.buffer p = ch.buf := by
  simp only [State.buffer, hc, hw]

theorem Client.matchesNamespace_congr {c1 c2 : Client} (h : c1.Namespaces = c2.Namespaces)
    (ns : String) : c1.matchesNamespace ns = c2.matchesNamespace ns := by
  simp only [Client.matchesNamespace, h]

/-- Dispatching one entry in a state that satisfies the registry invariant, seen
from one registered client. -/
theorem createLog_buffer {s : State} (h : WF s) (e : Entry) {p : Nat} {c : Client}
    (hp : p ∈ s.clients) (hc : s.heap[p]? = some c) :
    ∃ s1, createLog e s = .ret () s1 ∧ WF s1 ∧ s1.clients = s.clients ∧
      s1.heap[p]? = some (c.offer e) ∧
      s1.buffer p =
        if c.matchesNamespace e.Namespace then offer (s.buffer p) e else s.buffer p := by
  obtain ⟨s1, hr, hs1, _, hin, hwf⟩ := createLog_spec h e
  have hcl : s1.clients = s.clients := by
    have h2 := congrArg State.clients hs1
    exact h2
  have h1 := hin p hp c hc
  refine ⟨s1, hr, hwf, hcl, h1, ?_⟩
  obtain ⟨c1, hc1, hg, _⟩ := h.good p hp
  have hcc : c1 = c := Option.some.inj (hc1.symm.trans hc)
  subst hcc
  obtain ⟨_, ch, hw, _, _⟩ := hg
  rw [State.buffer_eq hc hw]
  by_cases hm : c1.matchesNamespace e.Namespace = true
  · have hw1 : (c1.offer e).writer = some { ch with buf := offer ch.buf e } := by
      simp [Client.offer, hm, hw]
    rw [State.buffer_eq h1 hw1]
    simp [hm]
  · have hw1 : (c1.offer e).writer = some ch := by
      simp [Client.offer, hm, hw]
    rw [State.buffer_eq h1 hw1]
    simp [hm]

/-- Dispatching matching entries to a registered client whose buffer has room
for all of them appends them to the buffer, in order. -/
theorem createLog_fill (p : Nat) : ∀ (es : List Entry) (s : State) (c : Client),
    Reachable s → p ∈ s.clients → s.heap[p]? = some c →
    (∀ e ∈ es, c.matchesNamespace e.Namespace = true) →
    (s.buffer p).length + es.length ≤ 1000 →
    ∃ s1 c1, runCalls p (es.map Call.createLog) s = ([], .ret () s1) ∧ Reachable s1 ∧
      p ∈ s1.clients ∧ s1.heap[p]? = some c1 ∧ c1.Namespaces = c.Namespaces ∧
      c1.LogLevel = c.LogLevel ∧ s1.buffer p = s.buffer p ++ es := by
  intro es
  induction es with
  | nil =>
    intro s c hs hp hc _ _
    exact ⟨s, c, rfl, hs, hp, hc, rfl, rfl, by simp⟩
  | cons e es ih =>
    intro s c hs hp hc hm hlen
    obtain ⟨s1, hr, _, hcl, h1, hb⟩ := createLog_buffer hs.wf e hp hc
    have hme : c.matchesNamespace e.Namespace = true := hm e (List.mem_cons_self e es)
    have hlt : (s.buffer p).length < 1000 := by
      simp only [List.length_cons] at hlen
      omega
    have hb1 : s1.buffer p = s.buffer p ++ [e] := by
      rw [hb]
      simp [hme, offer, hlt]
    have hs1 : Reachable s1 := by
      have h2 := Reachable.step (Op.createLog e) s hs (by simp [Op.receiver])
      have h3 : (Op.createLog e).run s = s1 := by
        show (createLog e s).state = s1
        rw [hr]
        rfl
      rw [h3] at h2
      exact h2
    have hm1 : ∀ x ∈ es, (c.offer e).matchesNamespace x.Namespace = true := by
      intro x hx
      rw [Client.matchesNamespace_congr (Client.offer_Namespaces c e)]
      exact hm x (List.mem_cons_of_mem e hx)
    have hlen1 : (s1.buffer p).length + es.length ≤ 1000 := by
      rw [hb1]
      simp only [List.length_append, List.length_cons, List.length_nil] at hlen ⊢
      omega
    obtain ⟨s2, c2, hr2, hs2, hp2, hc2, hn2, hl2, hb2⟩ :=
      ih s1 (c.offer e) hs1 (hcl ▸ hp) h1 hm1 hlen1
    refine ⟨s2, c2, ?_, hs2, hp2, hc2, ?_, ?_, ?_⟩
    · simp only [List.map_cons, runCalls, hr]
      exact hr2
    · rw [hn2, Client.offer_Namespaces]
    · rw [hl2, Client.offer_LogLevel]
    · rw [hb2, hb1]
      simp

/-! ## The claims -/

/-- C2: `c.matchesNamespace(ns)` is true exactly when `c.Namespaces` is empty or
`ns` is one of its elements; the empty filter matches every namespace. -/
theorem C2_matchesNamespace_iff (c : Client) (ns : String) :
    (c.matchesNamespace ns = true ↔ (c.Namespaces = [] ∨ ns ∈ c.Namespaces)) ∧
    ({ c with Namespaces := [] } : Client).matchesNamespace ns = true := by
  refine ⟨?_, by simp [Client.matchesNamespace]⟩
  unfold Client.matchesNamespace
  cases hn : c.Namespaces with
  | nil => simp
  | cons a as =>
    have hlen : ((a :: as).length == 0) = false := rfl
    rw [hlen]
    simp only [Bool.false_eq_true, if_false, List.any_eq_true, beq_iff_eq]
    constructor
    · rintro ⟨x, hx, hxn⟩
      exact Or.inr (hxn ▸ hx)
    · intro h
      rcases h with h | h
      · cases h
      · exact ⟨ns, h, rfl⟩

theorem authState_reachable : Reachable authState :=
  Reachable.step (Op.CreateClient ["auth"]) (LogSocket.init false) (Reachable.init false)
    (by simp [Op.receiver])

/-- The stderr client of `init false` holds the 1000 entries of `fullState`. -/
theorem fullState_spec :
    ∃ c1, Reachable fullState ∧ 0 ∈ fullState.clients ∧ fullState.heap[0]? = some c1 ∧
      c1.Namespaces = [DefaultNamespace] ∧
      fullState.buffer 0 = List.replicate 1000 defaultEntry := by
  have hc : (init false).heap[0]? = some
      { LogLevel := LTrace, Namespaces := [DefaultNamespace],
        writer := some (LogWriter.make 1000), initialized := true } := rfl
  obtain ⟨s1, c1, hr, hs1, hp1, hc1, hn1, _, hb1⟩ :=
    createLog_fill 0 (List.replicate 1000 defaultEntry) (init false) _
      (Reachable.init false) (by decide) hc
      (by
        intro e he
        rw [List.eq_of_mem_replicate he]
        rfl)
      (by
        rw [State.buffer_eq hc rfl, List.length_replicate]
        decide)
  have hfull : fullState = s1 := by
    unfold fullState
    rw [hr]
    rfl
  rw [hfull]
  refine ⟨c1, hs1, hp1, hc1, hn1, ?_⟩
  rw [hb1, State.buffer_eq hc rfl]
  rfl

/-- C1: in a reachable state, for a registered client whose buffer holds fewer
than 1000 entries, `createLog(e)` returns and leaves the buffer of the client
equal to its previous content followed by `e` when the filter of the client
matches `e.Namespace`, and unchanged when it does not, whatever the threshold
of the client is; a client with filter "auth" receives no entry of namespace
"database", and a client with the empty filter receives every entry. -/
theorem C1_createLog_filters (s : State) (p : Nat) (c : Client) (e : Entry)
    (hs : Reachable s) (hp : p ∈ s.clients) (hc : s.heap[p]? = some c)
    (hlen : (s.buffer p).length < 1000) :
    ∃ s1, createLog e s = .ret () s1 ∧
      s1.buffer p =
        (if c.matchesNamespace e.Namespace then s.buffer p ++ [e] else s.buffer p) ∧
      (∃ c1, s1.heap[p]? = some c1 ∧ c1.LogLevel = c.LogLevel ∧
        c1.Namespaces = c.Namespaces ∧ c1.initialized = c.initialized) ∧
      (c.Namespaces = ["auth"] → e.Namespace = "database" → s1.buffer p = s.buffer p) ∧
      (c.Namespaces = [] → s1.buffer p = s.buffer p ++ [e]) := by
  obtain ⟨s1, hr, _, _, h1, hb⟩ := createLog_buffer hs.wf e hp hc
  have hb1 : s1.buffer p =
      (if c.matchesNamespace e.Namespace then s.buffer p ++ [e] else s.buffer p) := by
    rw [hb]
    simp [offer, hlen]
  refine ⟨s1, hr, hb1, ⟨c.offer e, h1, Client.offer_LogLevel c e, Client.offer_Namespaces c e,
    Client.offer_initialized c e⟩, ?_, ?_⟩
  · intro hn he
    rw [hb1]
    have hm : c.matchesNamespace e.Namespace = false := by
      simp [Client.matchesNamespace, hn, he]
    simp [hm]
  · intro hn
    rw [hb1]
    have hm : c.matchesNamespace e.Namespace = true := by
      simp [Client.matchesNamespace, hn]
    simp [hm]

/-- C1 at the client made by `CreateClient("auth")`, for an entry of namespace "database". -/
theorem C1_createLog_filters_witness :
    ∃ s1, createLog databaseEntry authState = .ret () s1 ∧
      s1.buffer 1 =
        (if authClient.matchesNamespace databaseEntry.Namespace
          then authState.buffer 1 ++ [databaseEntry] else authState.buffer 1) ∧
      (∃ c1, s1.heap[1]? = some c1 ∧ c1.LogLevel = authClient.LogLevel ∧
        c1.Namespaces = authClient.Namespaces ∧ c1.initialized = authClient.initialized) ∧
      (authClient.Namespaces = ["auth"] → databaseEntry.Namespace = "database" →
        s1.buffer 1 = authState.buffer 1) ∧
      (authClient.Namespaces = [] → s1.buffer 1 = authState.buffer 1 ++ [databaseEntry]) :=
  C1_createLog_filters authState 1 authClient databaseEntry authState_reachable
    (by decide) rfl (by decide)

/-- C3: in a reachable state, for a registered client whose filter matches
`e.Namespace` and whose buffer is full (1000 entries, the oldest being `q0`),
`createLog(e)` returns and leaves the buffer equal to the previous one without
`q0`, followed by `e`; its length stays 1000. -/
theorem C3_overflow_drops_oldest (s : State) (p : Nat) (c : Client) (e q0 : Entry)
    (rest : List Entry) (hs : Reachable s) (hp : p ∈ s.clients) (hc : s.heap[p]? = some c)
    (hm : c.matchesNamespace e.Namespace = true) (hb : s.buffer p = q0 :: rest)
    (hfull : (s.buffer p).length = 1000) :
    ∃ s1, createLog e s = .ret () s1 ∧ s1.buffer p = rest ++ [e] ∧
      (s1.buffer p).length = 1000 := by
  obtain ⟨s1, hr, _, _, _, hb1⟩ := createLog_buffer hs.wf e hp hc
  have hb2 : s1.buffer p = rest ++ [e] := by
    rw [hb1]
    have hnl : ¬ (s.buffer p).length < 1000 := by omega
    rw [if_pos hm]
    unfold offer
    rw [if_neg hnl, hb]
    rfl
  refine ⟨s1, hr, hb2, ?_⟩
  rw [hb2]
  rw [hb] at hfull
  simp only [List.length_cons] at hfull
  simp only [List.length_append, List.length_cons, List.length_nil]
  omega

/-- C3 at the stderr client after 1000 undrained calls of `Trace`. -/
theorem C3_overflow_drops_oldest_witness :
    ∃ s1, createLog defaultEntry fullState = .ret () s1 ∧
      s1.buffer 0 = List.replicate 999 defaultEntry ++ [defaultEntry] ∧
      (s1.buffer 0).length = 1000 := by
  obtain ⟨c1, hs, hp, hc, hn, hb⟩ := fullState_spec
  have hm : c1.matchesNamespace defaultEntry.Namespace = true := by
    simp [Client.matchesNamespace, hn, defaultEntry]
  exact C3_overflow_drops_oldest fullState 0 c1 defaultEntry defaultEntry
    (List.replicate 999 defaultEntry) hs hp hc hm (by rw [hb]; rfl)
    (by rw [hb, List.length_replicate])

theorem offer_sublist (buf : List Entry) (e : Entry) : (offer buf e).Sublist (buf ++ [e]) := by
  unfold offer
  split
  · exact List.Sublist.refl _
  · exact List.Sublist.append (List.tail_sublist buf) (List.Sublist.refl _)

/-- Calling `Get` on a registered client, in a state that satisfies the registry
invariant: it returns the oldest entry of a non-empty buffer and removes it,
and it blocks on an empty buffer; nothing else changes. -/
theorem Client.Get_buffer {s : State} (h : WF s) {p : Nat} {c : Client}
    (hp : p ∈ s.clients) (hc : s.heap[p]? = some c) :
    (s.buffer p = [] ∧ Client.Get p s = .block s) ∨
    ∃ e rest s1 c1, s.buffer p = e :: rest ∧ Client.Get p s = .ret e s1 ∧ WF s1 ∧
      s1.clients = s.clients ∧ s1.heap[p]? = some c1 ∧ c1.Namespaces = c.Namespaces ∧
      c1.LogLevel = c.LogLevel ∧ s1.buffer p = rest := by
  obtain ⟨c0, hc0, hg, ho⟩ := h.good p hp
  have hcc : c0 = c := Option.some.inj (hc0.symm.trans hc)
  subst hcc
  obtain ⟨hi, ch, hw, _, _⟩ := hg
  have hcl : ch.closed = false := ho (by simp) ch hw
  have hlt := lt_length_of_heap hc
  have hni : ¬ ((!c0.initialized) = true) := by simp [hi]
  cases hb : ch.buf with
  | nil =>
    left
    refine ⟨by rw [State.buffer_eq hc hw, hb], ?_⟩
    simp only [Client.Get, hc, hw, hb, hcl]
    rw [if_neg hni]
    rfl
  | cons e rest =>
    right
    have hget : Client.Get p s = .ret e { s with heap := s.heap.set p (c0.pop ch rest) } := by
      simp only [Client.Get, hc, hw, hb]
      rw [if_neg hni]
      rfl
    have hwf := Client.Get_WF p h
    rw [hget] at hwf
    have h1 : ({ s with heap := s.heap.set p (c0.pop ch rest) } : State).heap[p]?
        = some (c0.pop ch rest) := List.getElem?_set_self hlt
    refine ⟨e, rest, _, c0.pop ch rest, by rw [State.buffer_eq hc hw, hb], hget, hwf, rfl,
      h1, rfl, rfl, ?_⟩
    exact State.buffer_eq h1 rfl

theorem dispatched_congr {c1 c2 : Client} (h : c1.Namespaces = c2.Namespaces) :
    ∀ cs : List Call, dispatched c1 cs = dispatched c2 cs := by
  intro cs
  induction cs with
  | nil => rfl
  | cons a cs ih =>
    cases a with
    | createLog e =>
      simp only [dispatched, Client.matchesNamespace_congr h, ih]
    | Get => simpa only [dispatched] using ih

/-- What `Get` has returned so far, followed by what is still queued, is always
a subsequence of what was queued at the start followed by the matching entries
dispatched since. -/
theorem runCalls_sublist (p : Nat) : ∀ (cs : List Call) (s : State) (c : Client),
    WF s → p ∈ s.clients → s.heap[p]? = some c →
    ((runCalls p cs s).1 ++ (runCalls p cs s).2.state.buffer p).Sublist
      (s.buffer p ++ dispatched c cs) := by
  intro cs
  induction cs with
  | nil =>
    intro s c _ _ _
    simp [runCalls, dispatched, Outcome.state]
  | cons a cs ih =>
    intro s c h hp hc
    cases a with
    | createLog e =>
      obtain ⟨s1, hr, hwf1, hcl, h1, hb⟩ := createLog_buffer h e hp hc
      have hih := ih s1 (c.offer e) hwf1 (hcl ▸ hp) h1
      rw [dispatched_congr (Client.offer_Namespaces c e)] at hih
      have hrun : runCalls p (Call.createLog e :: cs) s = runCalls p cs s1 := by
        simp only [runCalls, hr]
      rw [hrun]
      refine hih.trans ?_
      rw [hb]
      by_cases hm : c.matchesNamespace e.Namespace = true
      · simp only [hm, if_true, dispatched]
        have h2 := List.Sublist.append (offer_sublist (s.buffer p) e)
          (List.Sublist.refl (dispatched c cs))
        simpa using h2
      · simp only [hm, dispatched]
        exact List.Sublist.refl _
    | Get =>
      rcases Client.Get_buffer h hp hc with ⟨hb, hg⟩ | ⟨e, rest, s1, c1, hb, hg, hwf1, hcl, h1, hn, _, hb1⟩
      · have hrun : runCalls p (Call.Get :: cs) s = ([], .block s) := by
          simp only [runCalls, hg]
        rw [hrun]
        simp only [List.nil_append, Outcome.state]
        exact List.sublist_append_left _ _
      · have hih := ih s1 c1 hwf1 (hcl ▸ hp) h1
        rw [dispatched_congr hn, hb1] at hih
        have hrun : runCalls p (Call.Get :: cs) s
            = (e :: (runCalls p cs s1).1, (runCalls p cs s1).2) := by
          simp only [runCalls, hg]
        rw [hrun, hb]
        simp only [dispatched, List.cons_append]
        exact List.Sublist.cons₂ e hih

/-- C4: for a registered client in a reachable state and every finite sequence
of `createLog` and `Get` calls on it, the entries that `Get` returns form a
subsequence of the entries queued at the start followed by the dispatched
entries that match the filter: they sit at strictly increasing positions of
that sequence, so none is returned twice and no two are out of order. -/
theorem C4_gaps_but_no_duplicate_or_reorder (s : State) (p : Nat) (c : Client)
    (cs : List Call) (hs : Reachable s) (hp : p ∈ s.clients) (hc : s.heap[p]? = some c) :
    ((runCalls p cs s).1).Sublist (s.buffer p ++ dispatched c cs) ∧
    (∃ f : Fin (runCalls p cs s).1.length → Fin (s.buffer p ++ dispatched c cs).length,
      StrictMono f ∧
      ∀ i, (runCalls p cs s).1.get i = (s.buffer p ++ dispatched c cs).get (f i)) ∧
    (s.buffer p = [] → ((runCalls p cs s).1).Sublist (dispatched c cs)) ∧
    ((s.buffer p ++ dispatched c cs).Nodup → (runCalls p cs s).1.Nodup) := by
  have h1 : ((runCalls p cs s).1).Sublist (s.buffer p ++ dispatched c cs) :=
    (List.sublist_append_left _ _).trans (runCalls_sublist p cs s c hs.wf hp hc)
  refine ⟨h1, ?_, ?_, fun hnd => h1.nodup hnd⟩
  · obtain ⟨f, hf⟩ := List.sublist_iff_exists_fin_orderEmbedding_get_eq.mp h1
    exact ⟨f, f.strictMono, hf⟩
  · intro hb
    rw [hb] at h1
    exact h1

/-- C4 on the client made by `CreateClient("auth")` and the calls of `sampleCalls`. -/
theorem C4_gaps_but_no_duplicate_or_reorder_witness :
    ((runCalls 1 sampleCalls authState).1).Sublist
      (authState.buffer 1 ++ dispatched authClient sampleCalls) ∧
    (∃ f : Fin (runCalls 1 sampleCalls authState).1.length →
        Fin (authState.buffer 1 ++ dispatched authClient sampleCalls).length,
      StrictMono f ∧
      ∀ i, (runCalls 1 sampleCalls authState).1.get i =
        (authState.buffer 1 ++ dispatched authClient sampleCalls).get (f i)) ∧
    (authState.buffer 1 = [] →
      ((runCalls 1 sampleCalls authState).1).Sublist (dispatched authClient sampleCalls)) ∧
    ((authState.buffer 1 ++ dispatched authClient sampleCalls).Nodup →
      (runCalls 1 sampleCalls authState).1.Nodup) :=
  C4_gaps_but_no_duplicate_or_reorder authState 1 authClient sampleCalls authState_reachable
    (by decide) rfl

theorem runCalls_append (p : Nat) : ∀ (cs1 cs2 : List Call) (s s1 : State) (o1 : List Entry),
    runCalls p cs1 s = (o1, .ret () s1) →
    runCalls p (cs1 ++ cs2) s = (o1 ++ (runCalls p cs2 s1).1, (runCalls p cs2 s1).2) := by
  intro cs1
  induction cs1 with
  | nil =>
    intro cs2 s s1 o1 h
    simp only [runCalls, Prod.mk.injEq, Outcome.ret.injEq, true_and] at h
    obtain ⟨h1, h2⟩ := h
    subst h1 h2
    rfl
  | cons a cs1 ih =>
    intro cs2 s s1 o1 h
    cases a with
    | createLog e =>
      cases hr : createLog e s with
      | ret v s2 =>
        simp only [runCalls, hr] at h
        simp only [List.cons_append, runCalls, hr]
        exact ih cs2 s2 s1 o1 h
      | panic v s2 =>
        simp only [runCalls, hr] at h
        cases h
      | block s2 =>
        simp only [runCalls, hr] at h
        cases h
    | Get =>
      cases hr : Client.Get p s with
      | ret e s2 =>
        simp only [runCalls, hr, Prod.mk.injEq] at h
        obtain ⟨h1, h2⟩ := h
        have h3 := ih cs2 s2 s1 (runCalls p cs1 s2).1 (Prod.ext rfl h2)
        rw [← h1]
        show runCalls p (Call.Get :: (cs1 ++ cs2)) s = _
        simp only [runCalls, hr, h3]
        rfl
      | panic v s2 =>
        simp only [runCalls, hr] at h
        cases h
      | block s2 =>
        simp only [runCalls, hr] at h
        cases h

/-- Draining a registered client as many times as its buffer has entries
returns the buffer, oldest entry first, and leaves it empty. -/
theorem runCalls_drain (p : Nat) : ∀ (es : List Entry) (s : State) (c : Client),
    WF s → p ∈ s.clients → s.heap[p]? = some c → s.buffer p = es →
    ∃ s1, runCalls p (List.replicate es.length Call.Get) s = (es, .ret () s1) ∧
      s1.buffer p = [] := by
  intro es
  induction es with
  | nil =>
    intro s c _ _ _ hb
    exact ⟨s, rfl, hb⟩
  | cons e es ih =>
    intro s c h hp hc hb
    rcases Client.Get_buffer h hp hc with ⟨hb0, _⟩ | ⟨e1, rest, s1, c1, hb1, hg, hwf1, hcl, h1, _, _, hb2⟩
    · rw [hb] at hb0
      cases hb0
    · rw [hb] at hb1
      have he : e = e1 := (List.cons.inj hb1).1
      have hr : es = rest := (List.cons.inj hb1).2
      subst he hr
      obtain ⟨s2, hrun, hb3⟩ := ih s1 c1 hwf1 (hcl ▸ hp) h1 hb2
      refine ⟨s2, ?_, hb3⟩
      simp only [List.length_cons, List.replicate_succ, runCalls, hg, hrun]

/-- Dispatching matching entries to a registered client with an empty buffer,
each followed at once by `Get`, returns them in order, however many they are. -/
theorem runCalls_alternate (p : Nat) : ∀ (es : List Entry) (s : State) (c : Client),
    WF s → p ∈ s.clients → s.heap[p]? = some c → s.buffer p = [] →
    (∀ e ∈ es, c.matchesNamespace e.Namespace = true) →
    ∃ s1, runCalls p (alternate es) s = (es, .ret () s1) ∧ s1.buffer p = [] := by
  intro es
  induction es with
  | nil =>
    intro s c _ _ _ hb _
    exact ⟨s, rfl, hb⟩
  | cons e es ih =>
    intro s c h hp hc hb hm
    obtain ⟨s1, hr, hwf1, hcl, h1, hb1⟩ := createLog_buffer h e hp hc
    have hme : c.matchesNamespace e.Namespace = true := hm e (List.mem_cons_self e es)
    have hb2 : s1.buffer p = [e] := by
      rw [hb1, hb]
      simp [hme, offer]
    rcases Client.Get_buffer hwf1 (hcl ▸ hp) h1 with
      ⟨hb0, _⟩ | ⟨e1, rest, s2, c2, hb3, hg, hwf2, hcl2, h2, hn2, _, hb4⟩
    · rw [hb2] at hb0
      cases hb0
    · rw [hb2] at hb3
      have he : e = e1 := (List.cons.inj hb3).1
      have hrest : [] = rest := (List.cons.inj hb3).2
      subst he hrest
      have hm2 : ∀ x ∈ es, c2.matchesNamespace x.Namespace = true := by
        intro x hx
        rw [Client.matchesNamespace_congr (hn2.trans (Client.offer_Namespaces c e))]
        exact hm x (List.mem_cons_of_mem e hx)
      obtain ⟨s3, hrun, hb5⟩ :=
        ih s2 c2 hwf2 (hcl2 ▸ hcl ▸ hp) h2 hb4 hm2
      refine ⟨s3, ?_, hb5⟩
      simp only [alternate, runCalls, hr, hg, hrun]

/-- What `CreateClient` allocates, and where. -/
theorem CreateClient_heap (ns : List String) (s : State) :
    (CreateClient ns s).2.heap[(CreateClient ns s).1]? = some
      { LogLevel := LTrace, Namespaces := ns,
        writer := some { buf := [], cap := 1000, closed := false }, initialized := true } :=
  List.getElem?_concat_length _ _

theorem CreateClient_reachable {s : State} (ns : List String) (hs : Reachable s) :
    Reachable (CreateClient ns s).2 :=
  Reachable.step (Op.CreateClient ns) s hs (by simp [Op.receiver])

/-- C5: for a client freshly made by `CreateClient` in a reachable state and
entries whose namespaces its filter matches: dispatching at most 1000 of them
and then calling `Get` as many times returns exactly these entries, in dispatch
order; and dispatching any number of them, each followed at once by `Get`,
returns each entry right after its dispatch. Every call returns. -/
theorem C5_order_preserved (s : State) (ns : List String) (es fs : List Entry)
    (hs : Reachable s) (hn : es.length ≤ 1000)
    (hes : ∀ e ∈ es, ∀ c, (CreateClient ns s).2.heap[(CreateClient ns s).1]? = some c →
      c.matchesNamespace e.Namespace = true)
    (hfs : ∀ e ∈ fs, ∀ c, (CreateClient ns s).2.heap[(CreateClient ns s).1]? = some c →
      c.matchesNamespace e.Namespace = true) :
    (∃ s1, runCalls (CreateClient ns s).1
        (es.map Call.createLog ++ List.replicate es.length Call.Get) (CreateClient ns s).2
          = (es, .ret () s1) ∧ s1.buffer (CreateClient ns s).1 = []) ∧
    (∃ s1, runCalls (CreateClient ns s).1 (alternate fs) (CreateClient ns s).2
          = (fs, .ret () s1) ∧ s1.buffer (CreateClient ns s).1 = []) := by
  have hc0 := CreateClient_heap ns s
  have hr0 := CreateClient_reachable ns hs
  have hp0 : (CreateClient ns s).1 ∈ (CreateClient ns s).2.clients :=
    List.mem_append_right _ (List.mem_singleton_self _)
  have hb0 : (CreateClient ns s).2.buffer (CreateClient ns s).1 = [] :=
    State.buffer_eq hc0 rfl
  constructor
  · obtain ⟨s1, c1, hrun, hs1, hp1, hc1, _, _, hb1⟩ :=
      createLog_fill (CreateClient ns s).1 es (CreateClient ns s).2 _ hr0 hp0 hc0
        (fun e he => hes e he _ hc0) (by rw [hb0]; simpa using hn)
    rw [hb0, List.nil_append] at hb1
    obtain ⟨s2, hrun2, hb2⟩ := runCalls_drain (CreateClient ns s).1 es s1 c1 hs1.wf hp1 hc1 hb1
    refine ⟨s2, ?_, hb2⟩
    rw [runCalls_append _ _ _ _ _ _ hrun, hrun2]
    rfl
  · exact runCalls_alternate (CreateClient ns s).1 fs (CreateClient ns s).2 _ hr0.wf hp0 hc0 hb0
      (fun e he => hfs e he _ hc0)

/-- C5 for `c := CreateClient()` right after `init`: five calls of `Trace` and
five of `Get`, and three calls of `Trace` each followed by `Get`. -/
theorem C5_order_preserved_witness :
    (∃ s1, runCalls (CreateClient [] (init false)).1
        ((List.replicate 5 defaultEntry).map Call.createLog ++
          List.replicate (List.replicate 5 defaultEntry).length Call.Get)
        (CreateClient [] (init false)).2
          = (List.replicate 5 defaultEntry, .ret () s1) ∧
        s1.buffer (CreateClient [] (init false)).1 = []) ∧
    (∃ s1, runCalls (CreateClient [] (init false)).1 (alternate (List.replicate 3 defaultEntry))
        (CreateClient [] (init false)).2
          = (List.replicate 3 defaultEntry, .ret () s1) ∧
        s1.buffer (CreateClient [] (init false)).1 = []) :=
  C5_order_preserved (init false) [] (List.replicate 5 defaultEntry)
    (List.replicate 3 defaultEntry) (Reachable.init false) (by decide)
    (fun e _ c hc => by
      have h := Option.some.inj ((CreateClient_heap [] (init false)).symm.trans hc)
      rw [← h]
      rfl)
    (fun e _ c hc => by
      have h := Option.some.inj ((CreateClient_heap [] (init false)).symm.trans hc)
      rw [← h]
      rfl)

/-- C6, on the code: after `c := CreateClient()`, `c.SetLogLevel(LWarn)` and the
dispatch of an INFO entry, `c.GetLogLevel()` is `LWarn` and `c.Get()` returns
the INFO entry, whose level is below `LWarn`. -/
theorem C6_Get_returns_entry_below_threshold :
    Client.GetLogLevel 1 thresholdState = .ret LWarn thresholdState ∧
    (∃ s1, Client.Get 1 thresholdState = .ret databaseEntry s1) ∧
    databaseEntry.level < LWarn := by
  refine ⟨rfl, ⟨_, rfl⟩, by decide⟩

/-! ## Clients that are not live stay so -/

theorem DeadStay.refl (h : List Client) : DeadStay h h :=
  fun _ c hc hi => ⟨c, hc, hi⟩

theorem DeadStay.trans {h1 h2 h3 : List Client} (a : DeadStay h1 h2) (b : DeadStay h2 h3) :
    DeadStay h1 h3 := by
  intro p c hc hi
  obtain ⟨c1, hc1, hi1⟩ := a p c hc hi
  exact b p c1 hc1 hi1

theorem DeadStay.set {h : List Client} {q : Nat} {c c1 : Client} (hq : h[q]? = some c)
    (hi : c.initialized = false → c1.initialized = false) : DeadStay h (h.set q c1) := by
  intro p cp hp hip
  by_cases hpq : p = q
  · subst hpq
    have hlt : p < h.length := (List.getElem?_eq_some.mp hp).1
    have hcc : c = cp := Option.some.inj (hq.symm.trans hp)
    subst hcc
    exact ⟨c1, List.getElem?_set_self hlt, hi hip⟩
  · refine ⟨cp, ?_, hip⟩
    rw [List.getElem?_set_ne (Ne.symm hpq)]
    exact hp

theorem DeadStay.append (h : List Client) (c : Client) : DeadStay h (h ++ [c]) := by
  intro p cp hp hip
  have hlt : p < h.length := (List.getElem?_eq_some.mp hp).1
  refine ⟨cp, ?_, hip⟩
  rw [List.getElem?_append_left hlt]
  exact hp

theorem Client.Destroy_deadStay (p : Nat) (s : State) :
    DeadStay s.heap (Client.Destroy p s).state.heap := by
  simp only [Client.Destroy]
  split
  · exact DeadStay.refl _
  · rename_i c hc
    split
    · exact DeadStay.refl _
    · split
      · exact DeadStay.set hc (fun _ => rfl)
      · exact DeadStay.set hc (fun _ => rfl)

theorem Client.Get_deadStay (p : Nat) (s : State) :
    DeadStay s.heap (Client.Get p s).state.heap := by
  simp only [Client.Get]
  split
  · exact DeadStay.refl _
  · rename_i c hc
    split
    · exact DeadStay.refl _
    · split
      · exact DeadStay.refl _
      · split
        · exact DeadStay.set hc (fun h => h)
        · split
          · exact DeadStay.refl _
          · exact DeadStay.refl _

theorem Client.SetLogLevel_deadStay (p : Nat) (level : Level) (s : State) :
    DeadStay s.heap (Client.SetLogLevel p level s).state.heap := by
  simp only [Client.SetLogLevel]
  split
  · exact DeadStay.refl _
  · rename_i c hc
    split
    · exact DeadStay.refl _
    · exact DeadStay.set hc (fun h => h)

theorem stderrSetLogLevel_deadStay (level : Level) (s : State) :
    DeadStay s.heap (SetLogLevel level s).state.heap := by
  simp only [SetLogLevel]
  split
  · exact DeadStay.refl _
  · rename_i c hc
    exact DeadStay.set hc (fun h => h)

theorem createLog_deadStay {s : State} (h : WF s) (e : Entry) :
    DeadStay s.heap (createLog e s).state.heap := by
  obtain ⟨s1, hr, _, hout, hin, _⟩ := createLog_spec h e
  rw [hr]
  intro p c hc hi
  by_cases hp : p ∈ s.clients
  · exact ⟨c.offer e, hin p hp c hc, by rw [Client.offer_initialized]; exact hi⟩
  · refine ⟨c, ?_, hi⟩
    have h1 : s1.heap[p]? = s.heap[p]? := hout p hp
    exact h1.trans hc

theorem logStdErr.iter_deadStay (s : State) : DeadStay s.heap (logStdErr.iter s).heap := by
  rcases logStdErr.iter_cases s with hh | ⟨c, ch, e, rest, hc, _, _, hh⟩
  · rw [hh]
    exact DeadStay.refl _
  · rw [hh]
    exact DeadStay.set hc (fun h => h)

theorem logStdErr.run_deadStay : ∀ (n : Nat) (s : State),
    DeadStay s.heap (logStdErr.run n s).heap := by
  intro n
  induction n with
  | zero => intro s; exact DeadStay.refl _
  | succ n ih => intro s; exact (logStdErr.iter_deadStay s).trans (ih _)

theorem Flush.finish_deadStay (s : State) : DeadStay s.heap (Flush.finish s).state.heap := by
  simp only [Flush.finish]
  split
  · exact DeadStay.refl _
  · rename_i b rest hf
    have h1 := Client.Destroy_deadStay s.stderrClient { s with stderrFinished := rest }
    cases hD : Client.Destroy s.stderrClient { s with stderrFinished := rest } with
    | ret v s1 => rw [hD] at h1; exact h1
    | panic v s1 => rw [hD] at h1; exact h1
    | block s1 => rw [hD] at h1; exact h1

theorem Flush.once_deadStay (s : State) : DeadStay s.heap (Flush.once s).state.heap := by
  simp only [Flush.once]
  split
  · exact DeadStay.refl _
  · rename_i c hc
    split
    · exact DeadStay.refl _
    · rename_i ch hw
      split
      · exact DeadStay.refl _
      · have h1 : DeadStay s.heap (s.heap.set s.stderrClient
            ({ c with writer := some { ch with closed := true } } : Client)) :=
          DeadStay.set hc (fun h => h)
        have h2 := logStdErr.run_deadStay (ch.buf.length + 1)
          { s with heap := s.heap.set s.stderrClient
                     ({ c with writer := some { ch with closed := true } } : Client) }
        exact h1.trans (h2.trans (Flush.finish_deadStay _))

theorem Flush_deadStay (s : State) : DeadStay s.heap (Flush s).state.heap := by
  simp only [Flush]
  split
  · exact DeadStay.refl _
  · exact DeadStay.refl _
  · have h1 := Flush.once_deadStay { s with cleanup := OnceState.running }
    cases hO : Flush.once { s with cleanup := OnceState.running } with
    | ret v s1 => rw [hO] at h1; exact h1
    | panic v s1 => rw [hO] at h1; exact h1
    | block s1 => rw [hO] at h1; exact h1

theorem Op.deadStay_run {s : State} (h : WF s) (op : Op) : DeadStay s.heap (op.run s).heap := by
  cases op with
  | CreateClient namespaces => exact DeadStay.append _ _
  | newClient => exact DeadStay.append _ _
  | Destroy p => exact Client.Destroy_deadStay p s
  | GetLogLevel p =>
    show DeadStay s.heap (Client.GetLogLevel p s).state.heap
    rw [Client.GetLogLevel_state]
    exact DeadStay.refl _
  | SetLogLevel p level => exact Client.SetLogLevel_deadStay p level s
  | Get p => exact Client.Get_deadStay p s
  | createLog e => exact createLog_deadStay h e
  | SetStderrLogLevel level => exact stderrSetLogLevel_deadStay level s
  | SetColorEnabled enabled => exact DeadStay.refl _
  | Flush => exact Flush_deadStay s
  | logStdErr => exact logStdErr.iter_deadStay s

theorem ReachableFrom.reachable {s t : State} (hs : Reachable s) (h : ReachableFrom s t) :
    Reachable t := by
  induction h with
  | refl => exact hs
  | step op u _ hop ih => exact Reachable.step op u ih hop

theorem ReachableFrom.deadStay {s t : State} (hs : Inv s) (h : ReachableFrom s t) :
    DeadStay s.heap t.heap := by
  induction h with
  | refl => exact DeadStay.refl _
  | step op u hu _ ih => exact ih.trans (Op.deadStay_run (hu.inv_of hs).wf op)

/-- A client that is not live is not registered and has nothing queued, in any
state that satisfies the registry invariant. -/
theorem WFx.dead_unregistered {s : State} (h : WF s) {p : Nat} {c : Client}
    (hc : s.heap[p]? = some c) (hi : c.initialized = false) :
    p ∉ s.clients ∧ s.buffer p = [] := by
  constructor
  · intro hp
    obtain ⟨c1, hc1, hg, _⟩ := h.good p hp
    have hcc : c1 = c := Option.some.inj (hc1.symm.trans hc)
    subst hcc
    rw [hg.1] at hi
    cases hi
  · simp only [State.buffer, hc, h.dead p c hc hi]

theorem createMany_length : ∀ (nss : List (List String)) (s : State),
    (createMany nss s).clients.length = s.clients.length + nss.length := by
  intro nss
  induction nss with
  | nil => intro s; rfl
  | cons ns nss ih =>
    intro s
    rw [createMany, ih]
    simp only [CreateClient, List.length_append, List.length_cons, List.length_nil]
    omega

/-- C7: in a reachable state `CreateClient(ns...)` returns the address of a new
client that is live, has threshold `LTrace`, filter exactly `ns` and an empty
buffer of capacity 1000; the registry becomes the previous registry with that
address appended, every other client and every other package variable is
unchanged, and N calls raise the length of the registry by N. -/
theorem C7_CreateClient_registers (s : State) (ns : List String) (nss : List (List String))
    (hs : Reachable s) :
    (CreateClient ns s).2.heap[(CreateClient ns s).1]? = some
      { LogLevel := LTrace, Namespaces := ns,
        writer := some { buf := [], cap := 1000, closed := false }, initialized := true } ∧
    (CreateClient ns s).2.buffer (CreateClient ns s).1 = [] ∧
    s.heap[(CreateClient ns s).1]? = none ∧
    (CreateClient ns s).1 ∉ s.clients ∧
    (CreateClient ns s).2.clients = s.clients ++ [(CreateClient ns s).1] ∧
    (∀ q, q ≠ (CreateClient ns s).1 → (CreateClient ns s).2.heap[q]? = s.heap[q]?) ∧
    (CreateClient ns s).2 = { s with heap := (CreateClient ns s).2.heap,
                                     clients := (CreateClient ns s).2.clients } ∧
    (CreateClient ns s).2.clients.length = s.clients.length + 1 ∧
    (createMany nss s).clients.length = s.clients.length + nss.length := by
  have hc0 := CreateClient_heap ns s
  refine ⟨hc0, State.buffer_eq hc0 rfl, ?_, not_mem_clients_length hs.wf, rfl, ?_, rfl, ?_,
    createMany_length nss s⟩
  · exact List.getElem?_eq_none (Nat.le_refl _)
  · intro q hq
    have hq1 : q ≠ s.heap.length := hq
    show (s.heap ++ [_])[q]? = s.heap[q]?
    by_cases hlt : q < s.heap.length
    · exact List.getElem?_append_left hlt
    · have hge : s.heap.length + 1 ≤ q := by omega
      rw [List.getElem?_eq_none (by simpa using hge), List.getElem?_eq_none (by omega)]
  · simp [CreateClient]

/-- C7 for `CreateClient("test")` right after `init`, and for three more calls. -/
theorem C7_CreateClient_registers_witness :
    (CreateClient ["test"] (init false)).2.heap[(CreateClient ["test"] (init false)).1]? = some
      { LogLevel := LTrace, Namespaces := ["test"],
        writer := some { buf := [], cap := 1000, closed := false }, initialized := true } ∧
    (CreateClient ["test"] (init false)).2.buffer (CreateClient ["test"] (init false)).1 = [] ∧
    (init false).heap[(CreateClient ["test"] (init false)).1]? = none ∧
    (CreateClient ["test"] (init false)).1 ∉ (init false).clients ∧
    (CreateClient ["test"] (init false)).2.clients
      = (init false).clients ++ [(CreateClient ["test"] (init false)).1] ∧
    (∀ q, q ≠ (CreateClient ["test"] (init false)).1 →
      (CreateClient ["test"] (init false)).2.heap[q]? = (init false).heap[q]?) ∧
    (CreateClient ["test"] (init false)).2
      = { init false with heap := (CreateClient ["test"] (init false)).2.heap,
                          clients := (CreateClient ["test"] (init false)).2.clients } ∧
    (CreateClient ["test"] (init false)).2.clients.length = (init false).clients.length + 1 ∧
    (createMany [[], ["a"], ["b", "c"]] (init false)).clients.length
      = (init false).clients.length + [[], ["a"], ["b", "c"]].length :=
  C7_CreateClient_registers (init false) ["test"] [[], ["a"], ["b", "c"]] (Reachable.init false)

/-- C8: in a reachable state `Destroy` on a registered client returns `nil`,
marks the client as not live and drops its channel; the registry becomes the
previous registry with exactly that address erased (the others keep their
order) and is one shorter; no other client changes; and in every later state
the client is unregistered with nothing queued, so no dispatch reaches it. -/
theorem C8_Destroy_unregisters (s : State) (p : Nat) (hs : Reachable s) (hp : p ∈ s.clients) :
    ∃ s1, Client.Destroy p s = .ret none s1 ∧
      (∃ c1, s1.heap[p]? = some c1 ∧ c1.initialized = false ∧ c1.writer = none) ∧
      s1.clients = s.clients.erase p ∧
      s1.clients.Sublist s.clients ∧
      p ∉ s1.clients ∧
      (∀ q ∈ s.clients, q ≠ p → q ∈ s1.clients) ∧
      s1.clients.length + 1 = s.clients.length ∧
      (∀ q, q ≠ p → s1.heap[q]? = s.heap[q]?) ∧
      (∀ t, ReachableFrom s1 t → p ∉ t.clients ∧ t.buffer p = []) := by
  have h := hs.wf
  obtain ⟨c, hc, hg, _⟩ := h.good p hp
  have hlt := lt_length_of_heap hc
  have hD := Client.Destroy_live h hc hg.1
  have hinv1 : Inv (Client.Destroy p s).state := hs.inv.run (Op.Destroy p)
  rw [hD] at hinv1
  have hc1 : (s.heap.set p ({ c with writer := none, initialized := false } : Client))[p]?
      = some { c with writer := none, initialized := false } := List.getElem?_set_self hlt
  have herase : s.clients.filter (fun q => q != p) = s.clients.erase p := by
    rw [h.nodup.erase_eq_filter p]
  have hlen : (s.clients.erase p).length + 1 = s.clients.length := by
    rw [List.length_erase_of_mem hp]
    have : 0 < s.clients.length := List.length_pos_of_mem hp
    omega
  refine ⟨_, hD, ⟨_, hc1, rfl, rfl⟩, herase, ?_, ?_, ?_, ?_, ?_, ?_⟩
  · exact List.filter_sublist _
  · intro hm
    have := (List.mem_filter.mp hm).2
    simp at this
  · intro q hq hqp
    exact List.mem_filter.mpr ⟨hq, by simpa using hqp⟩
  · show (s.clients.filter (fun q => q != p)).length + 1 = s.clients.length
    rw [herase]
    exact hlen
  · intro q hq
    show (s.heap.set p _)[q]? = s.heap[q]?
    exact List.getElem?_set_ne (Ne.symm hq)
  · intro t ht
    obtain ⟨c2, hc2, hi2⟩ := ht.deadStay hinv1 p _ hc1 rfl
    exact WFx.dead_unregistered (ht.inv_of hinv1).wf hc2 hi2

/-- C8 for the client made by `CreateClient("auth")` right after `init`. -/
theorem C8_Destroy_unregisters_witness :
    ∃ s1, Client.Destroy 1 authState = .ret none s1 ∧
      (∃ c1, s1.heap[1]? = some c1 ∧ c1.initialized = false ∧ c1.writer = none) ∧
      s1.clients = authState.clients.erase 1 ∧
      s1.clients.Sublist authState.clients ∧
      1 ∉ s1.clients ∧
      (∀ q ∈ authState.clients, q ≠ 1 → q ∈ s1.clients) ∧
      s1.clients.length + 1 = authState.clients.length ∧
      (∀ q, q ≠ 1 → s1.heap[q]? = authState.heap[q]?) ∧
      (∀ t, ReachableFrom s1 t → 1 ∉ t.clients ∧ t.buffer 1 = []) :=
  C8_Destroy_unregisters authState 1 authState_reachable (by decide)

/-- On a client that is not live each method panics with an error, before it
has changed anything. -/
theorem misuse_panics {s : State} {p : Nat} {c : Client} (level : Level)
    (hc : s.heap[p]? = some c) (hi : c.initialized = false) :
    (Client.SetLogLevel p level s =
      .panic (.error "cannot set level for uninitialized client, use CreateClient instead")
        s) ∧
    (Client.GetLogLevel p s =
      .panic (.error "cannot get level for uninitialized client, use CreateClient instead")
        s) ∧
    (Client.Get p s =
      .panic (.error "cannot get logs for uninitialized client, did you use CreateClient?")
        s) ∧
    (Client.Destroy p s =
      .panic (.error "cannot delete uninitialized client, did you use CreateClient?")
        s) := by
  refine ⟨?_, ?_, ?_, ?_⟩
  · simp only [Client.SetLogLevel, hc, hi, Bool.not_false, if_true]
  · simp only [Client.GetLogLevel, hc, hi, Bool.not_false, if_true]
  · simp only [Client.Get, hc, hi, Bool.not_false, if_true]
  · simp only [Client.Destroy, hc, hi, Bool.not_false, if_true]

/-- After a `Destroy` that returned, the client is not live. -/
theorem Client.Destroy_ret_dead {s s1 : State} {p : Nat} {v : Option String}
    (h : Client.Destroy p s = .ret v s1) :
    ∃ c1, s1.heap[p]? = some c1 ∧ c1.initialized = false := by
  simp only [Client.Destroy] at h
  split at h
  · cases h
  · rename_i c hc
    split at h
    · cases h
    · split at h
      · cases h
      · have hlt : p < s.heap.length := (List.getElem?_eq_some.mp hc).1
        simp only [Outcome.ret.injEq] at h
        rw [← h.2]
        exact ⟨_, List.getElem?_set_self hlt, rfl⟩

/-- C9: on a client that is not live (a zero-value `Client` that `CreateClient`
never made, or a client that `Destroy` has been called on) each of
`SetLogLevel`, `GetLogLevel`, `Get` and `Destroy` panics with an error and
leaves the whole state as it was; a zero-value client and a destroyed client
are not live, so a second `Destroy` panics; and a client that is not live stays
so in every later state. -/
theorem C9_misuse_fails_loudly (s : State) (p : Nat) (c : Client) (level : Level)
    (hc : s.heap[p]? = some c) (hi : c.initialized = false) :
    (Client.SetLogLevel p level s =
      .panic (.error "cannot set level for uninitialized client, use CreateClient instead")
        s) ∧
    (Client.GetLogLevel p s =
      .panic (.error "cannot get level for uninitialized client, use CreateClient instead")
        s) ∧
    (Client.Get p s =
      .panic (.error "cannot get logs for uninitialized client, did you use CreateClient?")
        s) ∧
    (Client.Destroy p s =
      .panic (.error "cannot delete uninitialized client, did you use CreateClient?")
        s) ∧
    ((newClient s).2.heap[(newClient s).1]? = some Client.zero ∧
      Client.zero.initialized = false) ∧
    (∀ (t t1 : State) (q : Nat) (v : Option String), Client.Destroy q t = .ret v t1 →
      (Client.SetLogLevel q level t1 =
        .panic (.error "cannot set level for uninitialized client, use CreateClient instead")
          t1) ∧
      (Client.GetLogLevel q t1 =
        .panic (.error "cannot get level for uninitialized client, use CreateClient instead")
          t1) ∧
      (Client.Get q t1 =
        .panic (.error "cannot get logs for uninitialized client, did you use CreateClient?")
          t1) ∧
      (Client.Destroy q t1 =
        .panic (.error "cannot delete uninitialized client, did you use CreateClient?")
          t1)) ∧
    (Reachable s → ∀ t, ReachableFrom s t →
      ∃ c1, t.heap[p]? = some c1 ∧ c1.initialized = false) := by
  obtain ⟨h1, h2, h3, h4⟩ := misuse_panics level hc hi
  refine ⟨h1, h2, h3, h4, ⟨List.getElem?_concat_length _ _, rfl⟩, ?_, ?_⟩
  · intro t t1 q v hD
    obtain ⟨c1, hc1, hi1⟩ := Client.Destroy_ret_dead hD
    exact misuse_panics level hc1 hi1
  · intro hs t ht
    exact ht.deadStay hs.inv p c hc hi

/-- C9 for a zero-value client declared right after `init`. -/
theorem C9_misuse_fails_loudly_witness :
    (Client.SetLogLevel 1 LWarn zeroState =
      .panic (.error "cannot set level for uninitialized client, use CreateClient instead")
        zeroState) ∧
    (Client.GetLogLevel 1 zeroState =
      .panic (.error "cannot get level for uninitialized client, use CreateClient instead")
        zeroState) ∧
    (Client.Get 1 zeroState =
      .panic (.error "cannot get logs for uninitialized client, did you use CreateClient?")
        zeroState) ∧
    (Client.Destroy 1 zeroState =
      .panic (.error "cannot delete uninitialized client, did you use CreateClient?")
        zeroState) ∧
    ((newClient zeroState).2.heap[(newClient zeroState).1]? = some Client.zero ∧
      Client.zero.initialized = false) ∧
    (∀ (t t1 : State) (q : Nat) (v : Option String), Client.Destroy q t = .ret v t1 →
      (Client.SetLogLevel q LWarn t1 =
        .panic (.error "cannot set level for uninitialized client, use CreateClient instead")
          t1) ∧
      (Client.GetLogLevel q t1 =
        .panic (.error "cannot get level for uninitialized client, use CreateClient instead")
          t1) ∧
      (Client.Get q t1 =
        .panic (.error "cannot get logs for uninitialized client, did you use CreateClient?")
          t1) ∧
      (Client.Destroy q t1 =
        .panic (.error "cannot delete uninitialized client, did you use CreateClient?")
          t1)) ∧
    (Reachable zeroState → ∀ t, ReachableFrom zeroState t →
      ∃ c1, t.heap[1]? = some c1 ∧ c1.initialized = false) :=
  C9_misuse_fails_loudly zeroState 1 Client.zero LWarn rfl rfl

/-- C10: on a live client `SetLogLevel(x)` returns, a `GetLogLevel` that follows
returns `x`, and `SetLogLevel` changes the threshold of that client only: its
filter, its channel and its liveness, every other client, the registry and the
other package variables are as before. -/
theorem C10_SetLogLevel_then_GetLogLevel (s : State) (p : Nat) (c : Client) (x : Level)
    (hc : s.heap[p]? = some c) (hi : c.initialized = true) :
    ∃ s1, Client.SetLogLevel p x s = .ret () s1 ∧
      Client.GetLogLevel p s1 = .ret x s1 ∧
      s1.heap[p]? = some { c with LogLevel := x } ∧
      (∀ q, q ≠ p → s1.heap[q]? = s.heap[q]?) ∧
      s1 = { s with heap := s1.heap } ∧
      s1.clients = s.clients ∧ s1.buffer p = s.buffer p := by
  have hlt := lt_length_of_heap hc
  have hni : ¬ ((!c.initialized) = true) := by simp [hi]
  have hS : Client.SetLogLevel p x s
      = .ret () { s with heap := s.heap.set p { c with LogLevel := x } } := by
    simp only [Client.SetLogLevel, hc]
    rw [if_neg hni]
  have h1 : ({ s with heap := s.heap.set p { c with LogLevel := x } } : State).heap[p]?
      = some { c with LogLevel := x } := List.getElem?_set_self hlt
  refine ⟨_, hS, ?_, h1, ?_, rfl, rfl, ?_⟩
  · simp only [Client.GetLogLevel, h1]
    rw [if_neg hni]
  · intro q hq
    show (s.heap.set p _)[q]? = s.heap[q]?
    exact List.getElem?_set_ne (Ne.symm hq)
  · simp only [State.buffer, h1, hc]

/-- C10 for the client made by `CreateClient("auth")` and the level `LWarn`. -/
theorem C10_SetLogLevel_then_GetLogLevel_witness :
    ∃ s1, Client.SetLogLevel 1 LWarn authState = .ret () s1 ∧
      Client.GetLogLevel 1 s1 = .ret LWarn s1 ∧
      s1.heap[1]? = some { authClient with LogLevel := LWarn } ∧
      (∀ q, q ≠ 1 → s1.heap[q]? = authState.heap[q]?) ∧
      s1 = { authState with heap := s1.heap } ∧
      s1.clients = authState.clients ∧ s1.buffer 1 = authState.buffer 1 :=
  C10_SetLogLevel_then_GetLogLevel authState 1 authClient LWarn rfl rfl

/-! ## What the operations leave alone -/

theorem Client.Destroy_core (p : Nat) (s : State) : (Client.Destroy p s).state.core = s.core := by
  simp only [Client.Destroy]
  split
  · rfl
  · split
    · rfl
    · split <;> rfl

theorem Client.Get_core (p : Nat) (s : State) : (Client.Get p s).state.core = s.core := by
  simp only [Client.Get]
  split
  · rfl
  · split
    · rfl
    · split
      · rfl
      · split
        · rfl
        · split <;> rfl

theorem Client.SetLogLevel_core (p : Nat) (level : Level) (s : State) :
    (Client.SetLogLevel p level s).state.core = s.core := by
  simp only [Client.SetLogLevel]
  split
  · rfl
  · split <;> rfl

theorem stderrSetLogLevel_core (level : Level) (s : State) :
    (SetLogLevel level s).state.core = s.core := by
  simp only [SetLogLevel]
  split <;> rfl

theorem Client.Get_clients (p : Nat) (s : State) :
    (Client.Get p s).state.clients = s.clients := by
  simp only [Client.Get]
  split
  · rfl
  · split
    · rfl
    · split
      · rfl
      · split
        · rfl
        · split <;> rfl

theorem Client.SetLogLevel_clients (p : Nat) (level : Level) (s : State) :
    (Client.SetLogLevel p level s).state.clients = s.clients := by
  simp only [Client.SetLogLevel]
  split
  · rfl
  · split <;> rfl

theorem stderrSetLogLevel_clients (level : Level) (s : State) :
    (SetLogLevel level s).state.clients = s.clients := by
  simp only [SetLogLevel]
  split <;> rfl

/-- The loop of `createLog` writes to the heap only, however it ends. -/
theorem createLog.range_frame (e : Entry) : ∀ (ps : List Nat) (s : State),
    (createLog.range e ps s).state = { s with heap := (createLog.range e ps s).state.heap } := by
  intro ps
  induction ps with
  | nil => intro s; rfl
  | cons p ps ih =>
    intro s
    simp only [createLog.range]
    split
    · rfl
    · split
      · rename_i c1 _
        have h := ih { s with heap := s.heap.set p c1 }
        rw [h]
      · rfl
      · rfl

/-- Whatever the state, `createLog` records the namespace of the entry and
writes to the heap; it writes to nothing else. -/
theorem createLog_frame (e : Entry) (s : State) :
    (createLog e s).state =
      { s with heap := (createLog e s).state.heap,
               namespaces := trackNamespace e.Namespace s.namespaces } := by
  have h := createLog.range_frame e s.clients
    { s with namespaces := trackNamespace e.Namespace s.namespaces }
  exact h

theorem logStdErr.iter_core (s : State) : (logStdErr.iter s).core = s.core := by
  unfold logStdErr.iter
  split
  · rfl
  · split
    · rfl
    · split
      · rfl
      · split
        · obtain ⟨out, ho⟩ := logStdErr.body_eq _ _ _
          rw [ho]
          rfl
        · split <;> rfl

theorem logStdErr.run_core : ∀ (n : Nat) (s : State), (logStdErr.run n s).core = s.core := by
  intro n
  induction n with
  | zero => intro s; rfl
  | succ n ih => intro s; exact (ih _).trans (logStdErr.iter_core s)

theorem Flush.finish_core (s : State) : (Flush.finish s).state.core = s.core := by
  simp only [Flush.finish]
  split
  · rfl
  · rename_i b rest hf
    have h1 := Client.Destroy_core s.stderrClient { s with stderrFinished := rest }
    cases hD : Client.Destroy s.stderrClient { s with stderrFinished := rest } with
    | ret v s1 => rw [hD] at h1; exact h1
    | panic v s1 => rw [hD] at h1; exact h1
    | block s1 => rw [hD] at h1; exact h1

theorem Flush.once_core (s : State) : (Flush.once s).state.core = s.core := by
  simp only [Flush.once]
  split
  · rfl
  · rename_i c hc
    split
    · rfl
    · rename_i ch hw
      split
      · rfl
      · exact (Flush.finish_core _).trans (logStdErr.run_core _ _)

theorem Flush_core (s : State) : (Flush s).state.core = s.core := by
  simp only [Flush]
  split
  · rfl
  · rfl
  · have h1 := Flush.once_core { s with cleanup := OnceState.running }
    cases hO : Flush.once { s with cleanup := OnceState.running } with
    | ret v s1 => rw [hO] at h1; exact h1
    | panic v s1 => rw [hO] at h1; exact h1
    | block s1 => rw [hO] at h1; exact h1

/-- No operation writes to `stderrClient`. -/
theorem Op.run_stderrClient (op : Op) (s : State) :
    (op.run s).stderrClient = s.stderrClient := by
  cases op with
  | CreateClient namespaces => rfl
  | newClient => rfl
  | Destroy p => exact congrArg Prod.fst (Client.Destroy_core p s)
  | GetLogLevel p =>
    show (Client.GetLogLevel p s).state.stderrClient = _
    rw [Client.GetLogLevel_state]
  | SetLogLevel p level => exact congrArg Prod.fst (Client.SetLogLevel_core p level s)
  | Get p => exact congrArg Prod.fst (Client.Get_core p s)
  | createLog e =>
    show (LogSocket.createLog e s).state.stderrClient = _
    rw [createLog_frame]
  | SetStderrLogLevel level => exact congrArg Prod.fst (stderrSetLogLevel_core level s)
  | SetColorEnabled enabled => rfl
  | Flush => exact congrArg Prod.fst (Flush_core s)
  | logStdErr => exact congrArg Prod.fst (logStdErr.iter_core s)

/-- Only `createLog` writes to `namespaces`, and what it writes is the namespace
of its entry. -/
theorem Op.run_namespaces (op : Op) (s : State) :
    (op.run s).namespaces =
      match op with
      | .createLog e => trackNamespace e.Namespace s.namespaces
      | _ => s.namespaces := by
  cases op with
  | CreateClient namespaces => rfl
  | newClient => rfl
  | Destroy p => exact congrArg Prod.snd (Client.Destroy_core p s)
  | GetLogLevel p =>
    show (Client.GetLogLevel p s).state.namespaces = _
    rw [Client.GetLogLevel_state]
  | SetLogLevel p level => exact congrArg Prod.snd (Client.SetLogLevel_core p level s)
  | Get p => exact congrArg Prod.snd (Client.Get_core p s)
  | createLog e =>
    show (LogSocket.createLog e s).state.namespaces = _
    rw [createLog_frame]
  | SetStderrLogLevel level => exact congrArg Prod.snd (stderrSetLogLevel_core level s)
  | SetColorEnabled enabled => rfl
  | Flush => exact congrArg Prod.snd (Flush_core s)
  | logStdErr => exact congrArg Prod.snd (logStdErr.iter_core s)

/-! ## The stderr client and `Flush` -/

theorem logStdErr.body_pass {c : Client} {e : Entry} (s : State)
    (h : e.level ≥ c.LogLevel ∧ c.matchesNamespace e.Namespace = true) :
    logStdErr.body c e s = { s with stderr := s.stderr ++ [logStdErr.line s e] } := by
  have hcond : (decide (e.level ≥ c.LogLevel) && c.matchesNamespace e.Namespace) = true := by
    simp [h.1, h.2]
  unfold logStdErr.body
  rw [if_pos hcond]
  rfl

theorem logStdErr.body_drop {c : Client} {e : Entry} (s : State)
    (h : ¬ (e.level ≥ c.LogLevel ∧ c.matchesNamespace e.Namespace = true)) :
    logStdErr.body c e s = s := by
  have hcond : ¬ (decide (e.level ≥ c.LogLevel) && c.matchesNamespace e.Namespace) = true := by
    intro hc
    simp only [Bool.and_eq_true, decide_eq_true_eq] at hc
    exact h hc
  unfold logStdErr.body
  rw [if_neg hcond]

/-- A turn of the goroutine that finds an entry in the channel of the stderr client. -/
theorem logStdErr.iter_take {s : State} {c : Client} {ch : LogWriter} {e : Entry}
    {rest : List Entry} (hr : s.logStdErrRunning = true)
    (hc : s.heap[s.stderrClient]? = some c) (hw : c.writer = some ch) (hb : ch.buf = e :: rest) :
    logStdErr.iter s = logStdErr.body (c.pop ch rest) e
      { s with heap := s.heap.set s.stderrClient (c.pop ch rest) } := by
  simp only [logStdErr.iter, hr, hc, hw, hb]
  rfl

/-- C11: for every entry that a turn of the loop of `logStdErr` takes from the
channel of the stderr client, exactly one line is written to stderr when the
level of the entry is at least the threshold of the client and its filter
matches the namespace of the entry, and nothing is written otherwise; after
`SetLogLevel(LWarn)` an entry of level DEBUG or INFO writes nothing, and an
entry of level WARN or ERROR that the filter matches writes its line. -/
theorem C11_stderr_threshold (s : State) (c : Client) (ch : LogWriter) (e : Entry)
    (rest : List Entry) (hr : s.logStdErrRunning = true)
    (hc : s.heap[s.stderrClient]? = some c) (hw : c.writer = some ch)
    (hb : ch.buf = e :: rest) :
    (logStdErr.iter s).buffer s.stderrClient = rest ∧
    ((e.level ≥ c.LogLevel ∧ c.matchesNamespace e.Namespace = true) →
      (logStdErr.iter s).stderr = s.stderr ++ [logStdErr.line s e]) ∧
    (¬ (e.level ≥ c.LogLevel ∧ c.matchesNamespace e.Namespace = true) →
      (logStdErr.iter s).stderr = s.stderr) ∧
    (∃ s1, SetLogLevel LWarn s = .ret () s1 ∧
      s1.heap[s1.stderrClient]? = some { c with LogLevel := LWarn } ∧
      ((e.level = LDebug ∨ e.level = LInfo) → (logStdErr.iter s1).stderr = s.stderr) ∧
      ((e.level = LWarn ∨ e.level = LError) → c.matchesNamespace e.Namespace = true →
        (logStdErr.iter s1).stderr = s.stderr ++ [logStdErr.line s e])) := by
  have hlt := lt_length_of_heap hc
  have hit := logStdErr.iter_take hr hc hw hb
  refine ⟨?_, ?_, ?_, ?_⟩
  · have h1 : (logStdErr.iter s).heap[s.stderrClient]? = some (c.pop ch rest) := by
      rw [hit, logStdErr.body_heap]
      exact List.getElem?_set_self hlt
    exact State.buffer_eq h1 rfl
  · intro h
    rw [hit, logStdErr.body_pass (c := c.pop ch rest) _ h]
    rfl
  · intro h
    rw [hit, logStdErr.body_drop (c := c.pop ch rest) _ h]
  · have hS : SetLogLevel LWarn s
        = .ret () { s with heap := s.heap.set s.stderrClient { c with LogLevel := LWarn } } := by
      simp only [SetLogLevel, hc]
    have hc1 : ({ s with heap := s.heap.set s.stderrClient { c with LogLevel := LWarn } }
        : State).heap[s.stderrClient]? = some { c with LogLevel := LWarn } :=
      List.getElem?_set_self hlt
    have hit1 := logStdErr.iter_take
      (s := { s with heap := s.heap.set s.stderrClient { c with LogLevel := LWarn } })
      (c := { c with LogLevel := LWarn }) hr hc1 hw hb
    refine ⟨_, hS, hc1, ?_, ?_⟩
    · intro hl
      rw [hit1]
      have hno : ¬ (e.level ≥ LWarn ∧ c.matchesNamespace e.Namespace = true) := by
        intro hx
        rcases hl with hl | hl
        · rw [hl] at hx
          exact absurd hx.1 (by decide)
        · rw [hl] at hx
          exact absurd hx.1 (by decide)
      rw [logStdErr.body_drop (c := Client.pop { c with LogLevel := LWarn } ch rest) _ hno]
    · intro hl hm
      rw [hit1]
      have hyes : e.level ≥ LWarn ∧ c.matchesNamespace e.Namespace = true := by
        refine ⟨?_, hm⟩
        rcases hl with hl | hl
        · rw [hl]
        · rw [hl]
          decide
      rw [logStdErr.body_pass (c := Client.pop { c with LogLevel := LWarn } ch rest) _ hyes]
      rfl

/-- C11 for the stderr client right after `init` and one call of `Warn`. -/
theorem C11_stderr_threshold_witness :
    (logStdErr.iter pendingState).buffer pendingState.stderrClient = [] ∧
    ((warnEntry.level ≥ LTrace ∧
        (Client.mk LTrace [DefaultNamespace]
          (some { buf := [warnEntry], cap := 1000, closed := false }) true).matchesNamespace
          warnEntry.Namespace = true) →
      (logStdErr.iter pendingState).stderr
        = pendingState.stderr ++ [logStdErr.line pendingState warnEntry]) ∧
    (¬ (warnEntry.level ≥ LTrace ∧
        (Client.mk LTrace [DefaultNamespace]
          (some { buf := [warnEntry], cap := 1000, closed := false }) true).matchesNamespace
          warnEntry.Namespace = true) →
      (logStdErr.iter pendingState).stderr = pendingState.stderr) ∧
    (∃ s1, SetLogLevel LWarn pendingState = .ret () s1 ∧
      s1.heap[s1.stderrClient]? = some
        { Client.mk LTrace [DefaultNamespace]
            (some { buf := [warnEntry], cap := 1000, closed := false }) true
          with LogLevel := LWarn } ∧
      ((warnEntry.level = LDebug ∨ warnEntry.level = LInfo) →
        (logStdErr.iter s1).stderr = pendingState.stderr) ∧
      ((warnEntry.level = LWarn ∨ warnEntry.level = LError) →
        (Client.mk LTrace [DefaultNamespace]
          (some { buf := [warnEntry], cap := 1000, closed := false }) true).matchesNamespace
          warnEntry.Namespace = true →
        (logStdErr.iter s1).stderr
          = pendingState.stderr ++ [logStdErr.line pendingState warnEntry])) :=
  C11_stderr_threshold pendingState
    (Client.mk LTrace [DefaultNamespace]
      (some { buf := [warnEntry], cap := 1000, closed := false }) true)
    { buf := [warnEntry], cap := 1000, closed := false } warnEntry [] rfl rfl rfl rfl

/-- C12, on the code: the stderr client that `init` makes has the filter
"default"; an INFO entry logged through `NewLogger("app")`, at the threshold
`LTrace` of the stderr client, is recorded under the namespace "app" but is not
delivered to the stderr client, and the goroutine of the stderr client writes
nothing; the same call of the package-level `Info` is delivered and written. -/
theorem C12_namespaced_entry_not_on_stderr :
    (init false).heap[(init false).stderrClient]? = some
      { LogLevel := LTrace, Namespaces := [DefaultNamespace],
        writer := some { buf := [], cap := 1000, closed := false }, initialized := true } ∧
    (NewLogger "app").Namespace = "app" ∧
    (Method.entry sampleEnv .Info (NewLogger "app") ⟨"", [.other "started"]⟩ userStack).level
      ≥ LTrace ∧
    (∃ s1, Method.call sampleEnv .Info (NewLogger "app") ⟨"", [.other "started"]⟩ userStack
        (init false) = .ret s1 ∧
      GetNamespaces s1 = ["app"] ∧
      s1.buffer s1.stderrClient = [] ∧
      (logStdErr.run 3 s1).stderr = []) ∧
    (∃ s1, Fn.call sampleEnv .Info ⟨"", [.other "started"]⟩ userStack (init false) = .ret s1 ∧
      s1.buffer s1.stderrClient
        = [Fn.entry sampleEnv .Info ⟨"", [.other "started"]⟩ userStack] ∧
      (logStdErr.run 3 s1).stderr
        = ["7\tINFO\t[default]\tstarted\tmain.go:23\n"]) := by
  refine ⟨rfl, rfl, by decide, ⟨_, rfl, rfl, rfl, rfl⟩, ⟨_, rfl, rfl, ?_⟩⟩
  decide

/-- The first `Flush` marks `cleanup` as done. -/
theorem Flush_fresh_done {s : State} (h : Inv s) (hf : s.cleanup = .fresh) :
    (Flush s).state.cleanup = .done := by
  obtain ⟨hr, hfin⟩ := h.routine hf
  have hwf0 : WF { s with cleanup := OnceState.running } := h.wf.congr rfl rfl
  obtain ⟨_, hnb⟩ := Flush.once_spec hwf0 hr hfin
  simp only [Flush, hf]
  cases hO : Flush.once { s with cleanup := OnceState.running } with
  | ret v s1 => rfl
  | panic v s1 => rfl
  | block s1 => exact absurd hO (hnb s1)

/-- As long as `Flush` has not run, the stderr client is registered. -/
theorem Reachable.stderr_registered {s : State} (h : Reachable s) :
    s.cleanup = .fresh → s.stderrClient ∈ s.clients := by
  induction h with
  | init isTerminal =>
    intro _
    cases isTerminal <;> decide
  | step op s hs hop ih =>
    intro hf
    rw [Op.run_stderrClient]
    have hcl : ∀ {t : State}, t.ctl = s.ctl → t.cleanup = s.cleanup :=
      fun ht => congrArg (fun x => x.1) ht
    cases op with
    | CreateClient namespaces => exact List.mem_append_left _ (ih hf)
    | newClient => exact ih hf
    | Destroy p =>
      have hf0 : s.cleanup = .fresh := (hcl (Client.Destroy_ctl p s)).symm.trans hf
      have hmem := ih hf0
      have hne : s.stderrClient ≠ p := by
        intro hx
        exact hop (by simp [Op.receiver, hx])
      show s.stderrClient ∈ (Client.Destroy p s).state.clients
      cases hc : s.heap[p]? with
      | none =>
        simp only [Client.Destroy, hc, Outcome.state]
        exact hmem
      | some c =>
        cases hi : c.initialized with
        | false =>
          simp only [Client.Destroy, hc, hi, Outcome.state]
          exact hmem
        | true =>
          rw [Client.Destroy_live hs.wf hc hi]
          exact List.mem_filter.mpr ⟨hmem, by simpa using hne⟩
    | GetLogLevel p =>
      have hst : (Op.GetLogLevel p).run s = s := Client.GetLogLevel_state p s
      rw [hst] at hf ⊢
      exact ih hf
    | SetLogLevel p level =>
      have hf0 : s.cleanup = .fresh := (hcl (Client.SetLogLevel_ctl p level s)).symm.trans hf
      show s.stderrClient ∈ (Client.SetLogLevel p level s).state.clients
      rw [Client.SetLogLevel_clients]
      exact ih hf0
    | Get p =>
      have hf0 : s.cleanup = .fresh := (hcl (Client.Get_ctl p s)).symm.trans hf
      show s.stderrClient ∈ (Client.Get p s).state.clients
      rw [Client.Get_clients]
      exact ih hf0
    | createLog e =>
      have hfr := createLog_frame e s
      have hf1 : (LogSocket.createLog e s).state.cleanup = .fresh := hf
      show s.stderrClient ∈ (LogSocket.createLog e s).state.clients
      rw [hfr] at hf1 ⊢
      exact ih hf1
    | SetStderrLogLevel level =>
      have hf0 : s.cleanup = .fresh := (hcl (stderrSetLogLevel_ctl level s)).symm.trans hf
      show s.stderrClient ∈ (LogSocket.SetLogLevel level s).state.clients
      rw [stderrSetLogLevel_clients]
      exact ih hf0
    | SetColorEnabled enabled => exact ih hf
    | Flush =>
      have hf1 : (LogSocket.Flush s).state.cleanup = .fresh := hf
      cases hcu : s.cleanup with
      | fresh =>
        rw [Flush_fresh_done hs.inv hcu] at hf1
        cases hf1
      | running => exact absurd hcu hs.inv.once
      | done =>
        simp only [LogSocket.Flush, hcu, Outcome.state] at hf1
        cases hf1
    | logStdErr =>
      obtain ⟨h1, _, h3⟩ := logStdErr.iter_fields s
      have hf1 : (logStdErr.iter s).cleanup = .fresh := hf
      show s.stderrClient ∈ (logStdErr.iter s).clients
      rw [h1]
      rw [h3] at hf1
      exact ih hf1

/-- Every state in which a logging call can end is reachable: the call is
`createLog`, followed by `Flush` in the `Panic` and `Fatal` functions. -/
theorem LogFn.run_reachable {s : State} (hs : Reachable s) (env : Env) (n : LogFn)
    (ns : String) (skip : Int) (guard : Bool) (stack : List Frame) (a : Args) :
    Reachable (n.run env ns skip guard stack a s).state := by
  have h1 : Reachable (createLog (n.entry env ns skip stack a) s).state :=
    Reachable.step (Op.createLog _) s hs (by simp [Op.receiver])
  have hfl : ∀ {t : State}, Reachable t → Reachable (Flush t).state :=
    fun ht => Reachable.step Op.Flush _ ht (by simp [Op.receiver])
  unfold LogFn.run
  cases hC : createLog (n.entry env ns skip stack a) s with
  | panic v s1 => rw [hC] at h1; exact h1
  | block s1 => rw [hC] at h1; exact h1
  | ret v s1 =>
    rw [hC] at h1
    have h2 : Reachable s1 := h1
    have h3 := hfl h2
    have hfp : Reachable (flushThenPanic (render env n.mode a) s1).state := by
      unfold flushThenPanic
      cases hF : Flush s1 with
      | ret v2 s2 => rw [hF] at h3; exact h3
      | panic v2 s2 => rw [hF] at h3; exact h3
      | block s2 => rw [hF] at h3; exact h3
    simp only [escalate]
    cases n.tail with
    | log => exact h2
    | fatal =>
      simp only []
      cases hF : Flush s1 with
      | ret v2 s2 => rw [hF] at h3; exact h3
      | panic v2 s2 => rw [hF] at h3; exact h3
      | block s2 => rw [hF] at h3; exact h3
    | panic =>
      simp only []
      cases guard with
      | false => exact hfp
      | true =>
        simp only [if_true]
        cases a.args with
        | nil => exact h2
        | cons x xs =>
          cases x with
          | error msg => exact h2
          | other text => exact hfp

/-- C13, as amended: right after `init` the registry holds exactly the stderr
client, which is live; and in every reachable state in which `Flush` has not
run, the stderr client is still live and registered.  The states in which
logging calls end are reachable states. -/
theorem C13_stderr_client_until_Flush (isTerminal : Bool) (s : State) (hs : Reachable s)
    (hf : s.cleanup = .fresh) :
    (init isTerminal).clients = [(init isTerminal).stderrClient] ∧
    (∃ c, (init isTerminal).heap[(init isTerminal).stderrClient]? = some c ∧
      c.initialized = true) ∧
    (init isTerminal).cleanup = .fresh ∧
    s.stderrClient ∈ s.clients ∧
    (∃ c, s.heap[s.stderrClient]? = some c ∧ c.initialized = true) ∧
    (∀ env fn a callers, Reachable (Fn.call env fn a callers s).state) ∧
    (∀ env m l a callers, Reachable (Method.call env m l a callers s).state) := by
  have hmem := hs.stderr_registered hf
  obtain ⟨c, hc, hg, _⟩ := hs.wf.good _ hmem
  refine ⟨by cases isTerminal <;> rfl, ⟨_, by cases isTerminal <;> rfl, rfl⟩,
    by cases isTerminal <;> rfl, hmem, ⟨c, hc, hg.1⟩, ?_, ?_⟩
  · intro env fn a callers
    exact LogFn.run_reachable hs env _ _ _ _ _ a
  · intro env m l a callers
    exact LogFn.run_reachable hs env _ _ _ _ _ a

/-- C13 in the state after `init` and `CreateClient("auth")`. -/
theorem C13_stderr_client_until_Flush_witness :
    (init false).clients = [(init false).stderrClient] ∧
    (∃ c, (init false).heap[(init false).stderrClient]? = some c ∧ c.initialized = true) ∧
    (init false).cleanup = .fresh ∧
    authState.stderrClient ∈ authState.clients ∧
    (∃ c, authState.heap[authState.stderrClient]? = some c ∧ c.initialized = true) ∧
    (∀ env fn a callers, Reachable (Fn.call env fn a callers authState).state) ∧
    (∀ env m l a callers, Reachable (Method.call env m l a callers authState).state) :=
  C13_stderr_client_until_Flush false authState authState_reachable rfl

/-- C13 as stated fails: the state after `init` and `Flush` is reachable, and in
it the stderr client is neither registered nor live. -/
theorem C13_counterexample :
    Reachable (Op.run Op.Flush (init false)) ∧
    (Op.run Op.Flush (init false)).stderrClient ∉ (Op.run Op.Flush (init false)).clients ∧
    (Op.run Op.Flush (init false)).heap[(Op.run Op.Flush (init false)).stderrClient]? = some
      { LogLevel := LTrace, Namespaces := [DefaultNamespace], writer := none,
        initialized := false } :=
  ⟨Reachable.step Op.Flush (init false) (Reachable.init false) (by simp [Op.receiver]),
    by decide, rfl⟩

theorem logStdErr.line_congr {s t : State} (h : t.colorEnabled = s.colorEnabled) (e : Entry) :
    logStdErr.line t e = logStdErr.line s e := by
  simp only [logStdErr.line, colorizeLevelText, colorize, h]

theorem logStdErr.lines_congr {s t : State} {c d : Client} (h : t.colorEnabled = s.colorEnabled)
    (hl : d.LogLevel = c.LogLevel) (hn : d.Namespaces = c.Namespaces) :
    ∀ es : List Entry, logStdErr.lines t d es = logStdErr.lines s c es := by
  intro es
  induction es with
  | nil => rfl
  | cons e es ih =>
    simp only [logStdErr.lines, ih, hl, Client.matchesNamespace_congr hn,
      logStdErr.line_congr h]

/-- The body of the loop writes the lines of `logStdErr.lines`. -/
theorem logStdErr.body_lines (c : Client) (e : Entry) (s : State) :
    logStdErr.body c e s = { s with stderr := s.stderr ++ logStdErr.lines s c [e] } := by
  by_cases h : e.level ≥ c.LogLevel ∧ c.matchesNamespace e.Namespace = true
  · rw [logStdErr.body_pass s h]
    have hcond : (decide (e.level ≥ c.LogLevel) && c.matchesNamespace e.Namespace) = true := by
      simp [h.1, h.2]
    have hl : logStdErr.lines s c [e] = [logStdErr.line s e] := by
      simp only [logStdErr.lines]
      rw [if_pos hcond]
    rw [hl]
  · rw [logStdErr.body_drop s h]
    have hcond : ¬ (decide (e.level ≥ c.LogLevel) && c.matchesNamespace e.Namespace) = true := by
      intro hc
      simp only [Bool.and_eq_true, decide_eq_true_eq] at hc
      exact h hc
    have hl : logStdErr.lines s c [e] = [] := by
      simp only [logStdErr.lines]
      rw [if_neg hcond]
    rw [hl, List.append_nil]

theorem logStdErr.lines_cons (s : State) (c : Client) (e : Entry) (es : List Entry) :
    logStdErr.lines s c (e :: es) = logStdErr.lines s c [e] ++ logStdErr.lines s c es := by
  simp only [logStdErr.lines]
  split <;> simp

/-- Once the channel of the stderr client is closed, the turns that `Flush`
waits for write the lines of the queued entries, empty the channel, end the
loop and send on `stderrFinished`; nothing else changes. -/
theorem logStdErr.run_closed_eq : ∀ (buf : List Entry) (s : State) (c : Client)
    (ch : LogWriter),
    s.heap[s.stderrClient]? = some c → c.writer = some ch → ch.closed = true →
    ch.buf = buf → s.logStdErrRunning = true → s.stderrFinished = [] →
    logStdErr.run (buf.length + 1) s =
      { s with heap := s.heap.set s.stderrClient (c.pop ch [])
               stderr := s.stderr ++ logStdErr.lines s c buf
               logStdErrRunning := false
               stderrFinished := [true] } := by
  intro buf
  induction buf with
  | nil =>
    intro s c ch hc hw hcl hb hr hf
    have hpop : c.pop ch [] = c := by
      cases c with
      | mk l n w i =>
        cases ch with
        | mk b cp cl =>
          simp only [Client.pop]
          simp only at hw hb
          rw [hw, hb]
    have hset : s.heap.set s.stderrClient c = s.heap := by
      apply List.ext_getElem?
      intro i
      by_cases hi : s.stderrClient = i
      · subst hi
        rw [List.getElem?_set_self (lt_length_of_heap hc), hc]
      · rw [List.getElem?_set_ne hi]
    simp only [logStdErr.run, logStdErr.iter, hr, hc, hw, hb, hcl, hf, hpop, hset,
      logStdErr.lines, List.append_nil]
    simp
  | cons e rest ih =>
    intro s c ch hc hw hcl hb hr hf
    have hlt := lt_length_of_heap hc
    have hiter := logStdErr.iter_take hr hc hw hb
    rw [logStdErr.body_lines] at hiter
    have hrun : logStdErr.run ((e :: rest).length + 1) s
        = logStdErr.run (rest.length + 1) (logStdErr.iter s) := rfl
    rw [hrun, hiter]
    have h1 := ih
      { s with heap := s.heap.set s.stderrClient (c.pop ch rest)
               stderr := s.stderr ++ logStdErr.lines
                 { s with heap := s.heap.set s.stderrClient (c.pop ch rest) }
                 (c.pop ch rest) [e] }
      (c.pop ch rest) { ch with buf := rest }
      (List.getElem?_set_self hlt) rfl hcl rfl hr hf
    rw [h1]
    have hl1 : logStdErr.lines
        { s with heap := s.heap.set s.stderrClient (c.pop ch rest) } (c.pop ch rest) [e]
        = logStdErr.lines s c [e] := by
      apply logStdErr.lines_congr <;> rfl
    have hl2 : logStdErr.lines
        { s with heap := s.heap.set s.stderrClient (c.pop ch rest)
                 stderr := s.stderr ++ logStdErr.lines
                   { s with heap := s.heap.set s.stderrClient (c.pop ch rest) }
                   (c.pop ch rest) [e] }
        (c.pop ch rest) rest
        = logStdErr.lines s c rest := by
      apply logStdErr.lines_congr <;> rfl
    rw [hl2, hl1, logStdErr.lines_cons s c e rest]
    simp only [List.set_set, List.append_assoc]
    rfl

/-- The first `Flush` in a reachable state, step by step: it returns, and the
only changes are that the stderr client is dead and unregistered, the lines of
its queued entries are written, the goroutine has ended, and `cleanup` is done. -/
theorem Flush_first {s : State} (hs : Reachable s) (hf : s.cleanup = .fresh) :
    ∃ c ch, s.heap[s.stderrClient]? = some c ∧ c.writer = some ch ∧ c.initialized = true ∧
      Flush s = .ret ()
        { s with heap := s.heap.set s.stderrClient { c with writer := none, initialized := false }
                 clients := s.clients.filter (fun q => q != s.stderrClient)
                 cleanup := .done
                 stderrFinished := []
                 logStdErrRunning := false
                 stderr := s.stderr ++ logStdErr.lines s c ch.buf } := by
  have hinv := hs.inv
  have hmem := hs.stderr_registered hf
  obtain ⟨c, hc, hg, ho⟩ := hinv.wf.good _ hmem
  obtain ⟨hi, ch, hw, hcap, hlen⟩ := hg
  have hcl : ch.closed = false := ho (by simp) ch hw
  obtain ⟨hr, hfin⟩ := hinv.routine hf
  have hlt := lt_length_of_heap hc
  refine ⟨c, ch, hc, hw, hi, ?_⟩
  have hwf0 : WF { s with cleanup := OnceState.running } := hinv.wf.congr rfl rfl
  have h1 : WFx (some s.stderrClient)
      { s with cleanup := OnceState.running
               heap := s.heap.set s.stderrClient
                 ({ c with writer := some { ch with closed := true } } : Client) } := by
    refine (hwf0.weaken (some s.stderrClient)).set_heap hc rfl ?_ ?_
    · intro _
      exact ⟨⟨hi, _, rfl, hcap, hlen⟩, fun hx => absurd rfl hx⟩
    · intro hd
      have hd1 : c.initialized = false := hd
      rw [hi] at hd1
      cases hd1
  have hrun := logStdErr.run_closed_eq ch.buf
    { s with cleanup := OnceState.running
             heap := s.heap.set s.stderrClient
               ({ c with writer := some { ch with closed := true } } : Client) }
    { c with writer := some { ch with closed := true } } { ch with closed := true }
    (List.getElem?_set_self hlt) rfl rfl rfl hr hfin
  have h2 := logStdErr.run_WF (ch.buf.length + 1) _ h1
  rw [hrun] at h2
  have hlines : logStdErr.lines
      { s with cleanup := OnceState.running
               heap := s.heap.set s.stderrClient
                 ({ c with writer := some { ch with closed := true } } : Client) }
      { c with writer := some { ch with closed := true } } ch.buf
      = logStdErr.lines s c ch.buf := by
    apply logStdErr.lines_congr <;> rfl
  have hE : Flush.once { s with cleanup := OnceState.running }
      = Flush.finish (logStdErr.run (ch.buf.length + 1)
          { s with cleanup := OnceState.running
                   heap := s.heap.set s.stderrClient
                     ({ c with writer := some { ch with closed := true } } : Client) }) := by
    simp only [Flush.once, hc, hw, hcl, Bool.false_eq_true, if_false]
  have hlt2 : s.stderrClient < (s.heap.set s.stderrClient
      ({ c with writer := some { ch with closed := true } } : Client)).length := by
    rw [List.length_set]
    exact hlt
  have hD := Client.Destroy_live (p := s.stderrClient)
    (c := Client.pop { c with writer := some { ch with closed := true } }
      { ch with closed := true } [])
    (h2.congr (t := { s with
      cleanup := OnceState.running
      heap := (s.heap.set s.stderrClient
        ({ c with writer := some { ch with closed := true } } : Client)).set s.stderrClient
          (Client.pop { c with writer := some { ch with closed := true } }
            { ch with closed := true } [])
      stderr := s.stderr ++ logStdErr.lines
        { s with cleanup := OnceState.running
                 heap := s.heap.set s.stderrClient
                   ({ c with writer := some { ch with closed := true } } : Client) }
        { c with writer := some { ch with closed := true } } ch.buf
      logStdErrRunning := false
      stderrFinished := [] }) rfl rfl)
    (List.getElem?_set_self hlt2) hi
  simp only [hlines, List.set_set] at hD
  simp only [Flush, hf, hE, hrun, Flush.finish, hlines, List.set_set, hD]
  rfl

theorem pendingState_reachable : Reachable pendingState :=
  Reachable.step (Op.createLog warnEntry) (LogSocket.init false) (Reachable.init false)
    (by simp [Op.receiver])

/-- C14: in a reachable state the first call of `Flush` returns; the goroutine
has written the line of every entry that was still queued for the stderr client
and that passes its test, in order, and has ended; the stderr client is not
live and not registered, and no other client has changed.  A call of `Flush`
after the first one returns and changes nothing, so `Flush` twice is `Flush`
once. -/
theorem C14_Flush_runs_once (s : State) (hs : Reachable s) (hf : s.cleanup = .fresh) :
    ∃ s1 c, s.heap[s.stderrClient]? = some c ∧ Flush s = .ret () s1 ∧
      s1.stderr = s.stderr ++ logStdErr.lines s c (s.buffer s.stderrClient) ∧
      s1.stderrClient = s.stderrClient ∧
      s1.heap[s.stderrClient]? = some { c with writer := none, initialized := false } ∧
      s.stderrClient ∉ s1.clients ∧
      s1.clients = s.clients.erase s.stderrClient ∧
      (∀ q, q ≠ s.stderrClient → s1.heap[q]? = s.heap[q]?) ∧
      s1.logStdErrRunning = false ∧
      s1.cleanup = .done ∧
      Flush s1 = .ret () s1 ∧
      (Flush (Flush s).state).state = (Flush s).state ∧
      (∀ t, Reachable t → t.cleanup ≠ .fresh → Flush t = .ret () t) := by
  obtain ⟨c, ch, hc, hw, _, hF⟩ := Flush_first hs hf
  have hlt := lt_length_of_heap hc
  have hbuf : s.buffer s.stderrClient = ch.buf := State.buffer_eq hc hw
  have herase : s.clients.filter (fun q => q != s.stderrClient)
      = s.clients.erase s.stderrClient := by
    rw [hs.wf.nodup.erase_eq_filter s.stderrClient]
  refine ⟨_, c, hc, hF, ?_, rfl, ?_, ?_, herase, ?_, rfl, rfl, rfl, ?_, ?_⟩
  · rw [hbuf]
  · exact List.getElem?_set_self hlt
  · intro hm
    have := (List.mem_filter.mp hm).2
    simp at this
  · intro q hq
    show (s.heap.set s.stderrClient _)[q]? = s.heap[q]?
    exact List.getElem?_set_ne (Ne.symm hq)
  · rw [hF]
    rfl
  · intro t ht hne
    cases hcu : t.cleanup with
    | fresh => exact absurd hcu hne
    | running => exact absurd hcu ht.inv.once
    | done => simp only [Flush, hcu]

/-- C14 in the state after `init` and one call of `Warn` that is still queued. -/
theorem C14_Flush_runs_once_witness :
    ∃ s1 c, pendingState.heap[pendingState.stderrClient]? = some c ∧
      Flush pendingState = .ret () s1 ∧
      s1.stderr = pendingState.stderr
        ++ logStdErr.lines pendingState c (pendingState.buffer pendingState.stderrClient) ∧
      s1.stderrClient = pendingState.stderrClient ∧
      s1.heap[pendingState.stderrClient]? = some { c with writer := none, initialized := false } ∧
      pendingState.stderrClient ∉ s1.clients ∧
      s1.clients = pendingState.clients.erase pendingState.stderrClient ∧
      (∀ q, q ≠ pendingState.stderrClient → s1.heap[q]? = pendingState.heap[q]?) ∧
      s1.logStdErrRunning = false ∧
      s1.cleanup = .done ∧
      Flush s1 = .ret () s1 ∧
      (Flush (Flush pendingState).state).state = (Flush pendingState).state ∧
      (∀ t, Reachable t → t.cleanup ≠ .fresh → Flush t = .ret () t) :=
  C14_Flush_runs_once pendingState pendingState_reachable rfl

/-! ## The logging functions -/

/-- C15, on the code: the package-level `Panic`, `Panicf` and `Panicln` called
with no `args` dispatch their entry and then fail with the run-time error
"index out of range" on `args[0]`, `Flush` not having run; the methods of
`Logger` called the same way flush and panic with an error whose message is the
rendered output. -/
theorem C15_package_Panic_reads_args_0 :
    (Fn.call sampleEnv .Panic ⟨"", []⟩ userStack (init false)
      = .panic (.runtimeError "index out of range [0] with length 0")
          (createLog (Fn.entry sampleEnv .Panic ⟨"", []⟩ userStack) (init false)).state) ∧
    (Fn.call sampleEnv .Panicf ⟨"boom", []⟩ userStack (init false)
      = .panic (.runtimeError "index out of range [0] with length 0")
          (createLog (Fn.entry sampleEnv .Panicf ⟨"boom", []⟩ userStack) (init false)).state) ∧
    (Fn.call sampleEnv .Panicln ⟨"", []⟩ userStack (init false)
      = .panic (.runtimeError "index out of range [0] with length 0")
          (createLog (Fn.entry sampleEnv .Panicln ⟨"", []⟩ userStack) (init false)).state) ∧
    (Fn.call sampleEnv .Panicf ⟨"boom", []⟩ userStack (init false)).state.cleanup = .fresh ∧
    (Fn.entry sampleEnv .Panicf ⟨"boom", []⟩ userStack).level = LPanic ∧
    (∃ s1, Method.call sampleEnv .Panic Default ⟨"", []⟩ userStack (init false)
      = .panic (.error "") s1 ∧ s1.cleanup = .done) ∧
    (∃ s1, Method.call sampleEnv .Panicf Default ⟨"boom", []⟩ userStack (init false)
      = .panic (.error "boom") s1 ∧ s1.cleanup = .done) ∧
    (∃ s1, Method.call sampleEnv .Panicln Default ⟨"", []⟩ userStack (init false)
      = .panic (.error "\n") s1 ∧ s1.cleanup = .done) := by
  refine ⟨rfl, rfl, rfl, rfl, rfl, ⟨_, rfl, rfl⟩, ⟨_, rfl, rfl⟩, ⟨_, rfl, rfl⟩⟩

/-- C16, on the code: `Panic` called with an `error` as first argument, as a
package-level function and as a method alike, dispatches its entry and panics
with that error at once: `Flush` has not run, the stderr client is still live
and registered, the entry is still queued for it and nothing is written.  With
a first argument that is not an error, and in `Fatal`, `Flush` has run when the
call ends. -/
theorem C16_Panic_with_error_skips_Flush :
    (∃ s1, Fn.call sampleEnv .Panic ⟨"", [.error "disk full"]⟩ userStack (init false)
        = .panic (.error "disk full") s1 ∧
      s1.cleanup = .fresh ∧ s1.stderrClient ∈ s1.clients ∧
      s1.buffer s1.stderrClient
        = [Fn.entry sampleEnv .Panic ⟨"", [.error "disk full"]⟩ userStack] ∧
      s1.stderr = []) ∧
    (∃ s1, Method.call sampleEnv .Panic Default ⟨"", [.error "disk full"]⟩ userStack
        (init false) = .panic (.error "disk full") s1 ∧
      s1.cleanup = .fresh ∧ s1.stderrClient ∈ s1.clients ∧
      s1.buffer s1.stderrClient
        = [Method.entry sampleEnv .Panic Default ⟨"", [.error "disk full"]⟩ userStack] ∧
      s1.stderr = []) ∧
    (∃ s1, Fn.call sampleEnv .Panic ⟨"", [.other "disk full"]⟩ userStack (init false)
        = .panic (.error "disk full") s1 ∧
      s1.cleanup = .done ∧ s1.stderrClient ∉ s1.clients ∧
      s1.stderr = ["7\tPANIC\t[default]\tdisk full\tmain.go:23\n"]) ∧
    (∃ s1, Fn.call sampleEnv .Fatal ⟨"", [.error "disk full"]⟩ userStack (init false)
        = .exit 1 s1 ∧
      s1.cleanup = .done ∧ s1.stderrClient ∉ s1.clients ∧
      s1.stderr = ["7\tFATAL\t[default]\tdisk full\tmain.go:23\n"]) := by
  refine ⟨⟨_, rfl, rfl, by decide, rfl, rfl⟩, ⟨_, rfl, rfl, by decide, rfl, rfl⟩,
    ⟨_, rfl, rfl, by decide, by decide⟩, ⟨_, rfl, rfl, by decide, by decide⟩⟩

/-- C18: for every string `ns`, `NewLogger(ns)` has `FileInfoDepth` 0 and its
`Namespace` is `ns` when `ns` is not empty and `DefaultNamespace`, that is
"default", when it is; so the `Namespace` is never empty, and `NewLogger("")`
is `Default()`. -/
theorem C18_NewLogger (ns : String) :
    (NewLogger ns).FileInfoDepth = 0 ∧
    (NewLogger ns).Namespace = (if ns = "" then DefaultNamespace else ns) ∧
    DefaultNamespace = "default" ∧
    (NewLogger ns).Namespace ≠ "" ∧
    NewLogger "" = Default ∧
    Default = { FileInfoDepth := 0, Namespace := "default" } := by
  have hns : (NewLogger ns).Namespace = (if ns = "" then DefaultNamespace else ns) := by
    simp only [NewLogger, beq_iff_eq]
  refine ⟨rfl, hns, rfl, ?_, rfl, rfl⟩
  rw [hns]
  by_cases h : ns = ""
  · rw [if_pos h]
    decide
  · rw [if_neg h]
    exact h

/-- A result within the range of `int` is not changed by the wrap-around. -/
theorem wrapInt_of_range {x : Int} (h1 : MinInt64 ≤ x) (h2 : x ≤ MaxInt64) : wrapInt x = x := by
  unfold MinInt64 at h1
  unfold MaxInt64 at h2
  unfold wrapInt
  omega

/-- For a `skip` from 0 to `MaxInt64 - 1`, `runtime.Caller` resolves frame number
`skip` of the stack of its caller. -/
theorem runtime.Caller_nat (env : Env) (k : Nat) (d : Nat) (stack : List Frame)
    (h : (k : Int) + (d : Int) < MaxInt64) :
    runtime.Caller env ((k : Int) + (d : Int)) stack = stack[k + d]? := by
  have hw : wrapInt ((k : Int) + (d : Int) + 1) = (k : Int) + (d : Int) + 1 :=
    wrapInt_of_range (by unfold MinInt64; omega) (by omega)
  have h1 : ¬ ((k : Int) + (d : Int) + 1 < 1) := by omega
  have h2 : ((k : Int) + (d : Int) + 1 - 1).toNat = k + d := by omega
  simp only [runtime.Caller, hw, h1, if_false, h2]

/-- At `skip = MaxInt64`, and for a negative `skip`, the sum `skip + 1` is below 1
in `int`, and `runtime.Caller` resolves its own frame. -/
theorem runtime.Caller_wraps (env : Env) (skip : Int) (stack : List Frame)
    (h : skip = MaxInt64 ∨ (MinInt64 ≤ skip ∧ skip < 0)) :
    runtime.Caller env skip stack = some env.runtimeCaller := by
  have hlt : wrapInt (skip + 1) < 1 := by
    unfold MaxInt64 MinInt64 at h
    unfold wrapInt
    omega
  simp only [runtime.Caller, hlt, if_true]

/-- C19, on the code: in every package-level function that builds its entry
itself, `fileInfo(2)` resolves the frame of the code that called the function,
and in every such method of a `Logger` of depth `d` below `MaxInt64 - 2` the
frame `d` further up; but in `Print`, `Printf` and `Println`, which call `Info`,
`Infof` and `Infoln`, the same `fileInfo(2)` resolves the frame of `Print`,
`Printf` or `Println` itself, a frame of the library (line 531, 535 or 539 of
`log.go`, line 385, 390 or 395 of `logger.go`), and a `Logger` of depth `d`
resolves a frame one short of the one it names.  For a depth from
`MaxInt64 - 2` on, the sums `2 + l.FileInfoDepth` and `skip + 1` wrap around in
`int` and every method resolves the frame of `runtime.Caller`. -/
theorem C19_Print_resolves_library_frame (env : Env) (callers : List Frame) (fn : Fn)
    (m : Method) (d : Nat) (ns : String) :
    Fn.frame env fn callers =
      (match fn.wrapperLine with
        | some w => some { pkg := libPkg, file := env.logGo, line := w }
        | none => callers[0]?) ∧
    ((d : Int) < MaxInt64 - 2 →
      Method.frame env m { FileInfoDepth := (d : Int), Namespace := ns } callers =
        (match m.wrapperLine with
          | some w => ({ pkg := libPkg, file := env.loggerGo, line := w } :: callers)[d]?
          | none => callers[d]?)) ∧
    (∀ k : Int, MaxInt64 - 2 ≤ k → k ≤ MaxInt64 →
      Method.frame env m { FileInfoDepth := k, Namespace := ns } callers
        = some env.runtimeCaller) ∧
    Method.frame sampleEnv .Info { FileInfoDepth := 1, Namespace := "app" } userStack
      = some { pkg := "runtime", file := "/usr/local/go/src/runtime/proc.go", line := 283 } ∧
    Fn.frame env .Print callers = some { pkg := libPkg, file := env.logGo, line := 531 } ∧
    Fn.frame env .Printf callers = some { pkg := libPkg, file := env.logGo, line := 535 } ∧
    Fn.frame env .Println callers = some { pkg := libPkg, file := env.logGo, line := 539 } ∧
    Method.frame env .Print Default callers
      = some { pkg := libPkg, file := env.loggerGo, line := 385 } ∧
    Fn.frame env .Info callers = callers[0]? ∧
    (Fn.entry sampleEnv .Print ⟨"", [.other "started"]⟩ userStack).File = "log.go:531" ∧
    (Method.entry sampleEnv .Print Default ⟨"", [.other "started"]⟩ userStack).File
      = "logger.go:385" ∧
    (Fn.entry sampleEnv .Info ⟨"", [.other "started"]⟩ userStack).File = "main.go:23" := by
  have hk : ((2 : Nat) : Int) = 2 := rfl
  have h2 : ∀ stack : List Frame, runtime.Caller env 2 stack = stack[2]? := by
    intro stack
    have h := runtime.Caller_nat env 2 0 stack (by decide)
    simpa using h
  have hfn : ∀ f : Fn, Fn.frame env f callers =
      (match f.wrapperLine with
        | some w => some { pkg := libPkg, file := env.logGo, line := w }
        | none => callers[0]?) := by
    intro f
    simp only [Fn.frame, h2]
    cases f <;> simp [Fn.stack, Fn.wrapperLine]
  have hm : ∀ (x : Method) (k : Nat) (nsp : String), (k : Int) < MaxInt64 - 2 →
      Method.frame env x { FileInfoDepth := (k : Int), Namespace := nsp } callers =
      (match x.wrapperLine with
        | some w => ({ pkg := libPkg, file := env.loggerGo, line := w } :: callers)[k]?
        | none => callers[k]?) := by
    intro x k nsp hlt
    have hlt2 : ((2 : Nat) : Int) + (k : Int) < MaxInt64 := by omega
    have hw : wrapInt (2 + (k : Int)) = ((2 : Nat) : Int) + (k : Int) :=
      wrapInt_of_range (by unfold MinInt64; omega) (by omega)
    simp only [Method.frame, hw]
    rw [runtime.Caller_nat env 2 k _ hlt2]
    cases x <;> simp [Method.stack, Method.wrapperLine, Nat.add_comm 2 k]
  refine ⟨hfn fn, hm m d ns, ?_, ?_, hfn .Print, hfn .Printf, hfn .Println, ?_, hfn .Info,
    by decide, by decide, by decide⟩
  · intro k h1 h2
    simp only [Method.frame]
    apply runtime.Caller_wraps
    unfold MaxInt64 at h1 h2
    unfold MaxInt64 MinInt64 wrapInt
    omega
  · decide
  · have h := hm .Print 0 DefaultNamespace (by decide)
    simpa [Default, Method.wrapperLine] using h

/-- C20, on the code: the names of `LogFn` are the 24 combinations of the eight
levels with the three renderings, one name for each, and `log.go` has a
package-level function of each name; `logger.go` has a method of each name but
one: `Logger` has `Debug` and `Debugf` and no `Debugln`. -/
theorem C20_Logger_has_no_Debugln :
    (∀ lvl ∈ [LTrace, LDebug, LInfo, LNotice, LWarn, LError, LPanic, LFatal],
      ∀ mode : Mode, ∃ n : LogFn, n.level = lvl ∧ n.mode = mode) ∧
    (∀ n1 n2 : LogFn, n1.level = n2.level ∧ n1.mode = n2.mode ↔ n1 = n2) ∧
    (∀ n : LogFn, ∃ fn : Fn, fn.wrapperLine = none ∧ fn.target = n) ∧
    (∀ m : Method, m.target ≠ .Debugln) ∧
    (∀ n : LogFn, (∃ m : Method, m.wrapperLine = none ∧ m.target = n) ↔ n ≠ .Debugln) ∧
    LogFn.Debugln.level = LDebug ∧ LogFn.Debugln.mode = Mode.Sprintln := by
  refine ⟨?_, ?_, ?_, ?_, ?_, rfl, rfl⟩
  · intro lvl hl mode
    simp only [List.mem_cons, List.mem_singleton, List.not_mem_nil, or_false] at hl
    rcases hl with h | h | h | h | h | h | h | h <;> subst h <;> cases mode
    · exact ⟨.Trace, rfl, rfl⟩
    · exact ⟨.Tracef, rfl, rfl⟩
    · exact ⟨.Traceln, rfl, rfl⟩
    · exact ⟨.Debug, rfl, rfl⟩
    · exact ⟨.Debugf, rfl, rfl⟩
    · exact ⟨.Debugln, rfl, rfl⟩
    · exact ⟨.Info, rfl, rfl⟩
    · exact ⟨.Infof, rfl, rfl⟩
    · exact ⟨.Infoln, rfl, rfl⟩
    · exact ⟨.Notice, rfl, rfl⟩
    · exact ⟨.Noticef, rfl, rfl⟩
    · exact ⟨.Noticeln, rfl, rfl⟩
    · exact ⟨.Warn, rfl, rfl⟩
    · exact ⟨.Warnf, rfl, rfl⟩
    · exact ⟨.Warnln, rfl, rfl⟩
    · exact ⟨.Error, rfl, rfl⟩
    · exact ⟨.Errorf, rfl, rfl⟩
    · exact ⟨.Errorln, rfl, rfl⟩
    · exact ⟨.Panic, rfl, rfl⟩
    · exact ⟨.Panicf, rfl, rfl⟩
    · exact ⟨.Panicln, rfl, rfl⟩
    · exact ⟨.Fatal, rfl, rfl⟩
    · exact ⟨.Fatalf, rfl, rfl⟩
    · exact ⟨.Fatalln, rfl, rfl⟩
  · intro n1 n2
    constructor
    · intro h
      revert h
      cases n1 <;> cases n2 <;> decide
    · intro h
      subst h
      exact ⟨rfl, rfl⟩
  · intro n
    cases n
    · exact ⟨.Trace, rfl, rfl⟩
    · exact ⟨.Tracef, rfl, rfl⟩
    · exact ⟨.Traceln, rfl, rfl⟩
    · exact ⟨.Debug, rfl, rfl⟩
    · exact ⟨.Debugf, rfl, rfl⟩
    · exact ⟨.Debugln, rfl, rfl⟩
    · exact ⟨.Info, rfl, rfl⟩
    · exact ⟨.Infof, rfl, rfl⟩
    · exact ⟨.Infoln, rfl, rfl⟩
    · exact ⟨.Notice, rfl, rfl⟩
    · exact ⟨.Noticef, rfl, rfl⟩
    · exact ⟨.Noticeln, rfl, rfl⟩
    · exact ⟨.Warn, rfl, rfl⟩
    · exact ⟨.Warnf, rfl, rfl⟩
    · exact ⟨.Warnln, rfl, rfl⟩
    · exact ⟨.Error, rfl, rfl⟩
    · exact ⟨.Errorf, rfl, rfl⟩
    · exact ⟨.Errorln, rfl, rfl⟩
    · exact ⟨.Panic, rfl, rfl⟩
    · exact ⟨.Panicf, rfl, rfl⟩
    · exact ⟨.Panicln, rfl, rfl⟩
    · exact ⟨.Fatal, rfl, rfl⟩
    · exact ⟨.Fatalf, rfl, rfl⟩
    · exact ⟨.Fatalln, rfl, rfl⟩
  · intro m
    cases m <;> decide
  · intro n
    constructor
    · rintro ⟨m, _, hm⟩ hn
      subst hn
      revert hm
      cases m <;> decide
    · intro hn
      cases n
      · exact ⟨.Trace, rfl, rfl⟩
      · exact ⟨.Tracef, rfl, rfl⟩
      · exact ⟨.Traceln, rfl, rfl⟩
      · exact ⟨.Debug, rfl, rfl⟩
      · exact ⟨.Debugf, rfl, rfl⟩
      · exact absurd rfl hn
      · exact ⟨.Info, rfl, rfl⟩
      · exact ⟨.Infof, rfl, rfl⟩
      · exact ⟨.Infoln, rfl, rfl⟩
      · exact ⟨.Notice, rfl, rfl⟩
      · exact ⟨.Noticef, rfl, rfl⟩
      · exact ⟨.Noticeln, rfl, rfl⟩
      · exact ⟨.Warn, rfl, rfl⟩
      · exact ⟨.Warnf, rfl, rfl⟩
      · exact ⟨.Warnln, rfl, rfl⟩
      · exact ⟨.Error, rfl, rfl⟩
      · exact ⟨.Errorf, rfl, rfl⟩
      · exact ⟨.Errorln, rfl, rfl⟩
      · exact ⟨.Panic, rfl, rfl⟩
      · exact ⟨.Panicf, rfl, rfl⟩
      · exact ⟨.Panicln, rfl, rfl⟩
      · exact ⟨.Fatal, rfl, rfl⟩
      · exact ⟨.Fatalf, rfl, rfl⟩
      · exact ⟨.Fatalln, rfl, rfl⟩

/-! ## The set of namespaces -/

theorem trackNamespace_nodup {ns : String} {keys : List String} (h : keys.Nodup) :
    (trackNamespace ns keys).Nodup := by
  unfold trackNamespace
  split
  · exact h
  · rename_i hn
    exact List.Nodup.append h (List.nodup_singleton ns) (by simpa using hn)

theorem mem_trackNamespace {ns x : String} {keys : List String} :
    x ∈ trackNamespace ns keys ↔ x ∈ keys ∨ x = ns := by
  unfold trackNamespace
  split
  · rename_i hn
    constructor
    · intro h
      exact Or.inl h
    · rintro (h | h)
      · exact h
      · exact h ▸ hn
  · simp

theorem Op.namespacesOf_cons (op : Op) (ops : List Op) :
    Op.namespacesOf (op :: ops) = Op.namespacesOf [op] ++ Op.namespacesOf ops := by
  cases op <;> rfl

/-- One operation keeps the key list free of duplicates and adds to it the
namespace of the entry it dispatches, if it dispatches one. -/
theorem Op.run_namespaces_mem (op : Op) (s : State) (h : s.namespaces.Nodup) :
    (op.run s).namespaces.Nodup ∧
    ∀ x, x ∈ (op.run s).namespaces ↔ x ∈ s.namespaces ∨ x ∈ Op.namespacesOf [op] := by
  have hn := Op.run_namespaces op s
  cases op with
  | createLog e =>
    have hn1 : ((Op.createLog e).run s).namespaces
        = trackNamespace e.Namespace s.namespaces := hn
    rw [hn1]
    refine ⟨trackNamespace_nodup h, fun x => ?_⟩
    rw [mem_trackNamespace]
    simp [Op.namespacesOf]
  | CreateClient namespaces => exact ⟨h, fun x => by simp [hn, Op.namespacesOf]⟩
  | newClient => exact ⟨h, fun x => by simp [hn, Op.namespacesOf]⟩
  | Destroy p => exact ⟨hn ▸ h, fun x => by simp [hn, Op.namespacesOf]⟩
  | GetLogLevel p => exact ⟨hn ▸ h, fun x => by simp [hn, Op.namespacesOf]⟩
  | SetLogLevel p level => exact ⟨hn ▸ h, fun x => by simp [hn, Op.namespacesOf]⟩
  | Get p => exact ⟨hn ▸ h, fun x => by simp [hn, Op.namespacesOf]⟩
  | SetStderrLogLevel level => exact ⟨hn ▸ h, fun x => by simp [hn, Op.namespacesOf]⟩
  | SetColorEnabled enabled => exact ⟨h, fun x => by simp [hn, Op.namespacesOf]⟩
  | Flush => exact ⟨hn ▸ h, fun x => by simp [hn, Op.namespacesOf]⟩
  | logStdErr => exact ⟨hn ▸ h, fun x => by simp [hn, Op.namespacesOf]⟩

/-- Running operations keeps the key list free of duplicates and adds to it
exactly the namespaces of the dispatched entries. -/
theorem runOps_namespaces : ∀ (ops : List Op) (s : State), s.namespaces.Nodup →
    (runOps ops s).namespaces.Nodup ∧
    ∀ x, x ∈ (runOps ops s).namespaces ↔ x ∈ s.namespaces ∨ x ∈ Op.namespacesOf ops := by
  intro ops
  induction ops with
  | nil =>
    intro s h
    exact ⟨h, fun x => by simp [runOps, Op.namespacesOf]⟩
  | cons op ops ih =>
    intro s h
    obtain ⟨g1, g2⟩ := Op.run_namespaces_mem op s h
    obtain ⟨h1, h2⟩ := ih (op.run s) g1
    refine ⟨h1, fun x => ?_⟩
    show x ∈ (runOps ops (op.run s)).namespaces ↔ _
    rw [h2 x, g2 x, Op.namespacesOf_cons op ops, List.mem_append]
    tauto

theorem Op.mem_namespacesOf (x : String) : ∀ ops : List Op,
    x ∈ Op.namespacesOf ops ↔ ∃ e, Op.createLog e ∈ ops ∧ e.Namespace = x := by
  intro ops
  induction ops with
  | nil => simp [Op.namespacesOf]
  | cons o os ih =>
    rw [Op.namespacesOf_cons o os, List.mem_append, ih]
    constructor
    · rintro (h | ⟨e1, he1, hx⟩)
      · cases o <;> simp [Op.namespacesOf] at h
        rename_i e
        exact ⟨e, List.mem_cons_self _ _, h.symm⟩
      · exact ⟨e1, List.mem_cons_of_mem _ he1, hx⟩
    · rintro ⟨e1, he1, hx⟩
      rcases List.mem_cons.mp he1 with h | h
      · left
        rw [← h]
        simp [Op.namespacesOf, hx]
      · exact Or.inr ⟨e1, h, hx⟩

theorem runOps_append : ∀ (ops more : List Op) (s : State),
    runOps (ops ++ more) s = runOps more (runOps ops s) := by
  intro ops
  induction ops with
  | nil => intro more s; rfl
  | cons op ops ih => intro more s; exact ih more (op.run s)

/-- A logging call records the namespace of its entry, however it ends. -/
theorem LogFn.records_namespace (env : Env) (n : LogFn) (ns : String) (skip : Int) (guard : Bool)
    (stack : List Frame) (a : Args) (s : State) :
    (n.run env ns skip guard stack a s).state.namespaces = trackNamespace ns s.namespaces := by
  have h1 : (createLog (n.entry env ns skip stack a) s).state.namespaces
      = trackNamespace ns s.namespaces := by
    rw [createLog_frame]
    rfl
  have hfl : ∀ t : State, (Flush t).state.namespaces = t.namespaces :=
    fun t => congrArg Prod.snd (Flush_core t)
  unfold LogFn.run
  cases hC : createLog (n.entry env ns skip stack a) s with
  | panic v s1 => rw [hC] at h1; exact h1
  | block s1 => rw [hC] at h1; exact h1
  | ret v s1 =>
    rw [hC] at h1
    have h2 : s1.namespaces = trackNamespace ns s.namespaces := h1
    have h3 := hfl s1
    have hfp : (flushThenPanic (render env n.mode a) s1).state.namespaces
        = trackNamespace ns s.namespaces := by
      unfold flushThenPanic
      cases hF : Flush s1 with
      | ret v2 s2 => rw [hF] at h3; exact h3.trans h2
      | panic v2 s2 => rw [hF] at h3; exact h3.trans h2
      | block s2 => rw [hF] at h3; exact h3.trans h2
    simp only [escalate]
    cases n.tail with
    | log => exact h2
    | fatal =>
      simp only []
      cases hF : Flush s1 with
      | ret v2 s2 => rw [hF] at h3; exact h3.trans h2
      | panic v2 s2 => rw [hF] at h3; exact h3.trans h2
      | block s2 => rw [hF] at h3; exact h3.trans h2
    | panic =>
      simp only []
      cases guard with
      | false => exact hfp
      | true =>
        simp only [if_true]
        cases a.args with
        | nil => exact h2
        | cons x xs =>
          cases x with
          | error msg => exact h2
          | other text => exact hfp

/-- C17: after any sequence of operations from `init`, `GetNamespaces` returns
a list without duplicates whose elements are exactly the namespaces of the
entries dispatched so far, whether or not a client received them; a namespace
once returned is returned after any further operations; only `createLog`
changes the list, and every logging call records the namespace of its entry. -/
theorem C17_GetNamespaces (isTerminal : Bool) (ops more : List Op) (op : Op) (s : State)
    (env : Env) (fn : Fn) (m : Method) (l : Logger) (a : Args) (callers : List Frame) :
    (GetNamespaces (runOps ops (init isTerminal))).Nodup ∧
    (∀ x, x ∈ GetNamespaces (runOps ops (init isTerminal)) ↔ x ∈ Op.namespacesOf ops) ∧
    (∀ x, x ∈ Op.namespacesOf ops ↔ ∃ e, Op.createLog e ∈ ops ∧ e.Namespace = x) ∧
    (∀ x, x ∈ GetNamespaces (runOps ops (init isTerminal)) →
      x ∈ GetNamespaces (runOps (ops ++ more) (init isTerminal))) ∧
    GetNamespaces (op.run s) =
      (match op with
        | .createLog e => trackNamespace e.Namespace (GetNamespaces s)
        | _ => GetNamespaces s) ∧
    GetNamespaces (Fn.call env fn a callers s).state
      = trackNamespace DefaultNamespace (GetNamespaces s) ∧
    GetNamespaces (Method.call env m l a callers s).state
      = trackNamespace l.Namespace (GetNamespaces s) := by
  have h0 : (init isTerminal).namespaces = [] := by cases isTerminal <;> rfl
  obtain ⟨h1, h2⟩ := runOps_namespaces ops (init isTerminal) (by rw [h0]; exact List.nodup_nil)
  have h2a : ∀ x, x ∈ GetNamespaces (runOps ops (init isTerminal)) ↔ x ∈ Op.namespacesOf ops := by
    intro x
    have := h2 x
    rw [h0] at this
    simpa [GetNamespaces] using this
  refine ⟨h1, h2a, ?_, ?_, Op.run_namespaces op s, LogFn.records_namespace env _ _ _ _ _ a s,
    LogFn.records_namespace env _ _ _ _ _ a s⟩
  · intro x
    exact Op.mem_namespacesOf x ops
  · intro x hx
    rw [runOps_append]
    obtain ⟨_, g2⟩ := runOps_namespaces more (runOps ops (init isTerminal)) h1
    exact (g2 x).mpr (Or.inl hx)

/-! ## Tags, levels and namespaces of the entries -/

/-- The functions of each name write a tag and a numeric level that agree: the
tag is the name at the position of the level in the order of the specification,
and it is the name of the constant of `types.go`, without its `L`, in upper case. -/
theorem LogFn.tag_agrees (n : LogFn) :
    specTag n.level = some n.Level ∧
    ∃ nv ∈ levelConstants, nv.2 = n.level ∧
      n.Level = String.mk ((nv.1.data.drop 1).map Char.toUpper) := by
  cases n <;> decide

/-- C21: the entry that a package-level function or a method of `Logger`
dispatches carries a tag and a numeric level that agree under the order
TRACE=0 < DEBUG=1 < INFO=2 < NOTICE=3 < WARN=4 < ERROR=5 < PANIC=6 < FATAL=7;
the tag is the upper-case name of the constant of the level; `Print`, `Printf`
and `Println` dispatch INFO entries; and the entry is the one the call hands
to `createLog`. -/
theorem C21_tag_agrees_with_level (env : Env) (fn : Fn) (m : Method) (l : Logger) (a : Args)
    (callers : List Frame) (s : State) :
    specTag (fn.entry env a callers).level = some (fn.entry env a callers).Level ∧
    specTag (m.entry env l a callers).level = some (m.entry env l a callers).Level ∧
    (∃ nv ∈ levelConstants, nv.2 = (fn.entry env a callers).level ∧
      (fn.entry env a callers).Level = String.mk ((nv.1.data.drop 1).map Char.toUpper)) ∧
    (∃ nv ∈ levelConstants, nv.2 = (m.entry env l a callers).level ∧
      (m.entry env l a callers).Level = String.mk ((nv.1.data.drop 1).map Char.toUpper)) ∧
    levelConstants.map (fun nv => nv.2) = [0, 1, 2, 3, 4, 5, 6, 7] ∧
    levelConstants.map (fun nv => specTag nv.2) = specLevelOrder.map some ∧
    (LTrace < LDebug ∧ LDebug < LInfo ∧ LInfo < LNotice ∧ LNotice < LWarn ∧ LWarn < LError ∧
      LError < LPanic ∧ LPanic < LFatal) ∧
    ((Fn.entry env .Print a callers).Level = "INFO" ∧
      (Fn.entry env .Print a callers).level = LInfo ∧
      (Fn.entry env .Printf a callers).Level = "INFO" ∧
      (Fn.entry env .Printf a callers).level = LInfo ∧
      (Fn.entry env .Println a callers).Level = "INFO" ∧
      (Fn.entry env .Println a callers).level = LInfo) ∧
    ((Method.entry env .Print l a callers).Level = "INFO" ∧
      (Method.entry env .Print l a callers).level = LInfo ∧
      (Method.entry env .Printf l a callers).Level = "INFO" ∧
      (Method.entry env .Printf l a callers).level = LInfo ∧
      (Method.entry env .Println l a callers).Level = "INFO" ∧
      (Method.entry env .Println l a callers).level = LInfo) ∧
    Fn.call env fn a callers s =
      (match createLog (fn.entry env a callers) s with
        | .ret _ s1 =>
          escalate fn.target.tail (decide ((a.args.length : Int) ≥ 0))
            (render env fn.target.mode a) a s1
        | .panic v s1 => .panic v s1
        | .block s1 => .block s1) ∧
    Method.call env m l a callers s =
      (match createLog (m.entry env l a callers) s with
        | .ret _ s1 =>
          escalate m.target.tail (decide (a.args.length > 0)) (render env m.target.mode a) a s1
        | .panic v s1 => .panic v s1
        | .block s1 => .block s1) := by
  refine ⟨(LogFn.tag_agrees fn.target).1, (LogFn.tag_agrees m.target).1,
    (LogFn.tag_agrees fn.target).2, (LogFn.tag_agrees m.target).2, by decide, by decide,
    by decide, ⟨rfl, rfl, rfl, rfl, rfl, rfl⟩, ⟨rfl, rfl, rfl, rfl, rfl, rfl⟩, rfl, rfl⟩

/-- C22: every entry dispatched by a package-level logging function has the
namespace "default", and every entry dispatched by a method of a logger has the
namespace of that logger, whatever the level, the rendering mode, the depth and
the arguments; the namespace is the one the call records in the set of
namespaces. -/
theorem C22_entry_namespace (env : Env) (fn : Fn) (m : Method) (l : Logger) (a : Args)
    (callers : List Frame) (s : State) (ns : String) (depth : Int) :
    (fn.entry env a callers).Namespace = DefaultNamespace ∧
    DefaultNamespace = "default" ∧
    (m.entry env l a callers).Namespace = l.Namespace ∧
    (m.entry env (l.SetInfoDepth depth) a callers).Namespace = l.Namespace ∧
    (m.entry env Default a callers).Namespace = "default" ∧
    (m.entry env (NewLogger ns) a callers).Namespace = (if ns = "" then "default" else ns) ∧
    Fn.call env fn a callers s =
      (match createLog (fn.entry env a callers) s with
        | .ret _ s1 =>
          escalate fn.target.tail (decide ((a.args.length : Int) ≥ 0))
            (render env fn.target.mode a) a s1
        | .panic v s1 => .panic v s1
        | .block s1 => .block s1) ∧
    Method.call env m l a callers s =
      (match createLog (m.entry env l a callers) s with
        | .ret _ s1 =>
          escalate m.target.tail (decide (a.args.length > 0)) (render env m.target.mode a) a s1
        | .panic v s1 => .panic v s1
        | .block s1 => .block s1) ∧
    (fn.entry env a callers).Namespace ∈ GetNamespaces (Fn.call env fn a callers s).state ∧
    (m.entry env l a callers).Namespace ∈ GetNamespaces (Method.call env m l a callers s).state := by
  refine ⟨rfl, rfl, rfl, rfl, rfl, ?_, rfl, rfl, ?_, ?_⟩
  · show (NewLogger ns).Namespace = _
    by_cases h : ns = ""
    · simp [NewLogger, h, DefaultNamespace]
    · simp [NewLogger, h]
  · show DefaultNamespace ∈ (Fn.call env fn a callers s).state.namespaces
    unfold Fn.call
    rw [LogFn.records_namespace]
    exact mem_trackNamespace.mpr (Or.inr rfl)
  · show l.Namespace ∈ (Method.call env m l a callers s).state.namespaces
    unfold Method.call
    rw [LogFn.records_namespace]
    exact mem_trackNamespace.mpr (Or.inr rfl)

/-! ## The bound on the buffers and the registry invariant -/

/-- In a state that satisfies the registry invariant no client, registered or
not, has more than 1000 entries queued. -/
theorem WFx.buffer_le {x : Option Nat} {s : State} (h : WFx x s) (p : Nat) :
    (s.buffer p).length ≤ 1000 := by
  cases hc : s.heap[p]? with
  | none => simp [State.buffer, hc]
  | some c =>
    cases hi : c.initialized with
    | false => simp [State.buffer, hc, h.dead p c hc hi]
    | true =>
      obtain ⟨c1, hc1, hg, _⟩ := h.good p (h.live p c hc hi)
      obtain ⟨_, ch, hw, _, hl⟩ := hg
      rw [State.buffer_eq hc1 hw]
      exact hl

/-- C23: in every reachable state the channel of every registered client has
capacity 1000 and holds at most 1000 entries; no other client has anything
queued, so the bound holds at every address. -/
theorem C23_buffer_bounded (s : State) (hs : Reachable s) :
    (∀ p ∈ s.clients, ∃ c ch, s.heap[p]? = some c ∧ c.writer = some ch ∧ ch.cap = 1000 ∧
      s.buffer p = ch.buf ∧ ch.buf.length ≤ ch.cap) ∧
    (∀ p ∈ s.clients, (s.buffer p).length ≤ 1000) ∧
    (∀ p, p ∉ s.clients → s.buffer p = []) ∧
    (∀ p, (s.buffer p).length ≤ 1000) := by
  have h := hs.wf
  refine ⟨?_, fun p _ => h.buffer_le p, ?_, fun p => h.buffer_le p⟩
  · intro p hp
    obtain ⟨c, hc, hg, _⟩ := h.good p hp
    obtain ⟨_, ch, hw, hcap, hl⟩ := hg
    exact ⟨c, ch, hc, hw, hcap, State.buffer_eq hc hw, by rw [hcap]; exact hl⟩
  · intro p hp
    cases hc : s.heap[p]? with
    | none => simp [State.buffer, hc]
    | some c =>
      cases hi : c.initialized with
      | false => exact (WFx.dead_unregistered h hc hi).2
      | true => exact absurd (h.live p c hc hi) hp

/-- C23 in the state after `init` and 1000 undrained calls of `Trace`, in which
the buffer of the stderr client holds exactly 1000 entries. -/
theorem C23_buffer_bounded_witness :
    (∀ p ∈ fullState.clients, ∃ c ch, fullState.heap[p]? = some c ∧ c.writer = some ch ∧
      ch.cap = 1000 ∧ fullState.buffer p = ch.buf ∧ ch.buf.length ≤ ch.cap) ∧
    (∀ p ∈ fullState.clients, (fullState.buffer p).length ≤ 1000) ∧
    (∀ p, p ∉ fullState.clients → fullState.buffer p = []) ∧
    (∀ p, (fullState.buffer p).length ≤ 1000) := by
  obtain ⟨_, hs, _⟩ := fullState_spec
  exact C23_buffer_bounded fullState hs

/-- On a registry that holds each client once and live clients only, `Destroy`
on a registered client returns `nil` and rebuilds the registry as the previous
one without that client. -/
theorem Client.Destroy_erase {t : State} (hn : t.clients.Nodup)
    (hall : ∀ q ∈ t.clients, ∃ c, t.heap[q]? = some c ∧ c.initialized = true)
    {p : Nat} {c : Client} (hc : t.heap[p]? = some c) (hi : c.initialized = true) :
    Client.Destroy p t = .ret none
      { t with heap := t.heap.set p { c with writer := none, initialized := false },
               clients := t.clients.erase p } := by
  have hl := Client.Destroy.loop_spec t.heap p { c with writer := none, initialized := false }
    (lt_length_of_heap hc) rfl t.clients [] hall
  rw [hn.erase_eq_filter p]
  simp only [Client.Destroy, hc, hi, hl]
  simp

/-- C26: in every reachable state no client is held twice in the registry and
every client held in it is initialized and has a channel; so `Destroy` on a
registered client returns `nil`, leaves the registry equal to the previous one
with exactly that client erased, and the three properties hold again.  The
erasure follows from the properties alone, in any state; and it fails in a
state whose registry holds a client that is not initialized. -/
theorem C26_registry_invariant (s : State) (hs : Reachable s) :
    s.clients.Nodup ∧
    (∀ p ∈ s.clients, ∃ c ch, s.heap[p]? = some c ∧ c.initialized = true ∧
      c.writer = some ch) ∧
    (∀ p ∈ s.clients, ∃ s1, Client.Destroy p s = .ret none s1 ∧
      s1.clients = s.clients.erase p ∧ s1.clients.Nodup ∧
      (∀ q ∈ s1.clients, ∃ c ch, s1.heap[q]? = some c ∧ c.initialized = true ∧
        c.writer = some ch)) ∧
    (∀ t : State, t.clients.Nodup →
      (∀ q ∈ t.clients, ∃ c, t.heap[q]? = some c ∧ c.initialized = true) →
      ∀ p ∈ t.clients, ∃ t1, Client.Destroy p t = .ret none t1 ∧
        t1.clients = t.clients.erase p) ∧
    (∃ t1, Client.Destroy 2 staleState = .ret none t1 ∧ t1.clients = [0] ∧
      staleState.clients.erase 2 = [0, 1]) := by
  have h := hs.wf
  have hreg : ∀ {t : State}, WF t → ∀ p ∈ t.clients, ∃ c ch, t.heap[p]? = some c ∧
      c.initialized = true ∧ c.writer = some ch := by
    intro t ht p hp
    obtain ⟨c, hc, hg, _⟩ := ht.good p hp
    obtain ⟨hi, ch, hw, _⟩ := hg
    exact ⟨c, ch, hc, hi, hw⟩
  have hall : ∀ {t : State}, WF t → ∀ q ∈ t.clients, ∃ c, t.heap[q]? = some c ∧
      c.initialized = true := by
    intro t ht q hq
    obtain ⟨c, _, hc, hi, _⟩ := hreg ht q hq
    exact ⟨c, hc, hi⟩
  refine ⟨h.nodup, hreg h, ?_, ?_, ⟨_, rfl, rfl, rfl⟩⟩
  · intro p hp
    obtain ⟨c, hc, hi⟩ := hall h p hp
    have hD := Client.Destroy_erase h.nodup (hall h) hc hi
    have hwf : WF (Client.Destroy p s).state := Client.Destroy_WF (h.weaken (some p))
    rw [hD] at hwf
    exact ⟨_, hD, rfl, hwf.nodup, hreg hwf⟩
  · intro t hn ha p hp
    obtain ⟨c, hc, hi⟩ := ha p hp
    exact ⟨_, Client.Destroy_erase hn ha hc hi, rfl⟩

/-- C26 in the state after `init` and `CreateClient("auth")`. -/
theorem C26_registry_invariant_witness :
    authState.clients.Nodup ∧
    (∀ p ∈ authState.clients, ∃ c ch, authState.heap[p]? = some c ∧ c.initialized = true ∧
      c.writer = some ch) ∧
    (∀ p ∈ authState.clients, ∃ s1, Client.Destroy p authState = .ret none s1 ∧
      s1.clients = authState.clients.erase p ∧ s1.clients.Nodup ∧
      (∀ q ∈ s1.clients, ∃ c ch, s1.heap[q]? = some c ∧ c.initialized = true ∧
        c.writer = some ch)) ∧
    (∀ t : State, t.clients.Nodup →
      (∀ q ∈ t.clients, ∃ c, t.heap[q]? = some c ∧ c.initialized = true) →
      ∀ p ∈ t.clients, ∃ t1, Client.Destroy p t = .ret none t1 ∧
        t1.clients = t.clients.erase p) ∧
    (∃ t1, Client.Destroy 2 staleState = .ret none t1 ∧ t1.clients = [0] ∧
      staleState.clients.erase 2 = [0, 1]) :=
  C26_registry_invariant authState authState_reachable

/-! ## The function `fileInfo` -/

/-- The scan keeps `best` when the separator does not occur. -/
theorem LastIndex.scan_not_mem (sep : Char) : ∀ (xs : List Char) (i : Nat) (best : Int),
    sep ∉ xs → LastIndex.scan sep xs i best = best := by
  intro xs
  induction xs with
  | nil => intro i best _; rfl
  | cons x xs ih =>
    intro i best h
    have hx : x ≠ sep := fun e => h (e ▸ List.mem_cons_self x xs)
    have hxs : sep ∉ xs := fun e => h (List.mem_cons_of_mem x e)
    simp only [LastIndex.scan, if_neg hx]
    exact ih (i + 1) best hxs

/-- The scan finds the last occurrence of the separator when there is one. -/
theorem LastIndex.scan_mem (sep : Char) : ∀ (xs : List Char) (i : Nat) (best : Int),
    sep ∈ xs → ∃ pre post, xs = pre ++ sep :: post ∧ sep ∉ post ∧
      LastIndex.scan sep xs i best = ((i + pre.length : Nat) : Int) := by
  intro xs
  induction xs with
  | nil => intro i best h; cases h
  | cons x xs ih =>
    intro i best h
    by_cases hxs : sep ∈ xs
    · obtain ⟨pre, post, hsplit, hpost, hscan⟩ :=
        ih (i + 1) (if x = sep then (i : Int) else best) hxs
      refine ⟨x :: pre, post, by rw [hsplit]; rfl, hpost, ?_⟩
      simp only [LastIndex.scan, hscan, List.length_cons]
      congr 1
      omega
    · have hx : x = sep := by
        rcases List.mem_cons.mp h with e | e
        · exact e.symm
        · exact absurd e hxs
      refine ⟨[], xs, by rw [hx]; rfl, hxs, ?_⟩
      simp only [LastIndex.scan, if_pos hx, List.length_nil, Nat.add_zero]
      exact LastIndex.scan_not_mem sep xs (i + 1) i hxs

/-- Go `strings.LastIndex(s, "/")`: -1 when there is no "/", and otherwise the
position of a "/" after which there is none. -/
theorem LastIndex_spec (s : String) :
    ('/' ∉ s.data ∧ LastIndex s '/' = -1) ∨
    ∃ pre post, s.data = pre ++ '/' :: post ∧ '/' ∉ post ∧
      LastIndex s '/' = (pre.length : Int) := by
  by_cases h : '/' ∈ s.data
  · obtain ⟨pre, post, hsplit, hpost, hscan⟩ := LastIndex.scan_mem '/' s.data 0 (-1) h
    refine Or.inr ⟨pre, post, hsplit, hpost, ?_⟩
    unfold LastIndex
    rw [hscan]
    simp
  · exact Or.inl ⟨h, LastIndex.scan_not_mem '/' s.data 0 (-1) h⟩

/-- The string that `fileInfo` makes of a resolved frame: the part of the path
after its last "/", a colon and the line; the slice is within bounds. -/
theorem fileInfo.resolved (file : String) :
    ∃ dir base : List Char, file.data = dir ++ base ∧ '/' ∉ base ∧
      (('/' ∉ file.data ∧ dir = []) ∨ ∃ d, dir = d ++ ['/']) ∧
      (if LastIndex file '/' ≥ 0
        then String.mk (file.data.drop (LastIndex file '/' + 1).toNat) else file)
        = String.mk base ∧
      (LastIndex file '/' ≥ 0 →
        sliceFrom file (LastIndex file '/' + 1) = .ok (String.mk base)) := by
  rcases LastIndex_spec file with ⟨hno, hidx⟩ | ⟨pre, post, hsplit, hpost, hidx⟩
  · refine ⟨[], file.data, rfl, hno, Or.inl ⟨hno, rfl⟩, ?_, ?_⟩
    · rw [hidx]
      simp
    · rw [hidx]
      intro h
      exact absurd h (by decide)
  · have hto : ((pre.length : Int) + 1).toNat = pre.length + 1 := by omega
    have hdrop : file.data.drop (pre.length + 1) = post := by
      rw [hsplit]
      simp
    refine ⟨pre ++ ['/'], post, by rw [hsplit]; simp, hpost, Or.inr ⟨pre, rfl⟩, ?_, ?_⟩
    · rw [hidx, hto, hdrop]
      simp
    · intro _
      have hle : (pre.length : Int) + 1 ≤ (file.data.length : Int) := by
        rw [hsplit]
        simp
      have h0 : (0 : Int) ≤ (pre.length : Int) + 1 := by omega
      unfold sliceFrom
      rw [hidx, if_pos ⟨h0, hle⟩, hto, hdrop]

/-- C25: `fileInfo` never fails, the slice `file[slash+1:]` being within bounds;
when `runtime.Caller` resolves no frame it returns "<???>:1", as it does for
every `skip` beyond the stack and below `MaxInt64`; when it resolves a frame it
returns the part of the path after its last "/" (the whole path when there is
none), which holds no "/", followed by ":" and the line in decimal.  At
`skip = MaxInt64` the frame resolved is the one of `runtime.Caller`. -/
theorem C25_fileInfo_total (env : Env) (skip : Int) (stack : List Frame) :
    fileInfo.checked env skip stack = .ok (fileInfo env skip stack) ∧
    (runtime.Caller env skip ({ pkg := libPkg, file := env.logGo, line := 544 } :: stack) = none →
      fileInfo env skip stack = "<???>:1") ∧
    (∀ fr,
      runtime.Caller env skip ({ pkg := libPkg, file := env.logGo, line := 544 } :: stack)
        = some fr →
      ∃ dir base : List Char, fr.file.data = dir ++ base ∧ '/' ∉ base ∧
        (('/' ∉ fr.file.data ∧ dir = []) ∨ ∃ d, dir = d ++ ['/']) ∧
        fileInfo env skip stack
          = String.mk base ++ ":" ++ String.mk (Nat.toDigits 10 fr.line)) ∧
    ((stack.length : Int) < skip → skip < MaxInt64 → fileInfo env skip stack = "<???>:1") ∧
    runtime.Caller env MaxInt64 ({ pkg := libPkg, file := env.logGo, line := 544 } :: stack)
      = some env.runtimeCaller ∧
    fileInfo sampleEnv MaxInt64 userStack = "extern.go:313" ∧
    fileInfo sampleEnv 2 ({ pkg := libPkg, file := sampleEnv.logGo, line := 250 } :: userStack)
      = "main.go:23" ∧
    fileInfo sampleEnv 1 [{ pkg := "main", file := "main.go", line := 5 }] = "main.go:5" ∧
    fileInfo sampleEnv 0 userStack = "log.go:544" ∧
    fileInfo sampleEnv 3 userStack = "<???>:1" := by
  have hnone : runtime.Caller env skip
      ({ pkg := libPkg, file := env.logGo, line := 544 } :: stack) = none →
      fileInfo env skip stack = "<???>:1" := by
    intro h
    unfold fileInfo
    rw [h]
    decide
  refine ⟨?_, hnone, ?_, ?_, runtime.Caller_wraps env MaxInt64 _ (Or.inl rfl), by decide,
    by decide, by decide, by decide, by decide⟩
  · unfold fileInfo.checked fileInfo
    cases hC : runtime.Caller env skip
        ({ pkg := libPkg, file := env.logGo, line := 544 } :: stack) with
    | none => rfl
    | some fr =>
      obtain ⟨dir, base, _, _, _, hfile, hslice⟩ := fileInfo.resolved fr.file
      by_cases h : LastIndex fr.file '/' ≥ 0
      · rw [if_pos h] at hfile
        simp only [h, if_true, hslice h, hfile]
      · simp only [h, if_false]
  · intro fr hC
    obtain ⟨dir, base, hsplit, hbase, hdir, hfile, _⟩ := fileInfo.resolved fr.file
    refine ⟨dir, base, hsplit, hbase, hdir, ?_⟩
    unfold fileInfo
    rw [hC]
    simp only [hfile]
    rfl
  · intro h hmax
    apply hnone
    have hw : wrapInt (skip + 1) = skip + 1 :=
      wrapInt_of_range (by unfold MinInt64; omega) (by omega)
    have h0 : ¬ skip + 1 < 1 := by omega
    simp only [runtime.Caller, hw, h0, if_false]
    apply List.getElem?_eq_none
    simp only [List.length_cons]
    omega

/-! ## `Flush` statement by statement, interleaved with `createLog` -/

theorem runSteps_append : ∀ (xs ys : List Step) (r : Run),
    runSteps (xs ++ ys) r = runSteps ys (runSteps xs r) := by
  intro xs
  induction xs with
  | nil => intro ys r; rfl
  | cons x xs ih => intro ys r; exact ih ys (x.run r)

/-- The turns of the stderr goroutine in a run are the turns of `logStdErr.run`. -/
theorem runSteps_logStdErr : ∀ (n : Nat) (r : Run),
    runSteps (List.replicate n .logStdErr) r = { r with state := logStdErr.run n r.state } := by
  intro n
  induction n with
  | zero => intro r; rfl
  | succ n ih =>
    intro r
    show runSteps (List.replicate n .logStdErr) (Step.run .logStdErr r) = _
    rw [ih]
    rfl

/-- The three statements, taken without another goroutine in between, are
`Flush`: when the first `Flush` returns in `s1`, the run of `flushSteps` ends in
`s1` with all three statements executed. -/
theorem flushSteps_Flush (s s1 : State) (hf : s.cleanup = .fresh)
    (h : Flush s = .ret () s1) :
    runSteps (flushSteps (s.buffer s.stderrClient).length) (Run.start s)
      = { state := s1, flushed := 3, outcomes := [], sliceTex := false } := by
  unfold Flush at h
  rw [hf] at h
  simp only [Flush.once] at h
  have hsc : ({ s with cleanup := OnceState.running } : State).stderrClient = s.stderrClient := rfl
  have hhp : ({ s with cleanup := OnceState.running } : State).heap = s.heap := rfl
  rw [hsc, hhp] at h
  cases hc : s.heap[s.stderrClient]? with
  | none => simp [hc] at h
  | some c =>
    cases hw : c.writer with
    | none => simp [hc, hw] at h
    | some ch =>
      cases hcl : ch.closed with
      | true => simp [hc, hw, hcl] at h
      | false =>
        simp only [hc, hw, hcl] at h
        have hbuf : (s.buffer s.stderrClient).length = ch.buf.length := by
          rw [State.buffer_eq hc hw]
        have hclose : Flush.close { s with cleanup := OnceState.running }
            = .ret () { s with
                cleanup := OnceState.running
                heap := s.heap.set s.stderrClient
                  { c with writer := some { ch with closed := true } } } := by
          simp only [Flush.close, hc, hw, hcl]
          rfl
        rw [hbuf]
        show runSteps (List.replicate (ch.buf.length + 1) Step.logStdErr ++ [.wait, .destroy])
          (Step.run .close (Run.start s)) = _
        have h1 : Step.run .close (Run.start s)
            = { state := { s with
                  cleanup := OnceState.running
                  heap := s.heap.set s.stderrClient
                    { c with writer := some { ch with closed := true } } },
                flushed := 1, outcomes := [], sliceTex := false } := by
          simp only [Step.run, Run.start, hf, hclose]
          simp
        rw [h1, runSteps_append, runSteps_logStdErr]
        simp only [Bool.false_eq_true, if_false] at h
        generalize logStdErr.run (ch.buf.length + 1)
          { s with
            cleanup := OnceState.running
            heap := s.heap.set s.stderrClient
              { c with writer := some { ch with closed := true } } } = t at h ⊢
        unfold Flush.finish at h
        cases hfin : t.stderrFinished with
        | nil => simp [hfin] at h
        | cons b rest =>
          simp only [hfin] at h
          have hwait : Flush.wait t = .ret () { t with stderrFinished := rest } := by
            simp only [Flush.wait, hfin]
          cases hD : Client.Destroy t.stderrClient { t with stderrFinished := rest } with
          | block s2 => simp [hD] at h
          | panic v s2 => simp [hD] at h
          | ret v s2 =>
            simp only [hD] at h
            have hs1 : s1 = { s2 with cleanup := OnceState.done } := by
              injection h with _ h2
              exact h2.symm
            simp only [runSteps, Step.run, hwait]
            simp only [if_true]
            have hD2 : Client.Destroy
                ({ t with stderrFinished := rest } : State).stderrClient
                { t with stderrFinished := rest } = .ret v s2 := hD
            simp only [hD2, Outcome.state, hs1]
            simp


/-- The loop of `createLog` over a registry that holds the address `x` of a
client whose channel is closed and whose filter matches the entry, the other
clients being good and open: the send to `x` is attempted and the loop panics
with the run-time error of a send on a closed channel. -/
theorem createLog.range_closed (e : Entry) (x : Nat) : ∀ (ps : List Nat) (s : State),
    ps.Nodup → x ∈ ps →
    (∀ p ∈ ps, p ≠ x → ∃ c, s.heap[p]? = some c ∧ c.Good ∧ c.Open) →
    (∃ c ch, s.heap[x]? = some c ∧ c.matchesNamespace e.Namespace = true ∧
      c.writer = some ch ∧ ch.closed = true) →
    ∃ s1, createLog.range e ps s = .panic (.runtimeError "send on closed channel") s1 ∧
      s1.clients = s.clients ∧ s1.heap[x]? = s.heap[x]? := by
  intro ps
  induction ps with
  | nil => intro s _ hx; cases hx
  | cons p ps ih =>
    intro s hnd hx hall hclosed
    obtain ⟨hpn, hnd1⟩ := List.nodup_cons.mp hnd
    by_cases hpx : p = x
    · subst hpx
      obtain ⟨c, ch, hc, hm, hw, hcl⟩ := hclosed
      have hd : createLog.deliver c e = .panic (.runtimeError "send on closed channel") c := by
        simp [createLog.deliver, hm, hw, hcl]
      refine ⟨{ s with heap := s.heap.set p c }, ?_, rfl, ?_⟩
      · simp only [createLog.range, hc, hd]
      · show (s.heap.set p c)[p]? = s.heap[p]?
        rw [List.getElem?_set_self (lt_length_of_heap hc), hc]
    · have hxps : x ∈ ps := by
        rcases List.mem_cons.mp hx with h | h
        · exact absurd h.symm hpx
        · exact h
      obtain ⟨c, hc, hg, ho⟩ := hall p (List.mem_cons_self p ps) hpx
      have hall1 : ∀ q ∈ ps, q ≠ x → ∃ cq,
          ({ s with heap := s.heap.set p (c.offer e) } : State).heap[q]? = some cq ∧
            cq.Good ∧ cq.Open := by
        intro q hq hqx
        obtain ⟨cq, hcq, hgq⟩ := hall q (List.mem_cons_of_mem p hq) hqx
        have hne : p ≠ q := fun h => hpn (h ▸ hq)
        refine ⟨cq, ?_, hgq⟩
        show (s.heap.set p (c.offer e))[q]? = some cq
        rw [List.getElem?_set_ne hne]
        exact hcq
      have hxe : ({ s with heap := s.heap.set p (c.offer e) } : State).heap[x]? = s.heap[x]? := by
        show (s.heap.set p (c.offer e))[x]? = s.heap[x]?
        exact List.getElem?_set_ne hpx
      have hclosed1 : ∃ cx ch,
          ({ s with heap := s.heap.set p (c.offer e) } : State).heap[x]? = some cx ∧
            cx.matchesNamespace e.Namespace = true ∧ cx.writer = some ch ∧ ch.closed = true := by
        obtain ⟨cx, ch, hcx, hrest⟩ := hclosed
        exact ⟨cx, ch, by rw [hxe]; exact hcx, hrest⟩
      obtain ⟨s1, hr, hcl1, hx1⟩ :=
        ih { s with heap := s.heap.set p (c.offer e) } hnd1 hxps hall1 hclosed1
      refine ⟨s1, ?_, hcl1, hx1.trans hxe⟩
      simp only [createLog.range, hc, createLog.deliver_good e hg ho]
      exact hr

/-- In a reachable state in which `Flush` has not run, `close(stderrClient.writer)`
returns and leaves the stderr client registered; a call of `createLog` made by
another goroutine before `Flush` goes on, with an entry that the filter of the
stderr client matches, attempts the send on the closed channel and panics. -/
theorem createLog_after_close {s : State} (hs : Reachable s) (hf : s.cleanup = .fresh)
    (e : Entry) {c : Client} (hc : s.heap[s.stderrClient]? = some c)
    (hm : c.matchesNamespace e.Namespace = true) :
    ∃ s1 s2, Flush.close { s with cleanup := .running } = .ret () s1 ∧
      s1.stderrClient ∈ s1.clients ∧ s1.cleanup = .running ∧
      createLog e s1 = .panic (.runtimeError "send on closed channel") s2 ∧
      s2.stderrClient ∈ s2.clients := by
  have h := hs.wf
  have hreg := hs.stderr_registered hf
  obtain ⟨c1, hc1, hg, ho⟩ := h.good _ hreg
  have hcc : c1 = c := Option.some.inj (hc1.symm.trans hc)
  subst hcc
  obtain ⟨hi, ch, hw, hcap, hlen⟩ := hg
  have hopen : ch.closed = false := ho (by simp) ch hw
  have hlt := lt_length_of_heap hc
  have hclose : Flush.close { s with cleanup := OnceState.running }
      = .ret () { s with
          cleanup := OnceState.running
          heap := s.heap.set s.stderrClient
            { c1 with writer := some { ch with closed := true } } } := by
    have hc2 : ({ s with cleanup := OnceState.running } : State).heap[
        ({ s with cleanup := OnceState.running } : State).stderrClient]? = some c1 := hc
    simp only [Flush.close, hc2, hw, hopen]
    rfl
  have hall : ∀ p ∈ s.clients, p ≠ s.stderrClient → ∃ cp,
      (s.heap.set s.stderrClient { c1 with writer := some { ch with closed := true } })[p]?
        = some cp ∧ cp.Good ∧ cp.Open := by
    intro p hp hpx
    obtain ⟨cp, hcp, hgp, hop⟩ := h.good p hp
    refine ⟨cp, ?_, hgp, hop (by simp)⟩
    rw [List.getElem?_set_ne (Ne.symm hpx)]
    exact hcp
  have hclosed : ∃ cx chx,
      (s.heap.set s.stderrClient { c1 with writer := some { ch with closed := true } })[
        s.stderrClient]? = some cx ∧
        cx.matchesNamespace e.Namespace = true ∧ cx.writer = some chx ∧ chx.closed = true := by
    refine ⟨{ c1 with writer := some { ch with closed := true } }, { ch with closed := true },
      List.getElem?_set_self hlt, ?_, rfl, rfl⟩
    rw [← hm]
    exact Client.matchesNamespace_congr rfl _
  obtain ⟨s2, hr, hcl2, _⟩ := createLog.range_closed e s.stderrClient s.clients
    { s with
      cleanup := OnceState.running
      heap := s.heap.set s.stderrClient { c1 with writer := some { ch with closed := true } }
      namespaces := trackNamespace e.Namespace s.namespaces }
    h.nodup hreg hall hclosed
  have hframe := createLog.range_frame e s.clients
    { s with
      cleanup := OnceState.running
      heap := s.heap.set s.stderrClient { c1 with writer := some { ch with closed := true } }
      namespaces := trackNamespace e.Namespace s.namespaces }
  refine ⟨_, s2, hclose, hreg, rfl, hr, ?_⟩
  rw [hr] at hframe
  have h1 : s2.stderrClient = s.stderrClient := by
    have h2 := congrArg State.stderrClient hframe
    exact h2
  rw [h1, hcl2]
  exact hreg


/-- C24: between the first and the third statement of `Flush` the stderr client
is still registered and its channel is closed, and a call of `createLog` that
another goroutine makes at that point attempts the send on the closed channel
and panics: so after `init`, `close(stderrClient.writer)` and a call of `Trace`
or `Info`; and so in every reachable state in which `Flush` has not run, for
every entry that the filter of the stderr client matches.  Before the first
statement and after the third, `createLog` returns. -/
theorem C24_createLog_sends_on_closed_stderr_buffer :
    (runSteps [.close] (Run.start (init false))).flushed = 1 ∧
    closedState.cleanup = .running ∧
    closedState.stderrClient ∈ closedState.clients ∧
    closedState.heap[closedState.stderrClient]? = some
      { LogLevel := LTrace, Namespaces := [DefaultNamespace],
        writer := some { buf := [], cap := 1000, closed := true }, initialized := true } ∧
    createLog defaultEntry closedState
      = .panic (.runtimeError "send on closed channel")
          { closedState with namespaces := [DefaultNamespace] } ∧
    (runSteps [.close, .createLog defaultEntry] (Run.start (init false))).outcomes
      = [.panic (.runtimeError "send on closed channel")
          { closedState with namespaces := [DefaultNamespace] }] ∧
    Fn.call sampleEnv .Info ⟨"", [.other "started"]⟩ userStack closedState
      = .panic (.runtimeError "send on closed channel")
          { closedState with namespaces := [DefaultNamespace] } ∧
    (∀ (s : State) (e : Entry) (c : Client), Reachable s → s.cleanup = .fresh →
      s.heap[s.stderrClient]? = some c → c.matchesNamespace e.Namespace = true →
      ∃ s1 s2, Flush.close { s with cleanup := .running } = .ret () s1 ∧
        s1.stderrClient ∈ s1.clients ∧ s1.cleanup = .running ∧
        createLog e s1 = .panic (.runtimeError "send on closed channel") s2 ∧
        s2.stderrClient ∈ s2.clients) ∧
    (∃ s1, createLog defaultEntry (init false) = .ret () s1 ∧
      s1.buffer s1.stderrClient = [defaultEntry]) ∧
    (∃ r s1, runSteps (flushSteps 0) (Run.start (init false)) = r ∧ r.flushed = 3 ∧
      r.state.clients = [] ∧ r.state.cleanup = .done ∧
      createLog defaultEntry r.state = .ret () s1 ∧ s1.buffer s1.stderrClient = []) := by
  refine ⟨rfl, rfl, by decide, rfl, rfl, rfl, rfl, ?_, ⟨_, rfl, rfl⟩, ⟨_, _, rfl, rfl, rfl, rfl, rfl, rfl⟩⟩
  intro s e c hs hf hc hm
  exact createLog_after_close hs hf e hc hm

end LogSocket
